import Mathlib

/-!
# golang-openai: a verification development

A shallow embedding of the Go package `openai` (files `client.go`, `chat.go`,
`embeddings.go`, `finetuning.go`, `audio.go`) together with the parts of the Go
standard library the package calls (`encoding/json`, `mime/multipart`,
`net/http`, `fmt`, `io`).

Conventions of the embedding

* a Go `string` is a Lean `String`; a byte is a natural number below 256 and a
  `[]byte` is a `List Byte`;
* a Go pointer `*T` is an `Option T` (`none` is `nil`); a slice `[]T` is an
  `Option (List T)` (`none` is the nil slice, `some []` an empty non-nil slice);
  a map is an `Option` of its list of entries (`none` is the nil map);
* a Go `float64` is its IEEE-754 bit pattern; the decimal formatting and parsing
  of floats (`strconv`) is a parameter of the development (`Strconv`), with the
  instance `Strconv.go` that computes both exactly on fractions;
* `int` and `int64` are `Int`, with the 64-bit range checked where Go checks it;
* a call of an endpoint method yields a `Call`: the HTTP requests it handed to
  the transport, and either the returned pair `(value, error)` or a run-time
  panic.
-/

namespace OpenAI

/-! ## Decimal integers (`strconv.FormatInt`) -/

/-- The decimal digit of a number below ten. -/
def digitChar (n : Nat) : Char := Char.ofNat (48 + n)

/-- The decimal digits of `n` in front of `acc`; `fuel` bounds the number of digits. -/
def natDigits : Nat → Nat → List Char → List Char
  | 0, _, acc => acc
  | fuel + 1, n, acc =>
    if n < 10 then digitChar n :: acc else natDigits fuel (n / 10) (digitChar (n % 10) :: acc)

/-- The decimal text of a natural number. -/
def formatNat (n : Nat) : List Char := natDigits (n + 1) n []

/-- The function `strconv.FormatInt(n, 10)`, also the verb `%d`. -/
def formatInt : Int → List Char
  | .ofNat n => formatNat n
  | .negSucc n => '-' :: formatNat (n + 1)

/-! ## Go errors and `fmt` -/

/-- A Go `error` value: a plain message (`errors.New`, `fmt.Errorf` without `%w`,
the errors of the standard library) or a message wrapping another error
(`fmt.Errorf` with `%w`). -/
inductive GoError where
  | errorString (msg : String)
  | wrapError (msg : String) (err : GoError)
deriving DecidableEq, Repr

/-- The method `Error()` of an error. -/
def GoError.Error : GoError → String
  | .errorString msg => msg
  | .wrapError msg _ => msg

/-- The function `errors.Unwrap`. -/
def GoError.Unwrap : GoError → Option GoError
  | .errorString _ => none
  | .wrapError _ err => some err

/-- The call `fmt.Errorf(format, err)` for a format `text ++ "%w"`. -/
def Errorf_w (text : String) (err : GoError) : GoError :=
  .wrapError (text ++ err.Error) err

/-- The rendering of an `int` by the verb `%d`. -/
def Sprintf_d (n : Int) : String := String.mk (formatInt n)

/-- The call `fmt.Errorf(format, n)` for a format `text ++ "%d"`. -/
def Errorf_d (text : String) (n : Int) : GoError :=
  .errorString (text ++ Sprintf_d n)

/-- The error `io.EOF`. -/
def io.EOF : GoError := .errorString "EOF"

/-- The error `io.ErrUnexpectedEOF`. -/
def io.ErrUnexpectedEOF : GoError := .errorString "unexpected EOF"

/-! ## Bytes and UTF-8 -/

/-- A byte, as a natural number (below 256 in every well-formed value). -/
abbrev Byte := Nat

/-- The rune `utf8.RuneError`, U+FFFD. -/
def RuneError : Char := Char.ofNat 0xFFFD

/-- The function `utf8.AppendRune`: the UTF-8 encoding of one character. -/
def encodeRune (c : Char) : List Byte :=
  let n := c.toNat
  if n < 0x80 then [n]
  else if n < 0x800 then [0xC0 + n / 64, 0x80 + n % 64]
  else if n < 0x10000 then [0xE0 + n / 4096, 0x80 + n / 64 % 64, 0x80 + n % 64]
  else [0xF0 + n / 262144, 0x80 + n / 4096 % 64, 0x80 + n / 64 % 64, 0x80 + n % 64]

/-- The bytes of a Go string holding the text `cs`. -/
def encodeUTF8 : List Char → List Byte
  | [] => []
  | c :: cs => encodeRune c ++ encodeUTF8 cs

/-- A continuation byte, `0x80 .. 0xBF`. -/
def isCont (b : Byte) : Bool := 0x80 ≤ b && b ≤ 0xBF

/-- The function `utf8.DecodeRune` at a non-empty input `b0 :: rest`: the rune and
its width in bytes. An invalid or truncated encoding yields `RuneError` and width 1. -/
def decodeRune (b0 : Byte) (rest : List Byte) : Char × Nat :=
  if b0 < 0x80 then (Char.ofNat b0, 1)
  else if 0xC2 ≤ b0 && b0 ≤ 0xDF then
    match rest with
    | b1 :: _ => if isCont b1 then (Char.ofNat ((b0 - 0xC0) * 64 + (b1 - 0x80)), 2) else (RuneError, 1)
    | _ => (RuneError, 1)
  else if 0xE0 ≤ b0 && b0 ≤ 0xEF then
    match rest with
    | b1 :: b2 :: _ =>
      let lo := if b0 = 0xE0 then 0xA0 else 0x80
      let hi := if b0 = 0xED then 0x9F else 0xBF
      if lo ≤ b1 && b1 ≤ hi && isCont b2 then
        (Char.ofNat ((b0 - 0xE0) * 4096 + (b1 - 0x80) * 64 + (b2 - 0x80)), 3)
      else (RuneError, 1)
    | _ => (RuneError, 1)
  else if 0xF0 ≤ b0 && b0 ≤ 0xF4 then
    match rest with
    | b1 :: b2 :: b3 :: _ =>
      let lo := if b0 = 0xF0 then 0x90 else 0x80
      let hi := if b0 = 0xF4 then 0x8F else 0xBF
      if lo ≤ b1 && b1 ≤ hi && isCont b2 && isCont b3 then
        (Char.ofNat ((b0 - 0xF0) * 262144 + (b1 - 0x80) * 4096 + (b2 - 0x80) * 64 + (b3 - 0x80)), 4)
      else (RuneError, 1)
    | _ => (RuneError, 1)
  else (RuneError, 1)

/-- Decoding of a byte sequence rune by rune; `skip` bytes of the rune decoded
last are still to be passed over. -/
def decodeUTF8Aux : Nat → List Byte → List Char
  | _, [] => []
  | skip + 1, _ :: rest => decodeUTF8Aux skip rest
  | 0, b0 :: rest => (decodeRune b0 rest).1 :: decodeUTF8Aux ((decodeRune b0 rest).2 - 1) rest

/-- The text of a byte sequence as `encoding/json` reads it: rune by rune with
`utf8.DecodeRune`, every invalid byte standing for U+FFFD. -/
def decodeUTF8 (bs : List Byte) : List Char := decodeUTF8Aux 0 bs

/-! ## JSON documents -/

/-- A JSON value. A number keeps its literal text, as the scanner of
`encoding/json` does; strings are held decoded. -/
inductive JSON where
  | null
  | bool (b : Bool)
  | number (lit : String)
  | string (s : String)
  | array (elems : List JSON)
  | object (members : List (String × JSON))
deriving Repr

/-- Arrays and objects: the values whose end the scanner sees at the closing
bracket, without looking at the byte that follows. -/
def JSON.isComposite : JSON → Bool
  | .array _ => true
  | .object _ => true
  | _ => false

/-- The name `encoding/json` gives the kind of a value in a type error. -/
def JSON.kind : JSON → String
  | .null => "null"
  | .bool _ => "bool"
  | .number _ => "number"
  | .string _ => "string"
  | .array _ => "array"
  | .object _ => "object"

/-! ### Writing (`encodeState`) -/

/-- One digit of the table `hex = "0123456789abcdef"`. -/
def hexDigit (n : Nat) : Char :=
  if n < 10 then Char.ofNat (48 + n) else Char.ofNat (87 + n)

/-- The text written for one character of a string by `appendString` with HTML
escaping on, as `json.Marshal` sets it. -/
def escapeChar (c : Char) : List Char :=
  if c = '"' then ['\\', '"']
  else if c = '\\' then ['\\', '\\']
  else if c = '\x08' then ['\\', 'b']
  else if c = '\x0c' then ['\\', 'f']
  else if c = '\n' then ['\\', 'n']
  else if c = '\r' then ['\\', 'r']
  else if c = '\t' then ['\\', 't']
  else if c.toNat < 0x20 ∨ c = '<' ∨ c = '>' ∨ c = '&' then
    ['\\', 'u', '0', '0', hexDigit (c.toNat / 16), hexDigit (c.toNat % 16)]
  else if c = Char.ofNat 0x2028 then ['\\', 'u', '2', '0', '2', '8']
  else if c = Char.ofNat 0x2029 then ['\\', 'u', '2', '0', '2', '9']
  else [c]

/-- The escaped contents of a string, without the surrounding quotes. -/
def escapeString : List Char → List Char
  | [] => []
  | c :: cs => escapeChar c ++ escapeString cs

/-- A quoted JSON string. -/
def renderString (s : String) : List Char :=
  '"' :: (escapeString s.data ++ ['"'])

mutual
/-- The compact text of a JSON value, as `json.Marshal` writes it. -/
def JSON.render : JSON → List Char
  | .null => ['n', 'u', 'l', 'l']
  | .bool true => ['t', 'r', 'u', 'e']
  | .bool false => ['f', 'a', 'l', 's', 'e']
  | .number lit => lit.data
  | .string s => renderString s
  | .array elems => '[' :: (JSON.renderElems elems ++ [']'])
  | .object members => '\x7b' :: (JSON.renderMembers members ++ ['\x7d'])
/-- The elements of an array, separated by commas. -/
def JSON.renderElems : List JSON → List Char
  | [] => []
  | [j] => JSON.render j
  | j :: js => JSON.render j ++ ',' :: JSON.renderElems js
/-- The members of an object, separated by commas. -/
def JSON.renderMembers : List (String × JSON) → List Char
  | [] => []
  | [(k, j)] => renderString k ++ ':' :: JSON.render j
  | (k, j) :: ms => renderString k ++ ':' :: (JSON.render j ++ ',' :: JSON.renderMembers ms)
end

/-! ### Reading (`scanner`, `Decoder`) -/

/-- Why the scanner stopped without a value. -/
inductive ScanError where
  /-- The input ended inside a value. -/
  | needMore
  /-- The character `c` is not allowed at this place (`*json.SyntaxError`). -/
  | invalid (c : Char) (context : String)
  /-- The recursion budget of the embedding ran out (`parseValue_fuel` shows that
  the budget `Decoder.readValue` gives is never exhausted). -/
  | outOfFuel
deriving DecidableEq, Repr

/-- The function `isSpace` of the scanner. -/
def isSpace (c : Char) : Bool := c = ' ' || c = '\t' || c = '\r' || c = '\n'

/-- Skipping of insignificant white space. -/
def skipSpace : List Char → List Char
  | [] => []
  | c :: cs => if isSpace c then skipSpace cs else c :: cs

/-- The value of a hexadecimal digit. -/
def hexVal (c : Char) : Option Nat :=
  if 48 ≤ c.toNat ∧ c.toNat ≤ 57 then some (c.toNat - 48)
  else if 97 ≤ c.toNat ∧ c.toNat ≤ 102 then some (c.toNat - 87)
  else if 65 ≤ c.toNat ∧ c.toNat ≤ 70 then some (c.toNat - 55)
  else none

/-- The function `getu4` on the four characters after `\u`. -/
def hex4 (a b c d : Char) : Option Nat :=
  match hexVal a, hexVal b, hexVal c, hexVal d with
  | some x, some y, some z, some w => some (((x * 16 + y) * 16 + z) * 16 + w)
  | _, _, _, _ => none

/-- The error of the scanner inside the four digits of a `\u` escape: the first
character that is not a hexadecimal digit, or the end of the input. -/
def hexError : List Char → ScanError
  | [] => .needMore
  | c :: cs => if (hexVal c).isSome then hexError cs else .invalid c "in \\u hexadecimal character escape"

/-- The character of a one-letter escape. -/
def unescape (c : Char) : Option Char :=
  if c = '"' then some '"'
  else if c = '\\' then some '\\'
  else if c = '/' then some '/'
  else if c = 'b' then some '\x08'
  else if c = 'f' then some '\x0c'
  else if c = 'n' then some '\n'
  else if c = 'r' then some '\r'
  else if c = 't' then some '\t'
  else none

/-- The low half of a surrogate pair at the head of the input, `\uXXXX` with
`XXXX` in `DC00 .. DFFF`, and the input after it. -/
def lowSurrogate : List Char → Option (Nat × List Char)
  | '\\' :: 'u' :: a :: b :: c :: d :: rest =>
    match hex4 a b c d with
    | some m => if 0xDC00 ≤ m ∧ m < 0xE000 then some (m, rest) else none
    | none => none
  | _ => none

/-- The contents of a string literal after its opening quote, decoded
(`stateInString` and `unquote`), and the input after the closing quote. -/
def readString : Nat → List Char → Except ScanError (List Char × List Char)
  | 0, _ => .error .outOfFuel
  | _ + 1, [] => .error .needMore
  | fuel + 1, c :: rest =>
    if c = '"' then .ok ([], rest)
    else if c = '\\' then
      match rest with
      | [] => .error .needMore
      | 'u' :: a :: b :: c :: d :: rest =>
        match hex4 a b c d with
        | none => .error (hexError [a, b, c, d])
        | some n =>
          if 0xD800 ≤ n ∧ n < 0xE000 then
            match (if n < 0xDC00 then lowSurrogate rest else none) with
            | some (m, rest2) =>
              (readString fuel rest2).map fun r =>
                (Char.ofNat (0x10000 + (n - 0xD800) * 0x400 + (m - 0xDC00)) :: r.1, r.2)
            | none => (readString fuel rest).map fun r => (RuneError :: r.1, r.2)
          else (readString fuel rest).map fun r => (Char.ofNat n :: r.1, r.2)
      | 'u' :: short => .error (hexError short)
      | e :: rest =>
        match unescape e with
        | some x => (readString fuel rest).map fun r => (x :: r.1, r.2)
        | none => .error (.invalid e "in string escape code")
    else if c.toNat < 0x20 then .error (.invalid c "in string literal")
    else (readString fuel rest).map fun r => (c :: r.1, r.2)

/-- A decimal digit. -/
def isDigit (c : Char) : Bool := 48 ≤ c.toNat && c.toNat ≤ 57

/-- The longest run of digits at the head of the input, and the rest. -/
def spanDigits : List Char → List Char × List Char
  | [] => ([], [])
  | c :: cs => if isDigit c then (c :: (spanDigits cs).1, (spanDigits cs).2) else ([], c :: cs)

/-- One digit or more; `context` names the place for the error message. -/
def digits1 (context : String) : List Char → Except ScanError (List Char × List Char)
  | [] => .error .needMore
  | c :: cs =>
    if isDigit c then .ok (c :: (spanDigits cs).1, (spanDigits cs).2)
    else .error (.invalid c context)

/-- The integer part of a number (`stateNeg`, `state0`, `state1`). -/
def lexInt : List Char → Except ScanError (List Char × List Char)
  | [] => .error .needMore
  | c :: cs =>
    if c = '0' then .ok (['0'], cs)
    else if isDigit c then .ok (c :: (spanDigits cs).1, (spanDigits cs).2)
    else .error (.invalid c "in numeric literal")

/-- The optional fraction of a number (`stateDot`, `stateDot0`). -/
def lexFrac : List Char → Except ScanError (List Char × List Char)
  | '.' :: cs =>
    (digits1 "after decimal point in numeric literal" cs).map fun r => ('.' :: r.1, r.2)
  | s => .ok ([], s)

/-- The optional exponent of a number (`stateE`, `stateESign`, `stateE0`). -/
def lexExp : List Char → Except ScanError (List Char × List Char)
  | [] => .ok ([], [])
  | e :: cs =>
    if e = 'e' ∨ e = 'E' then
      match cs with
      | [] => .error .needMore
      | sign :: ds =>
        if sign = '+' ∨ sign = '-' then
          (digits1 "in exponent of numeric literal" ds).map fun r => (e :: sign :: r.1, r.2)
        else
          (digits1 "in exponent of numeric literal" cs).map fun r => (e :: r.1, r.2)
    else .ok ([], e :: cs)

/-- The optional minus sign and the integer part of a number. -/
def lexSigned : List Char → Except ScanError (List Char × List Char)
  | '-' :: cs => (lexInt cs).map fun r => ('-' :: r.1, r.2)
  | s => lexInt s

/-- A number literal at the head of the input, and the input after it. -/
def lexNumber (s : List Char) : Except ScanError (List Char × List Char) :=
  (lexSigned s).bind fun i =>
  (lexFrac i.2).bind fun f =>
  (lexExp f.2).map fun e => (i.1 ++ f.1 ++ e.1, e.2)

/-- The rest of a literal `true`, `false` or `null` after its first letter
(`stateT` .. `stateNul`). -/
def expectLit (name : String) : List Char → List Char → Except ScanError (List Char)
  | [], s => .ok s
  | _ :: _, [] => .error .needMore
  | e :: es, c :: cs =>
    if c = e then expectLit name es cs
    else .error (.invalid c ("in literal " ++ name ++ " (expecting '" ++ String.singleton e ++ "')"))

mutual
/-- One JSON value at the head of the input (after white space), and the input
after it (`stateBeginValue`). -/
def parseValue : Nat → List Char → Except ScanError (JSON × List Char)
  | 0, _ => .error .outOfFuel
  | fuel + 1, s =>
    match skipSpace s with
    | [] => .error .needMore
    | c :: rest =>
      if c = '\x7b' then
        match skipSpace rest with
        | '\x7d' :: r => .ok (.object [], r)
        | _ => (parseMembers fuel rest).map fun r => (.object r.1, r.2)
      else if c = '[' then
        match skipSpace rest with
        | ']' :: r => .ok (.array [], r)
        | _ => (parseElems fuel rest).map fun r => (.array r.1, r.2)
      else if c = '"' then
        (readString (rest.length + 1) rest).map fun r => (.string (String.mk r.1), r.2)
      else if c = '-' ∨ isDigit c then
        (lexNumber (c :: rest)).map fun r => (.number (String.mk r.1), r.2)
      else if c = 't' then
        (expectLit "true" ['r', 'u', 'e'] rest).map fun r => (.bool true, r)
      else if c = 'f' then
        (expectLit "false" ['a', 'l', 's', 'e'] rest).map fun r => (.bool false, r)
      else if c = 'n' then
        (expectLit "null" ['u', 'l', 'l'] rest).map fun r => (.null, r)
      else .error (.invalid c "looking for beginning of value")
/-- The elements of a non-empty array up to its closing bracket. -/
def parseElems : Nat → List Char → Except ScanError (List JSON × List Char)
  | 0, _ => .error .outOfFuel
  | fuel + 1, s =>
    (parseValue fuel s).bind fun v =>
    match skipSpace v.2 with
    | [] => .error .needMore
    | c :: rest =>
      if c = ',' then (parseElems fuel rest).map fun r => (v.1 :: r.1, r.2)
      else if c = ']' then .ok ([v.1], rest)
      else .error (.invalid c "after array element")
/-- The members of a non-empty object up to its closing brace. -/
def parseMembers : Nat → List Char → Except ScanError (List (String × JSON) × List Char)
  | 0, _ => .error .outOfFuel
  | fuel + 1, s =>
    match skipSpace s with
    | [] => .error .needMore
    | q :: afterQuote =>
      if q = '"' then
        (readString (afterQuote.length + 1) afterQuote).bind fun k =>
        match skipSpace k.2 with
        | [] => .error .needMore
        | colon :: afterColon =>
          if colon = ':' then
            (parseValue fuel afterColon).bind fun v =>
            match skipSpace v.2 with
            | [] => .error .needMore
            | c :: rest =>
              if c = ',' then
                (parseMembers fuel rest).map fun r => ((String.mk k.1, v.1) :: r.1, r.2)
              else if c = '\x7d' then .ok ([(String.mk k.1, v.1)], rest)
              else .error (.invalid c "after object key:value pair")
          else .error (.invalid colon "after object key")
      else .error (.invalid q "looking for beginning of object key string")
end

/-- The method `readValue` of a `Decoder` on a stream that holds `text` and then
ends: the first JSON value of the stream and the text after it. An array or an
object ends at its closing bracket and what follows is not looked at; any other
value has to be followed by white space or by the end of the stream. -/
def Decoder.readValue (text : List Char) : Except ScanError (JSON × List Char) :=
  (parseValue (2 * text.length + 1) text).bind fun r =>
  if r.1.isComposite then .ok r
  else
    match r.2 with
    | [] => .ok r
    | c :: _ => if isSpace c then .ok r else .error (.invalid c "after top-level value")

/-- The function `quoteChar` of the scanner, for the character at which it
stopped. The scanner works on bytes: of a character outside ASCII it names the
first byte of the UTF-8 form. -/
def quoteChar (c : Char) : String :=
  if c = '\'' then "'\\''"
  else if c = '"' then "'\"'"
  else if c = '\\' then "'\\\\'"
  else if c = '\x07' then "'\\a'"
  else if c = '\x08' then "'\\b'"
  else if c = '\x0c' then "'\\f'"
  else if c = '\n' then "'\\n'"
  else if c = '\r' then "'\\r'"
  else if c = '\t' then "'\\t'"
  else if c = '\x0b' then "'\\v'"
  else if c.toNat < 0x20 ∨ c.toNat = 0x7f then
    "'\\x" ++ String.mk [hexDigit (c.toNat / 16), hexDigit (c.toNat % 16)] ++ "'"
  else "'" ++ String.singleton (Char.ofNat ((encodeRune c).headD 0)) ++ "'"

/-- The Go error of a scan that failed on a stream that ended cleanly: `io.EOF`
is produced by `Decoder.Decode` itself when the stream holds white space only. -/
def ScanError.toError : ScanError → GoError
  | .needMore => io.ErrUnexpectedEOF
  | .invalid c context => .errorString ("invalid character " ++ quoteChar c ++ " " ++ context)
  | .outOfFuel => .errorString "json: recursion budget of the embedding exhausted"

/-! ## Go values -/

/-- A Go `float64`, held as its IEEE-754 bit pattern (taken modulo `2 ^ 64`). -/
structure Float64 where
  bits : Nat
deriving DecidableEq, Repr

/-- The biased exponent, 11 bits. -/
def Float64.exponent (x : Float64) : Nat := x.bits / 2 ^ 52 % 2 ^ 11

/-- The fraction, 52 bits. -/
def Float64.fraction (x : Float64) : Nat := x.bits % 2 ^ 52

/-- The function `math.IsNaN`. -/
def Float64.isNaN (x : Float64) : Bool := x.exponent = 2047 && x.fraction ≠ 0

/-- The function `math.IsInf(x, 0)`. -/
def Float64.isInf (x : Float64) : Bool := x.exponent = 2047 && x.fraction = 0

/-- The Go comparison `x == 0`, true of both zeros. -/
def Float64.isZero (x : Float64) : Bool := x.bits % 2 ^ 63 = 0

/-- The zero value of `float64`. -/
def Float64.zero : Float64 := ⟨0⟩

/-- The decimal formatting and parsing of floats by the Go library, which the
repository does not contain. -/
structure Strconv where
  /-- The text `encoding/json` writes for a finite float (`floatEncoder`). -/
  FormatFloat : Float64 → String
  /-- The function `strconv.ParseFloat(s, 64)`; `none` when it returns an error. -/
  ParseFloat : String → Option Float64
  /-- The call `fmt.Sprintf("%f", x)`. -/
  Sprintf_f : Float64 → String

/-- The value of a run of decimal digits read after the value `acc`. -/
def parseDigits (acc : Nat) : List Char → Option Nat
  | [] => some acc
  | c :: cs => if isDigit c then parseDigits (acc * 10 + (c.toNat - 48)) cs else none

/-- The function `strconv.ParseInt(s, 10, 64)`; `none` when it returns an error
(not an integer in decimal, or outside the range of `int64`). -/
def ParseInt (s : List Char) : Option Int :=
  match s with
  | [] => none
  | '-' :: ds =>
    if ds = [] then none
    else (parseDigits 0 ds).bind fun n => if n ≤ 2 ^ 63 then some (-(n : Int)) else none
  | '+' :: ds =>
    if ds = [] then none
    else (parseDigits 0 ds).bind fun n => if n < 2 ^ 63 then some (n : Int) else none
  | ds => (parseDigits 0 ds).bind fun n => if n < 2 ^ 63 then some (n : Int) else none

/-! ### The decimal conversions of `strconv`, computed exactly on fractions -/

/-- The sign bit. -/
def Float64.sign (x : Float64) : Bool := x.bits / 2 ^ 63 % 2 = 1

/-- The significand of a finite float, an integer. -/
def Float64.mant (x : Float64) : Nat :=
  if x.exponent = 0 then x.fraction else 2 ^ 52 + x.fraction

/-- The binary exponent of a finite float: its magnitude is `mant * 2 ^ exp2`. -/
def Float64.exp2 (x : Float64) : Int :=
  if x.exponent = 0 then -1074 else (x.exponent : Int) - 1075

/-- The fraction `n / d` multiplied by `b ^ e`, as a numerator and a denominator. -/
def scalePow (b : Nat) (nd : Nat × Nat) (e : Int) : Nat × Nat :=
  if 0 ≤ e then (nd.1 * b ^ e.toNat, nd.2) else (nd.1, nd.2 * b ^ (-e).toNat)

/-- The integer nearest to `n / d`, the even one of two that are equally near. -/
def roundHalfEven (n d : Nat) : Nat :=
  if 2 * (n % d) < d then n / d
  else if d < 2 * (n % d) then n / d + 1
  else if n / d % 2 = 0 then n / d else n / d + 1

/-- The number of binary digits of `n`; `fuel` bounds it. -/
def bitLength : Nat → Nat → Nat
  | 0, _ => 0
  | fuel + 1, n => if n = 0 then 0 else bitLength fuel (n / 2) + 1

/-- The `float64` nearest to the positive fraction `n / d` (ties to even), as
bits without the sign; `none` when the result overflows. -/
def nearestFloat (n d : Nat) : Option Nat :=
  let e0 : Int := (bitLength n n : Int) - (bitLength d d : Int) - 52
  let below := (scalePow 2 (n, d) (-(e0 + 52)))
  let e1 : Int := if below.1 < below.2 then e0 - 1 else e0
  let q : Int := if e1 < -1074 then -1074 else e1
  let s := scalePow 2 (n, d) (-q)
  let m := roundHalfEven s.1 s.2
  let q := if m = 2 ^ 53 then q + 1 else q
  let m := if m = 2 ^ 53 then 2 ^ 52 else m
  if m < 2 ^ 52 then some m
  else if 2047 ≤ q + 1075 then none
  else some ((q + 1075).toNat * 2 ^ 52 + (m - 2 ^ 52))

/-- The exponent part of a decimal literal: empty, or `e`, a sign and digits. -/
def parseExponent : List Char → Option Int
  | [] => some 0
  | e :: cs =>
    if e = 'e' ∨ e = 'E' then
      match cs with
      | [] => none
      | '-' :: ds => if ds = [] then none else (parseDigits 0 ds).map fun n => -(n : Int)
      | '+' :: ds => if ds = [] then none else (parseDigits 0 ds).map fun n => (n : Int)
      | ds => (parseDigits 0 ds).map fun n => (n : Int)
    else none

/-- The magnitude of a decimal literal without sign: digits, an optional
fraction, an optional exponent. -/
def parseMagnitude (s : List Char) : Option Nat :=
  let i := spanDigits s
  let f := match i.2 with
    | '.' :: cs => spanDigits cs
    | cs => ([], cs)
  if i.1 = [] ∧ f.1 = [] then none
  else
    (parseDigits 0 (i.1 ++ f.1)).bind fun digits =>
    (parseExponent f.2).bind fun e =>
    if digits = 0 then some 0
    else
      let nd := scalePow 10 (digits, 1) (e - f.1.length)
      nearestFloat nd.1 nd.2

/-- The function `strconv.ParseFloat(s, 64)` on decimal literals. -/
def parseFloat (s : String) : Option Float64 :=
  match s.data with
  | '-' :: cs => (parseMagnitude cs).map fun b => ⟨2 ^ 63 + b⟩
  | '+' :: cs => (parseMagnitude cs).map fun b => ⟨b⟩
  | cs => (parseMagnitude cs).map fun b => ⟨b⟩

/-- The position of the decimal point of the positive fraction `n / d`: the
`p` with `10 ^ (p - 1) ≤ n / d < 10 ^ p`; `fuel` bounds the search below one. -/
def decimalPoint (n d : Nat) : Nat → Int
  | 0 => 0
  | fuel + 1 =>
    if d ≤ n then ((formatNat (n / d)).length : Int)
    else decimalPoint (n * 10) d fuel - 1

/-- Comparison of two fractions: `a < b`. -/
def fracLt (a b : Nat × Nat) : Bool := a.1 * b.2 < b.1 * a.2

/-- Comparison of two fractions: `a ≤ b`. -/
def fracLe (a b : Nat × Nat) : Bool := a.1 * b.2 ≤ b.1 * a.2

/-- The shortest decimal that reads back as the finite non-zero float `x`, the
nearest to `x` of several: its digits as a number without trailing zeros, and
the position of the decimal point in front of which the digits stand
(the value is `0.digits * 10 ^ point`). The search tries 1, 2, .. digits. -/
def shortestDecimal (x : Float64) : Nat → Nat → Nat × Int
  | 0, _ => (0, 0)
  | fuel + 1, k =>
    let m := x.mant
    let q := x.exp2
    let v := scalePow 2 (m, 1) q
    let upper := scalePow 2 (2 * m + 1, 1) (q - 1)
    let lower :=
      if m = 2 ^ 52 ∧ 1 < x.exponent then scalePow 2 (4 * m - 1, 1) (q - 2)
      else scalePow 2 (2 * m - 1, 1) (q - 1)
    let inclusive := m % 2 = 0
    let p := decimalPoint v.1 v.2 400
    let s := scalePow 10 v ((k : Int) - p)
    let down := s.1 / s.2
    let up := down + 1
    let downV := scalePow 10 (down, 1) (p - k)
    let upV := scalePow 10 (up, 1) (p - k)
    let okdown := if inclusive then fracLe lower downV else fracLt lower downV
    let okup := if inclusive then fracLe upV upper else fracLt upV upper
    let pick : Option Nat :=
      if okdown ∧ okup then some (roundHalfEven s.1 s.2)
      else if okdown then some down
      else if okup then some up
      else none
    match pick with
    | none => shortestDecimal x fuel (k + 1)
    | some c => (c, p - k + (formatNat c).length)

/-- Removal of the zeros at the end of a run of digits. -/
def trimZeros (ds : List Char) : List Char :=
  (ds.reverse.dropWhile fun c => c = '0').reverse

/-- The text of a finite non-zero magnitude with digits `ds` in front of the
decimal point position `p`, in the format `%e` of `strconv` with the exponent
written as `encoding/json` leaves it (no padding zero). -/
def formatE (ds : List Char) (p : Int) : List Char :=
  let e := p - 1
  let mantissa := match ds with
    | [] => ['0']
    | [d] => [d]
    | d :: rest => d :: '.' :: rest
  mantissa ++ 'e' :: (if e < 0 then '-' else '+') :: formatNat e.natAbs

/-- The same in the format `%f` with the fewest digits. -/
def formatF (ds : List Char) (p : Int) : List Char :=
  if p ≤ 0 then '0' :: '.' :: (List.replicate (-p).toNat '0' ++ ds)
  else if p.toNat < ds.length then ds.take p.toNat ++ '.' :: ds.drop p.toNat
  else ds ++ List.replicate (p.toNat - ds.length) '0'

/-- The bits of the float nearest to `n / d`, zero when there is none. -/
def floatBits (n d : Nat) : Nat := (nearestFloat n d).getD 0

/-- The text `encoding/json` writes for a finite float (`floatEncoder`): the
shortest decimal that reads back as the float, in the format `%f`, or in the
format `%e` when the magnitude is below `1e-6` or at least `1e21`. -/
def formatFloat (x : Float64) : String :=
  let abs := x.bits % 2 ^ 63
  let sign := if x.sign then ['-'] else []
  if abs = 0 then String.mk (sign ++ ['0'])
  else
    let r := shortestDecimal x 17 1
    let ds := trimZeros (formatNat r.1)
    if abs < floatBits 1 1000000 ∨ floatBits (10 ^ 21) 1 ≤ abs then String.mk (sign ++ formatE ds r.2)
    else String.mk (sign ++ formatF ds r.2)

/-- The call `fmt.Sprintf("%f", x)`: six digits after the decimal point. -/
def sprintf_f (x : Float64) : String :=
  if x.isNaN then "NaN"
  else if x.isInf then (if x.sign then "-Inf" else "+Inf")
  else
    let s := scalePow 2 (x.mant * 10 ^ 6, 1) x.exp2
    let n := roundHalfEven s.1 s.2
    let frac := formatNat (n % 10 ^ 6)
    String.mk ((if x.sign then ['-'] else []) ++ formatNat (n / 10 ^ 6) ++
      '.' :: (List.replicate (6 - frac.length) '0' ++ frac))

/-- The conversions of the Go library. -/
def Strconv.go : Strconv := ⟨formatFloat, parseFloat, sprintf_f⟩

/-- A value of the empty interface `interface{}`, by dynamic type: the types
`encoding/json` stores into an interface (`nil`, `bool`, `float64`, `string`,
`[]interface{}`, `map[string]interface{}`) and `int`. Slices and maps held in an
interface are non-nil. -/
inductive Any where
  | nil
  | bool (b : Bool)
  | float64 (x : Float64)
  | int (n : Int)
  | string (s : String)
  | slice (elems : List Any)
  | map (entries : List (String × Any))
deriving Repr

/-- The assignment `m[k] = v` on a map with string keys, held as its entries in
ascending order of the keys. -/
def mapSet {α : Type} (k : String) (v : α) : List (String × α) → List (String × α)
  | [] => [(k, v)]
  | (k1, v1) :: m =>
    if k < k1 then (k, v) :: (k1, v1) :: m
    else if k = k1 then (k, v) :: m
    else (k1, v1) :: mapSet k v m

/-- The Go map that a list of entries denotes: the entries assigned in turn to
an empty map. The result is in ascending order of the keys, the order in which
`encoding/json` writes a map. -/
def mapOf {α : Type} (entries : List (String × α)) : List (String × α) :=
  entries.foldl (fun m kv => mapSet kv.1 kv.2 m) []

/-! ## `json.Marshal` -/

/-- The error `*json.UnsupportedValueError` for a float that is not finite. -/
def unsupportedValue (x : Float64) : GoError :=
  .errorString ("json: unsupported value: " ++
    (if x.isNaN then "NaN" else if x.bits % 2 ^ 64 < 2 ^ 63 then "+Inf" else "-Inf"))

/-- Encoding of a `string`. -/
def encString (s : String) : Except GoError JSON := .ok (.string s)

/-- Encoding of a `bool`. -/
def encBool (b : Bool) : Except GoError JSON := .ok (.bool b)

/-- Encoding of an `int` or `int64`. -/
def encInt (n : Int) : Except GoError JSON := .ok (.number (String.mk (formatInt n)))

/-- Encoding of a `float64`: `NaN` and the infinities are refused. -/
def encFloat (sc : Strconv) (x : Float64) : Except GoError JSON :=
  if x.isNaN || x.isInf then .error (unsupportedValue x) else .ok (.number (sc.FormatFloat x))

/-- Encoding of a pointer: `null` for `nil`, else the value pointed to. -/
def encPtr {α : Type} (enc : α → Except GoError JSON) : Option α → Except GoError JSON
  | none => .ok .null
  | some x => enc x

/-- Encoding of each element of a list in turn, stopping at the first error. -/
def encList {α : Type} (enc : α → Except GoError JSON) : List α → Except GoError (List JSON)
  | [] => .ok []
  | x :: xs => (enc x).bind fun j => (encList enc xs).map fun js => j :: js

/-- Encoding of a slice: `null` for the nil slice, else an array. -/
def encSlice {α : Type} (enc : α → Except GoError JSON) : Option (List α) → Except GoError JSON
  | none => .ok .null
  | some xs => (encList enc xs).map .array

/-- The entries of a map whose values are already encoded, in turn, stopping at
the first error. -/
def sequenceEntries : List (String × Except GoError JSON) → Except GoError (List (String × JSON))
  | [] => .ok []
  | (k, x) :: ms => x.bind fun j => (sequenceEntries ms).map fun js => (k, j) :: js

/-- Encoding of a map with string keys: `null` for the nil map, else an object
with the keys in ascending order. -/
def encMap {α : Type} (enc : α → Except GoError JSON) :
    Option (List (String × α)) → Except GoError JSON
  | none => .ok .null
  | some ms => (sequenceEntries (mapOf (ms.map fun kv => (kv.1, enc kv.2)))).map .object

mutual
/-- Encoding of a value of the empty interface, by its dynamic type. -/
def encAny (sc : Strconv) : Any → Except GoError JSON
  | .nil => .ok .null
  | .bool b => encBool b
  | .float64 x => encFloat sc x
  | .int n => encInt n
  | .string s => encString s
  | .slice elems => (encAnyList sc elems).map .array
  | .map entries => (sequenceEntries (mapOf (encAnyEntries sc entries))).map .object
/-- Encoding of the elements of a `[]interface{}`. -/
def encAnyList (sc : Strconv) : List Any → Except GoError (List JSON)
  | [] => .ok []
  | x :: xs => (encAny sc x).bind fun j => (encAnyList sc xs).map fun js => j :: js
/-- Encoding of the value of each entry of a `map[string]interface{}`. -/
def encAnyEntries (sc : Strconv) : List (String × Any) → List (String × Except GoError JSON)
  | [] => []
  | (k, x) :: ms => (k, encAny sc x) :: encAnyEntries sc ms
end

/-- One field of a struct being encoded: its JSON key, whether `omitempty` drops
it (the option is set and the value is empty), and the encoding of its value. -/
structure FieldEnc where
  name : String
  dropped : Bool
  value : Except GoError JSON

/-- Encoding of the fields of a struct in the order of declaration, leaving out
the dropped ones and stopping at the first error. -/
def encodeFields : List FieldEnc → Except GoError (List (String × JSON))
  | [] => .ok []
  | f :: fs =>
    if f.dropped then encodeFields fs
    else f.value.bind fun j => (encodeFields fs).map fun js => (f.name, j) :: js

/-- Encoding of a struct. -/
def encodeStruct (fs : List FieldEnc) : Except GoError JSON :=
  (encodeFields fs).map .object

/-- Emptiness of a slice or a map for `omitempty`: length zero. -/
def isEmptyList {α : Type} (xs : Option (List α)) : Bool := (xs.getD []).isEmpty

/-! ## `json.Unmarshal` -/

/-- The error `*json.UnmarshalTypeError` for a JSON value of kind `value` met
where the Go type `goType` is expected. The message is that of an error outside
a struct field; inside one Go names the field as well. -/
def typeError (value goType : String) : GoError :=
  .errorString ("json: cannot unmarshal " ++ value ++ " into Go value of type " ++ goType)

/-- Decoding of a JSON value into a Go variable of type `α` that holds `old`
(`decodeState.value`): the new content of the variable, or the first error that
`encoding/json` records. `null` leaves a variable that is not a pointer, slice,
map or interface as it is. -/
abbrev Unmarshaler (α : Type) := JSON → α → Except GoError α

/-- Decoding into a `string`. -/
def unmarshalString : Unmarshaler String
  | .null, old => .ok old
  | .string s, _ => .ok s
  | j, _ => .error (typeError j.kind "string")

/-- Decoding into an `int` or `int64` (both 64 bits wide). -/
def unmarshalInt (goType : String) : Unmarshaler Int
  | .null, old => .ok old
  | .number lit, _ =>
    match ParseInt lit.data with
    | some n => .ok n
    | none => .error (typeError ("number " ++ lit) goType)
  | j, _ => .error (typeError j.kind goType)

/-- Decoding into a `float64`. -/
def unmarshalFloat (sc : Strconv) : Unmarshaler Float64
  | .null, old => .ok old
  | .number lit, _ =>
    match sc.ParseFloat lit with
    | some x => .ok x
    | none => .error (typeError ("number " ++ lit) "float64")
  | j, _ => .error (typeError j.kind "float64")

/-- Decoding into a pointer: `null` sets it to `nil`; any other value is decoded
into the variable pointed to, a new one when the pointer is `nil`. -/
def unmarshalPtr {α : Type} (elem : Unmarshaler α) (zero : α) : Unmarshaler (Option α)
  | .null, _ => .ok none
  | j, old => (elem j (old.getD zero)).map some

/-- Decoding of the elements of an array into the elements of a slice: the
element at an index the slice already has is decoded into the old element, the
others into new ones. -/
def unmarshalElems {α : Type} (elem : Unmarshaler α) (zero : α) :
    List JSON → List α → Except GoError (List α)
  | [], _ => .ok []
  | j :: js, olds =>
    (elem j (olds.headD zero)).bind fun x =>
    (unmarshalElems elem zero js olds.tail).map fun xs => x :: xs

/-- Decoding into a slice: `null` sets it to `nil`, an array gives a non-nil
slice of the length of the array. -/
def unmarshalSlice {α : Type} (goType : String) (elem : Unmarshaler α) (zero : α) :
    Unmarshaler (Option (List α))
  | .null, _ => .ok none
  | .array js, old => (unmarshalElems elem zero js (old.getD [])).map some
  | j, _ => .error (typeError j.kind goType)

/-- The case-folded form of a character in `foldName`: upper case for the ASCII
letters, and the two characters outside ASCII that fold onto ASCII letters
(the names of this package are ASCII, so no other folding can make a key match). -/
def foldChar (c : Char) : Char :=
  if 97 ≤ c.toNat ∧ c.toNat ≤ 122 then Char.ofNat (c.toNat - 32)
  else if c = Char.ofNat 0x17F then 'S'
  else if c = Char.ofNat 0x212A then 'K'
  else c

/-- The function `foldName`. -/
def foldName (s : String) : List Char := s.data.map foldChar

/-- The field of a struct that the key of an object member selects, as an index
into the JSON names of the fields: the field whose name is the key, or else the
first field whose case-folded name is the case-folded key. -/
def selectField (names : List String) (key : String) : Option Nat :=
  match names.findIdx? fun n => n = key with
  | some i => some i
  | none => names.findIdx? fun n => foldName n = foldName key

/-- Decoding into a struct (`decodeState.object`): every member of the object is
decoded in turn into the field its key selects, by `setField`, which leaves the
struct as it is for a key that selects no field. -/
def unmarshalStruct {α : Type} (goType : String)
    (setField : String → JSON → α → Except GoError α) : Unmarshaler α
  | .null, old => .ok old
  | .object members, old => members.foldlM (fun acc kv => setField kv.1 kv.2 acc) old
  | j, _ => .error (typeError j.kind goType)

mutual
/-- Decoding into an empty interface (`decodeState.valueInterface`). -/
def toAny (sc : Strconv) : JSON → Except GoError Any
  | .null => .ok .nil
  | .bool b => .ok (.bool b)
  | .number lit =>
    match sc.ParseFloat lit with
    | some x => .ok (.float64 x)
    | none => .error (typeError ("number " ++ lit) "float64")
  | .string s => .ok (.string s)
  | .array elems => (toAnyList sc elems).map .slice
  | .object members => (toAnyEntries sc members).map fun ms => .map (mapOf ms)
/-- Decoding of the elements of an array into a `[]interface{}`. -/
def toAnyList (sc : Strconv) : List JSON → Except GoError (List Any)
  | [] => .ok []
  | j :: js => (toAny sc j).bind fun x => (toAnyList sc js).map fun xs => x :: xs
/-- Decoding of the members of an object into the entries of a
`map[string]interface{}`, in the order of the document. -/
def toAnyEntries (sc : Strconv) : List (String × JSON) → Except GoError (List (String × Any))
  | [] => .ok []
  | (k, j) :: ms => (toAny sc j).bind fun x => (toAnyEntries sc ms).map fun xs => (k, x) :: xs
end

/-- Decoding into a variable of type `interface{}`. -/
def unmarshalAny (sc : Strconv) : Unmarshaler Any :=
  fun j _ => toAny sc j

/-- Decoding into a `map[string]interface{}`: `null` sets it to `nil`; the
members of an object are assigned in turn to the map, a new one when it is `nil`. -/
def unmarshalMap (sc : Strconv) : Unmarshaler (Option (List (String × Any)))
  | .null, _ => .ok none
  | .object members, old =>
    (toAnyEntries sc members).map fun ms =>
      some (ms.foldl (fun m kv => mapSet kv.1 kv.2 m) (mapOf (old.getD [])))
  | j, _ => .error (typeError j.kind "map[string]interface {}")

/-! ## The types of `chat.go` -/

/-- The struct `Message`. -/
structure Message where
  Role : String
  Content : String
deriving Repr

/-- The struct `ChatCompletionRequest`. -/
structure ChatCompletionRequest where
  Model : String
  Messages : Option (List Message)
  FrequencyPenalty : Option Float64
  LogitBias : Option (List (Int × Float64))
  LogProbs : Option Bool
  MaxTokens : Option Int
  N : Option Int
  PresencePenalty : Option Float64
  ResponseFormat : Option String
  Seed : Option Int
  Stop : Option (List String)
  Stream : Option Bool
  Temperature : Option Float64
  TopP : Option Float64
  Tools : Option (List String)
  ToolChoice : Option String
  User : Option String

/-- The anonymous struct type of the elements of `ChatCompletionResponse.Choices`. -/
structure ChatChoice where
  Index : Int
  Message : Message
  LogProbs : Any
  FinishReason : String
deriving Repr

/-- The anonymous struct type of `ChatCompletionResponse.Usage`. -/
structure ChatUsage where
  PromptTokens : Int
  CompletionTokens : Int
  TotalTokens : Int
deriving Repr

/-- The struct `ChatCompletionResponse`. -/
structure ChatCompletionResponse where
  ID : String
  Object : String
  Created : Int
  Model : String
  SystemFingerprint : String
  Choices : Option (List ChatChoice)
  Usage : ChatUsage
deriving Repr

/-- The zero value of `Message`. -/
def Message.zero : Message := ⟨"", ""⟩

/-- The zero value of `ChatCompletionRequest`: no field assigned. -/
def ChatCompletionRequest.zero : ChatCompletionRequest :=
  ⟨"", none, none, none, none, none, none, none, none, none, none, none, none, none, none, none, none⟩

/-- The zero value of a choice. -/
def ChatChoice.zero : ChatChoice := ⟨0, Message.zero, .nil, ""⟩

/-- The zero value of the usage counters. -/
def ChatUsage.zero : ChatUsage := ⟨0, 0, 0⟩

/-- The zero value of `ChatCompletionResponse`. -/
def ChatCompletionResponse.zero : ChatCompletionResponse :=
  ⟨"", "", 0, "", "", none, ChatUsage.zero⟩

/-- Encoding of a `Message`. -/
def Message.toJSON (m : Message) : Except GoError JSON :=
  encodeStruct [
    ⟨"role", false, encString m.Role⟩,
    ⟨"content", false, encString m.Content⟩]

/-- The fields of a `ChatCompletionRequest` as `json.Marshal` visits them: every
field but `model` and `messages` carries `omitempty`. -/
def ChatCompletionRequest.fields (sc : Strconv) (r : ChatCompletionRequest) : List FieldEnc := [
  ⟨"model", false, encString r.Model⟩,
  ⟨"messages", false, encSlice Message.toJSON r.Messages⟩,
  ⟨"frequency_penalty", r.FrequencyPenalty.isNone, encPtr (encFloat sc) r.FrequencyPenalty⟩,
  ⟨"logit_bias", isEmptyList r.LogitBias,
    encMap (encFloat sc) (r.LogitBias.map fun m => m.map fun kv => (String.mk (formatInt kv.1), kv.2))⟩,
  ⟨"logprobs", r.LogProbs.isNone, encPtr encBool r.LogProbs⟩,
  ⟨"max_tokens", r.MaxTokens.isNone, encPtr encInt r.MaxTokens⟩,
  ⟨"n", r.N.isNone, encPtr encInt r.N⟩,
  ⟨"presence_penalty", r.PresencePenalty.isNone, encPtr (encFloat sc) r.PresencePenalty⟩,
  ⟨"response_format", r.ResponseFormat.isNone, encPtr encString r.ResponseFormat⟩,
  ⟨"seed", r.Seed.isNone, encPtr encInt r.Seed⟩,
  ⟨"stop", isEmptyList r.Stop, encSlice encString r.Stop⟩,
  ⟨"stream", r.Stream.isNone, encPtr encBool r.Stream⟩,
  ⟨"temperature", r.Temperature.isNone, encPtr (encFloat sc) r.Temperature⟩,
  ⟨"top_p", r.TopP.isNone, encPtr (encFloat sc) r.TopP⟩,
  ⟨"tools", isEmptyList r.Tools, encSlice encString r.Tools⟩,
  ⟨"tool_choice", r.ToolChoice.isNone, encPtr encString r.ToolChoice⟩,
  ⟨"user", r.User.isNone, encPtr encString r.User⟩]

/-- Encoding of a `ChatCompletionRequest`. -/
def ChatCompletionRequest.toJSON (sc : Strconv) (r : ChatCompletionRequest) : Except GoError JSON :=
  encodeStruct (r.fields sc)

/-- Encoding of a choice. -/
def ChatChoice.toJSON (sc : Strconv) (c : ChatChoice) : Except GoError JSON :=
  encodeStruct [
    ⟨"index", false, encInt c.Index⟩,
    ⟨"message", false, c.Message.toJSON⟩,
    ⟨"logprobs", false, encAny sc c.LogProbs⟩,
    ⟨"finish_reason", false, encString c.FinishReason⟩]

/-- Encoding of the usage counters. -/
def ChatUsage.toJSON (u : ChatUsage) : Except GoError JSON :=
  encodeStruct [
    ⟨"prompt_tokens", false, encInt u.PromptTokens⟩,
    ⟨"completion_tokens", false, encInt u.CompletionTokens⟩,
    ⟨"total_tokens", false, encInt u.TotalTokens⟩]

/-- Encoding of a `ChatCompletionResponse`. -/
def ChatCompletionResponse.toJSON (sc : Strconv) (r : ChatCompletionResponse) : Except GoError JSON :=
  encodeStruct [
    ⟨"id", false, encString r.ID⟩,
    ⟨"object", false, encString r.Object⟩,
    ⟨"created", false, encInt r.Created⟩,
    ⟨"model", false, encString r.Model⟩,
    ⟨"system_fingerprint", false, encString r.SystemFingerprint⟩,
    ⟨"choices", false, encSlice (ChatChoice.toJSON sc) r.Choices⟩,
    ⟨"usage", false, r.Usage.toJSON⟩]

/-- The JSON names of the fields of `Message`, in the order of declaration. -/
def Message.names : List String := ["role", "content"]

/-- Decoding of one object member into a `Message`. -/
def Message.setField (key : String) (j : JSON) (m : Message) : Except GoError Message :=
  match selectField Message.names key with
  | some 0 => (unmarshalString j m.Role).map fun x => { m with Role := x }
  | some 1 => (unmarshalString j m.Content).map fun x => { m with Content := x }
  | _ => .ok m

/-- Decoding into a `Message`. -/
def Message.unmarshal : Unmarshaler Message :=
  unmarshalStruct "openai.Message" Message.setField

/-- The name of the type of a choice, as `reflect` prints it. -/
def ChatChoice.goType : String :=
  "struct \x7b Index int \"json:\\\"index\\\"\"; Message openai.Message \"json:\\\"message\\\"\"; " ++
  "LogProbs interface \x7b\x7d \"json:\\\"logprobs\\\"\"; FinishReason string \"json:\\\"finish_reason\\\"\" \x7d"

/-- The JSON names of the fields of `ChatChoice`, in the order of declaration. -/
def ChatChoice.names : List String := ["index", "message", "logprobs", "finish_reason"]

/-- Decoding of one object member into a choice. -/
def ChatChoice.setField (sc : Strconv) (key : String) (j : JSON) (c : ChatChoice) :
    Except GoError ChatChoice :=
  match selectField ChatChoice.names key with
  | some 0 => (unmarshalInt "int" j c.Index).map fun x => { c with Index := x }
  | some 1 =>
      (Message.unmarshal j c.Message).map fun x => { c with Message := x }
  | some 2 =>
      (unmarshalAny sc j c.LogProbs).map fun x => { c with LogProbs := x }
  | some 3 =>
      (unmarshalString j c.FinishReason).map fun x => { c with FinishReason := x }
  | _ => .ok c

/-- Decoding into a choice. -/
def ChatChoice.unmarshal (sc : Strconv) : Unmarshaler ChatChoice :=
  unmarshalStruct ChatChoice.goType (ChatChoice.setField sc)

/-- The name of the type of the usage counters, as `reflect` prints it. -/
def ChatUsage.goType : String :=
  "struct \x7b PromptTokens int \"json:\\\"prompt_tokens\\\"\"; " ++
  "CompletionTokens int \"json:\\\"completion_tokens\\\"\"; TotalTokens int \"json:\\\"total_tokens\\\"\" \x7d"

/-- The JSON names of the fields of `ChatUsage`, in the order of declaration. -/
def ChatUsage.names : List String := ["prompt_tokens", "completion_tokens", "total_tokens"]

/-- Decoding of one object member into the usage counters. -/
def ChatUsage.setField (key : String) (j : JSON) (u : ChatUsage) : Except GoError ChatUsage :=
  match selectField ChatUsage.names key with
  | some 0 =>
      (unmarshalInt "int" j u.PromptTokens).map fun x => { u with PromptTokens := x }
  | some 1 =>
      (unmarshalInt "int" j u.CompletionTokens).map fun x => { u with CompletionTokens := x }
  | some 2 =>
      (unmarshalInt "int" j u.TotalTokens).map fun x => { u with TotalTokens := x }
  | _ => .ok u

/-- Decoding into the usage counters. -/
def ChatUsage.unmarshal : Unmarshaler ChatUsage :=
  unmarshalStruct ChatUsage.goType ChatUsage.setField

/-- The JSON names of the fields of `ChatCompletionResponse`, in the order of declaration. -/
def ChatCompletionResponse.names : List String :=
  ["id", "object", "created", "model", "system_fingerprint", "choices", "usage"]

/-- Decoding of one object member into a `ChatCompletionResponse`. -/
def ChatCompletionResponse.setField (sc : Strconv) (key : String) (j : JSON)
    (r : ChatCompletionResponse) : Except GoError ChatCompletionResponse :=
  match selectField ChatCompletionResponse.names key with
  | some 0 => (unmarshalString j r.ID).map fun x => { r with ID := x }
  | some 1 => (unmarshalString j r.Object).map fun x => { r with Object := x }
  | some 2 =>
      (unmarshalInt "int64" j r.Created).map fun x => { r with Created := x }
  | some 3 => (unmarshalString j r.Model).map fun x => { r with Model := x }
  | some 4 =>
      (unmarshalString j r.SystemFingerprint).map fun x => { r with SystemFingerprint := x }
  | some 5 =>
      (unmarshalSlice ("[]" ++ ChatChoice.goType) (ChatChoice.unmarshal sc) ChatChoice.zero j r.Choices).map
        fun x => { r with Choices := x }
  | some 6 => (ChatUsage.unmarshal j r.Usage).map fun x => { r with Usage := x }
  | _ => .ok r

/-- Decoding into a `ChatCompletionResponse`. -/
def ChatCompletionResponse.unmarshal (sc : Strconv) : Unmarshaler ChatCompletionResponse :=
  unmarshalStruct "openai.ChatCompletionResponse" (ChatCompletionResponse.setField sc)

/-! ## The types of `embeddings.go` -/

/-- The struct `EmbeddingRequest`. -/
structure EmbeddingRequest where
  Input : Any
  Model : String
  EncodingFormat : String
  Dimensions : Option Int
  User : Option String

/-- The anonymous struct type of the elements of `EmbeddingResponse.Data`. -/
structure EmbeddingData where
  Object : String
  Embedding : Option (List Float64)
  Index : Int
deriving Repr

/-- The anonymous struct type of `EmbeddingResponse.Usage`. -/
structure EmbeddingUsage where
  PromptTokens : Int
  TotalTokens : Int
deriving Repr

/-- The struct `EmbeddingResponse`. -/
structure EmbeddingResponse where
  Object : String
  Data : Option (List EmbeddingData)
  Model : String
  Usage : EmbeddingUsage
deriving Repr

/-- The zero value of `EmbeddingRequest`. -/
def EmbeddingRequest.zero : EmbeddingRequest := ⟨.nil, "", "", none, none⟩

/-- The zero value of an element of `Data`. -/
def EmbeddingData.zero : EmbeddingData := ⟨"", none, 0⟩

/-- The zero value of the usage counters. -/
def EmbeddingUsage.zero : EmbeddingUsage := ⟨0, 0⟩

/-- The zero value of `EmbeddingResponse`. -/
def EmbeddingResponse.zero : EmbeddingResponse := ⟨"", none, "", EmbeddingUsage.zero⟩

/-- The fields of an `EmbeddingRequest` as `json.Marshal` visits them. -/
def EmbeddingRequest.fields (sc : Strconv) (r : EmbeddingRequest) : List FieldEnc := [
  ⟨"input", false, encAny sc r.Input⟩,
  ⟨"model", false, encString r.Model⟩,
  ⟨"encoding_format", r.EncodingFormat.data.isEmpty, encString r.EncodingFormat⟩,
  ⟨"dimensions", r.Dimensions.isNone, encPtr encInt r.Dimensions⟩,
  ⟨"user", r.User.isNone, encPtr encString r.User⟩]

/-- Encoding of an `EmbeddingRequest`. -/
def EmbeddingRequest.toJSON (sc : Strconv) (r : EmbeddingRequest) : Except GoError JSON :=
  encodeStruct (r.fields sc)

/-- Encoding of an element of `Data`. -/
def EmbeddingData.toJSON (sc : Strconv) (d : EmbeddingData) : Except GoError JSON :=
  encodeStruct [
    ⟨"object", false, encString d.Object⟩,
    ⟨"embedding", false, encSlice (encFloat sc) d.Embedding⟩,
    ⟨"index", false, encInt d.Index⟩]

/-- Encoding of the usage counters. -/
def EmbeddingUsage.toJSON (u : EmbeddingUsage) : Except GoError JSON :=
  encodeStruct [
    ⟨"prompt_tokens", false, encInt u.PromptTokens⟩,
    ⟨"total_tokens", false, encInt u.TotalTokens⟩]

/-- Encoding of an `EmbeddingResponse`. -/
def EmbeddingResponse.toJSON (sc : Strconv) (r : EmbeddingResponse) : Except GoError JSON :=
  encodeStruct [
    ⟨"object", false, encString r.Object⟩,
    ⟨"data", false, encSlice (EmbeddingData.toJSON sc) r.Data⟩,
    ⟨"model", false, encString r.Model⟩,
    ⟨"usage", false, r.Usage.toJSON⟩]

/-- The name of the type of an element of `Data`, as `reflect` prints it. -/
def EmbeddingData.goType : String :=
  "struct \x7b Object string \"json:\\\"object\\\"\"; Embedding []float64 \"json:\\\"embedding\\\"\"; " ++
  "Index int \"json:\\\"index\\\"\" \x7d"

/-- The JSON names of the fields of `EmbeddingData`, in the order of declaration. -/
def EmbeddingData.names : List String := ["object", "embedding", "index"]

/-- Decoding of one object member into an element of `Data`. -/
def EmbeddingData.setField (sc : Strconv) (key : String) (j : JSON) (d : EmbeddingData) :
    Except GoError EmbeddingData :=
  match selectField EmbeddingData.names key with
  | some 0 => (unmarshalString j d.Object).map fun x => { d with Object := x }
  | some 1 =>
      (unmarshalSlice "[]float64" (unmarshalFloat sc) Float64.zero j d.Embedding).map
        fun x => { d with Embedding := x }
  | some 2 => (unmarshalInt "int" j d.Index).map fun x => { d with Index := x }
  | _ => .ok d

/-- Decoding into an element of `Data`. -/
def EmbeddingData.unmarshal (sc : Strconv) : Unmarshaler EmbeddingData :=
  unmarshalStruct EmbeddingData.goType (EmbeddingData.setField sc)

/-- The name of the type of the usage counters, as `reflect` prints it. -/
def EmbeddingUsage.goType : String :=
  "struct \x7b PromptTokens int \"json:\\\"prompt_tokens\\\"\"; " ++
  "TotalTokens int \"json:\\\"total_tokens\\\"\" \x7d"

/-- The JSON names of the fields of `EmbeddingUsage`, in the order of declaration. -/
def EmbeddingUsage.names : List String := ["prompt_tokens", "total_tokens"]

/-- Decoding of one object member into the usage counters. -/
def EmbeddingUsage.setField (key : String) (j : JSON) (u : EmbeddingUsage) :
    Except GoError EmbeddingUsage :=
  match selectField EmbeddingUsage.names key with
  | some 0 =>
      (unmarshalInt "int" j u.PromptTokens).map fun x => { u with PromptTokens := x }
  | some 1 =>
      (unmarshalInt "int" j u.TotalTokens).map fun x => { u with TotalTokens := x }
  | _ => .ok u

/-- Decoding into the usage counters. -/
def EmbeddingUsage.unmarshal : Unmarshaler EmbeddingUsage :=
  unmarshalStruct EmbeddingUsage.goType EmbeddingUsage.setField

/-- The JSON names of the fields of `EmbeddingResponse`, in the order of declaration. -/
def EmbeddingResponse.names : List String := ["object", "data", "model", "usage"]

/-- Decoding of one object member into an `EmbeddingResponse`. -/
def EmbeddingResponse.setField (sc : Strconv) (key : String) (j : JSON) (r : EmbeddingResponse) :
    Except GoError EmbeddingResponse :=
  match selectField EmbeddingResponse.names key with
  | some 0 => (unmarshalString j r.Object).map fun x => { r with Object := x }
  | some 1 =>
      (unmarshalSlice ("[]" ++ EmbeddingData.goType) (EmbeddingData.unmarshal sc) EmbeddingData.zero
        j r.Data).map fun x => { r with Data := x }
  | some 2 => (unmarshalString j r.Model).map fun x => { r with Model := x }
  | some 3 =>
      (EmbeddingUsage.unmarshal j r.Usage).map fun x => { r with Usage := x }
  | _ => .ok r

/-- Decoding into an `EmbeddingResponse`. -/
def EmbeddingResponse.unmarshal (sc : Strconv) : Unmarshaler EmbeddingResponse :=
  unmarshalStruct "openai.EmbeddingResponse" (EmbeddingResponse.setField sc)

/-! ## The types of `finetuning.go` -/

/-- The struct `FineTuningJobRequest`. -/
structure FineTuningJobRequest where
  Model : String
  TrainingFile : String
  Hyperparameters : Option (List (String × Any))
  Suffix : Option String
  ValidationFile : Option String

/-- The struct `FineTuningJobResponse`. -/
structure FineTuningJobResponse where
  ID : String
  CreatedAt : Int
  Error : Option (Option (List (String × Any)))
  FineTunedModel : Option String
  FinishedAt : Option Int
  Hyperparameters : Option (List (String × Any))
  Model : String
  Object : String
  OrganizationID : String
  ResultFiles : Option (List String)
  Status : String
  TrainedTokens : Option Int
  TrainingFile : String
  ValidationFile : Option String
deriving Repr

/-- The zero value of `FineTuningJobRequest`. -/
def FineTuningJobRequest.zero : FineTuningJobRequest := ⟨"", "", none, none, none⟩

/-- The zero value of `FineTuningJobResponse`. -/
def FineTuningJobResponse.zero : FineTuningJobResponse :=
  ⟨"", 0, none, none, none, none, "", "", "", none, "", none, "", none⟩

/-- The fields of a `FineTuningJobRequest` as `json.Marshal` visits them. -/
def FineTuningJobRequest.fields (sc : Strconv) (r : FineTuningJobRequest) : List FieldEnc := [
  ⟨"model", false, encString r.Model⟩,
  ⟨"training_file", false, encString r.TrainingFile⟩,
  ⟨"hyperparameters", isEmptyList r.Hyperparameters, encMap (encAny sc) r.Hyperparameters⟩,
  ⟨"suffix", r.Suffix.isNone, encPtr encString r.Suffix⟩,
  ⟨"validation_file", r.ValidationFile.isNone, encPtr encString r.ValidationFile⟩]

/-- Encoding of a `FineTuningJobRequest`. -/
def FineTuningJobRequest.toJSON (sc : Strconv) (r : FineTuningJobRequest) : Except GoError JSON :=
  encodeStruct (r.fields sc)

/-- Encoding of a `FineTuningJobResponse`. -/
def FineTuningJobResponse.toJSON (sc : Strconv) (r : FineTuningJobResponse) : Except GoError JSON :=
  encodeStruct [
    ⟨"id", false, encString r.ID⟩,
    ⟨"created_at", false, encInt r.CreatedAt⟩,
    ⟨"error", false, encPtr (encMap (encAny sc)) r.Error⟩,
    ⟨"fine_tuned_model", false, encPtr encString r.FineTunedModel⟩,
    ⟨"finished_at", false, encPtr encInt r.FinishedAt⟩,
    ⟨"hyperparameters", false, encMap (encAny sc) r.Hyperparameters⟩,
    ⟨"model", false, encString r.Model⟩,
    ⟨"object", false, encString r.Object⟩,
    ⟨"organization_id", false, encString r.OrganizationID⟩,
    ⟨"result_files", false, encSlice encString r.ResultFiles⟩,
    ⟨"status", false, encString r.Status⟩,
    ⟨"trained_tokens", false, encPtr encInt r.TrainedTokens⟩,
    ⟨"training_file", false, encString r.TrainingFile⟩,
    ⟨"validation_file", false, encPtr encString r.ValidationFile⟩]

/-- The JSON names of the fields of `FineTuningJobResponse`, in the order of declaration. -/
def FineTuningJobResponse.names : List String :=
  ["id", "created_at", "error", "fine_tuned_model", "finished_at", "hyperparameters",
   "model", "object", "organization_id", "result_files", "status", "trained_tokens",
   "training_file", "validation_file"]

/-- Decoding of one object member into a `FineTuningJobResponse`. -/
def FineTuningJobResponse.setField (sc : Strconv) (key : String) (j : JSON)
    (r : FineTuningJobResponse) : Except GoError FineTuningJobResponse :=
  match selectField FineTuningJobResponse.names key with
  | some 0 => (unmarshalString j r.ID).map fun x => { r with ID := x }
  | some 1 =>
      (unmarshalInt "int64" j r.CreatedAt).map fun x => { r with CreatedAt := x }
  | some 2 =>
      (unmarshalPtr (unmarshalMap sc) none j r.Error).map fun x => { r with Error := x }
  | some 3 =>
      (unmarshalPtr unmarshalString "" j r.FineTunedModel).map fun x => { r with FineTunedModel := x }
  | some 4 =>
      (unmarshalPtr (unmarshalInt "int64") 0 j r.FinishedAt).map fun x => { r with FinishedAt := x }
  | some 5 =>
      (unmarshalMap sc j r.Hyperparameters).map fun x => { r with Hyperparameters := x }
  | some 6 => (unmarshalString j r.Model).map fun x => { r with Model := x }
  | some 7 => (unmarshalString j r.Object).map fun x => { r with Object := x }
  | some 8 =>
      (unmarshalString j r.OrganizationID).map fun x => { r with OrganizationID := x }
  | some 9 =>
      (unmarshalSlice "[]string" unmarshalString "" j r.ResultFiles).map
        fun x => { r with ResultFiles := x }
  | some 10 => (unmarshalString j r.Status).map fun x => { r with Status := x }
  | some 11 =>
      (unmarshalPtr (unmarshalInt "int64") 0 j r.TrainedTokens).map fun x => { r with TrainedTokens := x }
  | some 12 =>
      (unmarshalString j r.TrainingFile).map fun x => { r with TrainingFile := x }
  | some 13 =>
      (unmarshalPtr unmarshalString "" j r.ValidationFile).map fun x => { r with ValidationFile := x }
  | _ => .ok r

/-- Decoding into a `FineTuningJobResponse`. -/
def FineTuningJobResponse.unmarshal (sc : Strconv) : Unmarshaler FineTuningJobResponse :=
  unmarshalStruct "openai.FineTuningJobResponse" (FineTuningJobResponse.setField sc)

/-! ## The types of `audio.go` -/

/-- The struct `SpeechRequest`. -/
structure SpeechRequest where
  Model : String
  Input : String
  Voice : String
  ResponseFormat : String
  Speed : Float64

/-- The struct `TranscriptionRequest`; `AudioBuffer` is a `*bytes.Buffer`, held
as the unread bytes of the buffer. -/
structure TranscriptionRequest where
  AudioBuffer : Option (List Byte)
  FileName : String
  Model : String
  Language : String
  Prompt : String
  ResponseFormat : String
  Temperature : Float64
  TimestampGranularities : Option (List String)

/-- The struct `Segment`. -/
structure Segment where
  ID : Int
  Seek : Float64
  Start : Float64
  End : Float64
  Text : String
  Tokens : Option (List Int)
  Temperature : Float64
  AvgLogprob : Float64
  CompressionRatio : Float64
  NoSpeechProb : Float64
deriving Repr

/-- The struct `TranscriptionResponse`. -/
structure TranscriptionResponse where
  Text : String
  Language : String
  Duration : Float64
  Segments : Option (List Segment)
deriving Repr

/-- The struct `TranslationRequest`. -/
structure TranslationRequest where
  FileName : String
  AudioBuffer : Option (List Byte)
  Model : String
  Prompt : String
  ResponseFormat : String
  Temperature : Float64

/-- The struct `TranslationResponse`. -/
structure TranslationResponse where
  Text : String
deriving Repr

/-- The zero value of `SpeechRequest`. -/
def SpeechRequest.zero : SpeechRequest := ⟨"", "", "", "", Float64.zero⟩

/-- The zero value of `Segment`. -/
def Segment.zero : Segment :=
  ⟨0, Float64.zero, Float64.zero, Float64.zero, "", none, Float64.zero, Float64.zero, Float64.zero,
    Float64.zero⟩

/-- The zero value of `TranscriptionResponse`. -/
def TranscriptionResponse.zero : TranscriptionResponse := ⟨"", "", Float64.zero, none⟩

/-- The zero value of `TranslationResponse`. -/
def TranslationResponse.zero : TranslationResponse := ⟨""⟩

/-- The fields of a `SpeechRequest` as `json.Marshal` visits them. -/
def SpeechRequest.fields (sc : Strconv) (r : SpeechRequest) : List FieldEnc := [
  ⟨"model", false, encString r.Model⟩,
  ⟨"input", false, encString r.Input⟩,
  ⟨"voice", false, encString r.Voice⟩,
  ⟨"response_format", r.ResponseFormat.data.isEmpty, encString r.ResponseFormat⟩,
  ⟨"speed", r.Speed.isZero, encFloat sc r.Speed⟩]

/-- Encoding of a `SpeechRequest`. -/
def SpeechRequest.toJSON (sc : Strconv) (r : SpeechRequest) : Except GoError JSON :=
  encodeStruct (r.fields sc)

/-- Encoding of a `Segment`. -/
def Segment.toJSON (sc : Strconv) (g : Segment) : Except GoError JSON :=
  encodeStruct [
    ⟨"id", false, encInt g.ID⟩,
    ⟨"seek", false, encFloat sc g.Seek⟩,
    ⟨"start", false, encFloat sc g.Start⟩,
    ⟨"end", false, encFloat sc g.End⟩,
    ⟨"text", false, encString g.Text⟩,
    ⟨"tokens", false, encSlice encInt g.Tokens⟩,
    ⟨"temperature", false, encFloat sc g.Temperature⟩,
    ⟨"avg_logprob", false, encFloat sc g.AvgLogprob⟩,
    ⟨"compression_ratio", false, encFloat sc g.CompressionRatio⟩,
    ⟨"no_speech_prob", false, encFloat sc g.NoSpeechProb⟩]

/-- Encoding of a `TranscriptionResponse`. -/
def TranscriptionResponse.toJSON (sc : Strconv) (r : TranscriptionResponse) : Except GoError JSON :=
  encodeStruct [
    ⟨"text", false, encString r.Text⟩,
    ⟨"language", r.Language.data.isEmpty, encString r.Language⟩,
    ⟨"duration", r.Duration.isZero, encFloat sc r.Duration⟩,
    ⟨"segments", isEmptyList r.Segments, encSlice (Segment.toJSON sc) r.Segments⟩]

/-- Encoding of a `TranslationResponse`. -/
def TranslationResponse.toJSON (r : TranslationResponse) : Except GoError JSON :=
  encodeStruct [⟨"text", false, encString r.Text⟩]

/-- The JSON names of the fields of `Segment`, in the order of declaration. -/
def Segment.names : List String :=
  ["id", "seek", "start", "end", "text", "tokens", "temperature", "avg_logprob",
   "compression_ratio", "no_speech_prob"]

/-- Decoding of one object member into a `Segment`. -/
def Segment.setField (sc : Strconv) (key : String) (j : JSON) (g : Segment) : Except GoError Segment :=
  match selectField Segment.names key with
  | some 0 => (unmarshalInt "int" j g.ID).map fun x => { g with ID := x }
  | some 1 => (unmarshalFloat sc j g.Seek).map fun x => { g with Seek := x }
  | some 2 => (unmarshalFloat sc j g.Start).map fun x => { g with Start := x }
  | some 3 => (unmarshalFloat sc j g.End).map fun x => { g with End := x }
  | some 4 => (unmarshalString j g.Text).map fun x => { g with Text := x }
  | some 5 =>
      (unmarshalSlice "[]int" (unmarshalInt "int") 0 j g.Tokens).map fun x => { g with Tokens := x }
  | some 6 =>
      (unmarshalFloat sc j g.Temperature).map fun x => { g with Temperature := x }
  | some 7 =>
      (unmarshalFloat sc j g.AvgLogprob).map fun x => { g with AvgLogprob := x }
  | some 8 =>
      (unmarshalFloat sc j g.CompressionRatio).map fun x => { g with CompressionRatio := x }
  | some 9 =>
      (unmarshalFloat sc j g.NoSpeechProb).map fun x => { g with NoSpeechProb := x }
  | _ => .ok g

/-- Decoding into a `Segment`. -/
def Segment.unmarshal (sc : Strconv) : Unmarshaler Segment :=
  unmarshalStruct "openai.Segment" (Segment.setField sc)

/-- The JSON names of the fields of `TranscriptionResponse`, in the order of declaration. -/
def TranscriptionResponse.names : List String := ["text", "language", "duration", "segments"]

/-- Decoding of one object member into a `TranscriptionResponse`. -/
def TranscriptionResponse.setField (sc : Strconv) (key : String) (j : JSON)
    (r : TranscriptionResponse) : Except GoError TranscriptionResponse :=
  match selectField TranscriptionResponse.names key with
  | some 0 => (unmarshalString j r.Text).map fun x => { r with Text := x }
  | some 1 =>
      (unmarshalString j r.Language).map fun x => { r with Language := x }
  | some 2 =>
      (unmarshalFloat sc j r.Duration).map fun x => { r with Duration := x }
  | some 3 =>
      (unmarshalSlice "[]openai.Segment" (Segment.unmarshal sc) Segment.zero j r.Segments).map
        fun x => { r with Segments := x }
  | _ => .ok r

/-- Decoding into a `TranscriptionResponse`. -/
def TranscriptionResponse.unmarshal (sc : Strconv) : Unmarshaler TranscriptionResponse :=
  unmarshalStruct "openai.TranscriptionResponse" (TranscriptionResponse.setField sc)

/-- The JSON names of the fields of `TranslationResponse`, in the order of declaration. -/
def TranslationResponse.names : List String := ["text"]

/-- Decoding of one object member into a `TranslationResponse`. -/
def TranslationResponse.setField (key : String) (j : JSON) (r : TranslationResponse) :
    Except GoError TranslationResponse :=
  match selectField TranslationResponse.names key with
  | some 0 => (unmarshalString j r.Text).map fun x => { r with Text := x }
  | _ => .ok r

/-- Decoding into a `TranslationResponse`. -/
def TranslationResponse.unmarshal : Unmarshaler TranslationResponse :=
  unmarshalStruct "openai.TranslationResponse" TranslationResponse.setField

/-! ## `mime/multipart` -/

/-- One part of a multipart form, as the `Writer` was asked to write it: the
field name, the file name (of a part made by `CreateFormFile`), and the bytes
written into the part. -/
structure Part where
  fieldname : String
  filename : Option String
  data : List Byte
deriving DecidableEq, Repr

/-- The state of a `multipart.Writer` over a `bytes.Buffer`: the boundary it
drew, the parts written so far, and whether `Close` wrote the final boundary. -/
structure Writer where
  boundary : String
  parts : List Part
  closed : Bool
deriving DecidableEq, Repr

/-- The function `multipart.NewWriter`; `boundary` is the random boundary it draws. -/
def multipart.NewWriter (boundary : String) : Writer := ⟨boundary, [], false⟩

/-- The method `CreateFormFile`: a new part, its body still empty. Writing to a
`bytes.Buffer` does not fail. -/
def Writer.CreateFormFile (w : Writer) (fieldname filename : String) : Except GoError Writer :=
  .ok { w with parts := w.parts ++ [⟨fieldname, some filename, []⟩] }

/-- The method `Write` of the part created last: the bytes are appended to it. -/
def Writer.Write (w : Writer) (p : List Byte) : Except GoError Writer :=
  match w.parts.getLast? with
  | none => .ok w
  | some last => .ok { w with parts := w.parts.dropLast ++ [{ last with data := last.data ++ p }] }

/-- The method `WriteField`: a new part that holds the bytes of `value`. -/
def Writer.WriteField (w : Writer) (fieldname value : String) : Except GoError Writer :=
  .ok { w with parts := w.parts ++ [⟨fieldname, none, encodeUTF8 value.data⟩] }

/-- The method `Close`. -/
def Writer.Close (w : Writer) : Except GoError Writer :=
  .ok { w with closed := true }

/-- The method `FormDataContentType`, for a boundary free of special characters
(as the random ones are). -/
def Writer.FormDataContentType (w : Writer) : String :=
  "multipart/form-data; boundary=" ++ w.boundary

/-- The text fields of a form: the parts without a file name, by name. -/
def formField (parts : List Part) (name : String) : Option (List Byte) :=
  (parts.find? fun p => p.fieldname = name && p.filename.isNone).map fun p => p.data

/-! ## `net/http` and `io` -/

/-- The body of an outgoing request: raw bytes, or a multipart form. -/
inductive Payload where
  | raw (bytes : List Byte)
  | multipart (boundary : String) (parts : List Part)
deriving DecidableEq, Repr

/-- An outgoing `http.Request`. -/
structure Request where
  Method : String
  URL : String
  Header : List (String × String)
  Body : Payload
deriving DecidableEq, Repr

/-- The method `Header.Set` (the keys used here are in canonical form). -/
def Request.setHeader (r : Request) (key value : String) : Request :=
  { r with Header := (r.Header.filter fun kv => kv.1 ≠ key) ++ [(key, value)] }

/-- The function `http.NewRequest`; it does not fail for the method and the
URLs of this package, which are constants. -/
def http.NewRequest (method url : String) (body : Payload) : Except GoError Request :=
  .ok ⟨method, url, [], body⟩

/-- The body of a response, an `io.ReadCloser`: the bytes it yields, and the
error (other than `io.EOF`) that ends the stream after them, if any. -/
structure ReadCloser where
  data : List Byte
  err : Option GoError
deriving DecidableEq, Repr

/-- An `http.Response`. -/
structure Response where
  StatusCode : Int
  Body : ReadCloser
deriving DecidableEq, Repr

/-- The constant `http.StatusOK`. -/
def http.StatusOK : Int := 200

/-- The function `io.ReadAll`. -/
def io.ReadAll (r : ReadCloser) : Except GoError (List Byte) :=
  match r.err with
  | none => .ok r.data
  | some e => .error e

/-- The function `json.Marshal` on a value whose encoding is `v`. -/
def json.Marshal (v : Except GoError JSON) : Except GoError (List Byte) :=
  v.map fun j => encodeUTF8 j.render

/-- The call `json.NewDecoder(body).Decode(&x)` for a variable `x` that holds
`zero`: the first JSON value of the stream is read and decoded into `x`. What
follows that value in the stream is not read. -/
def Decode {α : Type} (unmarshal : Unmarshaler α) (zero : α) (body : ReadCloser) : Except GoError α :=
  let text := decodeUTF8 body.data
  match Decoder.readValue text with
  | .ok (v, rest) =>
    match body.err with
    | some e => if !v.isComposite && rest.isEmpty then .error e else unmarshal v zero
    | none => unmarshal v zero
  | .error .needMore =>
    match body.err with
    | some e => .error e
    | none => if (skipSpace text).isEmpty then .error io.EOF else .error io.ErrUnexpectedEOF
  | .error e => .error e.toError

/-! ## `client.go` -/

/-- The behaviour of an `*http.Client`: what `Do` returns for a request. -/
abbrev HTTPClient := Request → Except GoError Response

/-- The struct `Client`. -/
structure Client where
  HTTPClient : Option HTTPClient
  APIKey : String

/-- The function `NewClient`; `DefaultClient` is the behaviour of the global
`http.DefaultClient`. -/
def NewClient (DefaultClient : HTTPClient) (apiKey : String) : Client :=
  { HTTPClient := some DefaultClient, APIKey := apiKey }

/-- The outcome of a call of a method that returns `(*α, error)` or
`([]byte, error)`: the returned pair, or a run-time panic. -/
inductive Result (α : Type) where
  | panic (msg : String)
  | ret (val : Option α) (err : Option GoError)

/-- A call of an endpoint method: the requests it handed to `HTTPClient.Do`, in
order, and its outcome. -/
structure Call (α : Type) where
  sent : List Request
  result : Result α

/-- The message of the panic on the use of a nil pointer. -/
def nilDereference : String := "runtime error: invalid memory address or nil pointer dereference"

/-! ## The endpoint methods

The receiver and the request argument of a method are taken to be non-nil.
-/

/-- The method `CreateSpeech` of `audio.go`. -/
def CreateSpeech (sc : Strconv) (c : Client) (req : SpeechRequest) : Call (List Byte) :=
  match json.Marshal (req.toJSON sc) with
  | .error err => ⟨[], .ret none (some (Errorf_w "error marshaling request body: " err))⟩
  | .ok requestBody =>
    match http.NewRequest "POST" "https://api.openai.com/v1/audio/speech" (.raw requestBody) with
    | .error err => ⟨[], .ret none (some (Errorf_w "error creating request: " err))⟩
    | .ok httpReq =>
      let httpReq := httpReq.setHeader "Content-Type" "application/json"
      let httpReq := httpReq.setHeader "Authorization" ("Bearer " ++ c.APIKey)
      match c.HTTPClient with
      | none => ⟨[], .panic nilDereference⟩
      | some client =>
        match client httpReq with
        | .error err =>
          ⟨[httpReq], .ret none (some (Errorf_w "error making request to audio/speech API: " err))⟩
        | .ok resp =>
          if resp.StatusCode ≠ http.StatusOK then
            ⟨[httpReq], .ret none
              (some (Errorf_d "audio/speech API returned non-200 status code: " resp.StatusCode))⟩
          else
            match io.ReadAll resp.Body with
            | .error err =>
              ⟨[httpReq], .ret none (some (Errorf_w "error reading response body: " err))⟩
            | .ok audioBuff => ⟨[httpReq], .ret (some audioBuff) none⟩

/-- The method `CreateTranscription` of `audio.go`; `boundary` is the boundary
that `multipart.NewWriter` draws. -/
def CreateTranscription (sc : Strconv) (boundary : String) (c : Client)
    (req : TranscriptionRequest) : Call TranscriptionResponse :=
  let writer := multipart.NewWriter boundary
  match writer.CreateFormFile "file" req.FileName with
  | .error err => ⟨[], .ret none (some (Errorf_w "error creating form file: " err))⟩
  | .ok writer =>
    match req.AudioBuffer with
    | none => ⟨[], .panic nilDereference⟩
    | some audio =>
      match writer.Write audio with
      | .error err => ⟨[], .ret none (some (Errorf_w "error writing audio buffer to form: " err))⟩
      | .ok writer =>
        let writer := (writer.WriteField "model" req.Model).toOption.getD writer
        let writer :=
          if req.Language ≠ "" then (writer.WriteField "language" req.Language).toOption.getD writer
          else writer
        match writer.Close with
        | .error err => ⟨[], .ret none (some (Errorf_w "error closing writer: " err))⟩
        | .ok writer =>
          match http.NewRequest "POST" "https://api.openai.com/v1/audio/transcriptions"
              (.multipart writer.boundary writer.parts) with
          | .error err => ⟨[], .ret none (some (Errorf_w "error creating request: " err))⟩
          | .ok httpReq =>
            let httpReq := httpReq.setHeader "Content-Type" writer.FormDataContentType
            let httpReq := httpReq.setHeader "Authorization" ("Bearer " ++ c.APIKey)
            match c.HTTPClient with
            | none => ⟨[], .panic nilDereference⟩
            | some client =>
              match client httpReq with
              | .error err =>
                ⟨[httpReq], .ret none
                  (some (Errorf_w "error making request to transcription API: " err))⟩
              | .ok resp =>
                if resp.StatusCode ≠ http.StatusOK then
                  ⟨[httpReq], .ret none
                    (some (Errorf_d "transcription API returned non-200 status code: " resp.StatusCode))⟩
                else
                  match Decode (TranscriptionResponse.unmarshal sc) TranscriptionResponse.zero
                      resp.Body with
                  | .error err =>
                    ⟨[httpReq], .ret none (some (Errorf_w "error decoding response body: " err))⟩
                  | .ok transcriptionResponse => ⟨[httpReq], .ret (some transcriptionResponse) none⟩

/-- The method `CreateTranslation` of `audio.go`; `boundary` is the boundary that
`multipart.NewWriter` draws. -/
def CreateTranslation (sc : Strconv) (boundary : String) (c : Client)
    (req : TranslationRequest) : Call TranslationResponse :=
  let writer := multipart.NewWriter boundary
  match writer.CreateFormFile "file" req.FileName with
  | .error err => ⟨[], .ret none (some (Errorf_w "error creating form file: " err))⟩
  | .ok writer =>
    match req.AudioBuffer with
    | none => ⟨[], .panic nilDereference⟩
    | some audio =>
      match writer.Write audio with
      | .error err => ⟨[], .ret none (some (Errorf_w "error writing audio buffer to form: " err))⟩
      | .ok writer =>
        let writer := (writer.WriteField "model" req.Model).toOption.getD writer
        let writer :=
          if req.Prompt ≠ "" then (writer.WriteField "prompt" req.Prompt).toOption.getD writer
          else writer
        let writer :=
          if req.ResponseFormat ≠ "" then
            (writer.WriteField "response_format" req.ResponseFormat).toOption.getD writer
          else writer
        let writer :=
          if !req.Temperature.isZero then
            (writer.WriteField "temperature" (sc.Sprintf_f req.Temperature)).toOption.getD writer
          else writer
        match writer.Close with
        | .error err => ⟨[], .ret none (some (Errorf_w "error closing writer: " err))⟩
        | .ok writer =>
          match http.NewRequest "POST" "https://api.openai.com/v1/audio/translations"
              (.multipart writer.boundary writer.parts) with
          | .error err => ⟨[], .ret none (some (Errorf_w "error creating request: " err))⟩
          | .ok httpReq =>
            let httpReq := httpReq.setHeader "Content-Type" writer.FormDataContentType
            let httpReq := httpReq.setHeader "Authorization" ("Bearer " ++ c.APIKey)
            match c.HTTPClient with
            | none => ⟨[], .panic nilDereference⟩
            | some client =>
              match client httpReq with
              | .error err =>
                ⟨[httpReq], .ret none
                  (some (Errorf_w "error making request to translation API: " err))⟩
              | .ok resp =>
                if resp.StatusCode ≠ http.StatusOK then
                  ⟨[httpReq], .ret none
                    (some (Errorf_d "translation API returned non-200 status code: " resp.StatusCode))⟩
                else
                  match Decode TranslationResponse.unmarshal TranslationResponse.zero resp.Body with
                  | .error err =>
                    ⟨[httpReq], .ret none (some (Errorf_w "error decoding response body: " err))⟩
                  | .ok translationResponse => ⟨[httpReq], .ret (some translationResponse) none⟩

/-- The method `CreateChatCompletion` of `chat.go`. -/
def CreateChatCompletion (sc : Strconv) (c : Client) (req : ChatCompletionRequest) :
    Call ChatCompletionResponse :=
  match json.Marshal (req.toJSON sc) with
  | .error err => ⟨[], .ret none (some (Errorf_w "error marshalling request: " err))⟩
  | .ok body =>
    match http.NewRequest "POST" "https://api.openai.com/v1/chat/completions" (.raw body) with
    | .error err => ⟨[], .ret none (some (Errorf_w "error creating request: " err))⟩
    | .ok httpReq =>
      let httpReq := httpReq.setHeader "Content-Type" "application/json"
      let httpReq := httpReq.setHeader "Authorization" ("Bearer " ++ c.APIKey)
      match c.HTTPClient with
      | none => ⟨[], .panic nilDereference⟩
      | some client =>
        match client httpReq with
        | .error err =>
          ⟨[httpReq], .ret none (some (Errorf_w "error making request to chat completion API: " err))⟩
        | .ok resp =>
          if resp.StatusCode ≠ http.StatusOK then
            ⟨[httpReq], .ret none
              (some (Errorf_d "chat completion API returned non-200 status code: " resp.StatusCode))⟩
          else
            match Decode (ChatCompletionResponse.unmarshal sc) ChatCompletionResponse.zero
                resp.Body with
            | .error err =>
              ⟨[httpReq], .ret none (some (Errorf_w "error decoding response body: " err))⟩
            | .ok chatCompletionResponse => ⟨[httpReq], .ret (some chatCompletionResponse) none⟩

/-- The method `CreateEmbeddings` of `embeddings.go`. -/
def CreateEmbeddings (sc : Strconv) (c : Client) (req : EmbeddingRequest) : Call EmbeddingResponse :=
  match json.Marshal (req.toJSON sc) with
  | .error err => ⟨[], .ret none (some (Errorf_w "error marshalling request: " err))⟩
  | .ok body =>
    match http.NewRequest "POST" "https://api.openai.com/v1/embeddings" (.raw body) with
    | .error err => ⟨[], .ret none (some (Errorf_w "error creating request: " err))⟩
    | .ok httpReq =>
      let httpReq := httpReq.setHeader "Content-Type" "application/json"
      let httpReq := httpReq.setHeader "Authorization" ("Bearer " ++ c.APIKey)
      match c.HTTPClient with
      | none => ⟨[], .panic nilDereference⟩
      | some client =>
        match client httpReq with
        | .error err =>
          ⟨[httpReq], .ret none (some (Errorf_w "error making request to embeddings API: " err))⟩
        | .ok resp =>
          if resp.StatusCode ≠ http.StatusOK then
            ⟨[httpReq], .ret none
              (some (Errorf_d "embeddings API returned non-200 status code: " resp.StatusCode))⟩
          else
            match Decode (EmbeddingResponse.unmarshal sc) EmbeddingResponse.zero resp.Body with
            | .error err =>
              ⟨[httpReq], .ret none (some (Errorf_w "error decoding response body: " err))⟩
            | .ok embeddingResponse => ⟨[httpReq], .ret (some embeddingResponse) none⟩

/-- The method `CreateFineTuningJob` of `finetuning.go`. -/
def CreateFineTuningJob (sc : Strconv) (c : Client) (req : FineTuningJobRequest) :
    Call FineTuningJobResponse :=
  match json.Marshal (req.toJSON sc) with
  | .error err => ⟨[], .ret none (some (Errorf_w "error marshalling request: " err))⟩
  | .ok body =>
    match http.NewRequest "POST" "https://api.openai.com/v1/fine_tuning/jobs" (.raw body) with
    | .error err => ⟨[], .ret none (some (Errorf_w "error creating request: " err))⟩
    | .ok httpReq =>
      let httpReq := httpReq.setHeader "Content-Type" "application/json"
      let httpReq := httpReq.setHeader "Authorization" ("Bearer " ++ c.APIKey)
      match c.HTTPClient with
      | none => ⟨[], .panic nilDereference⟩
      | some client =>
        match client httpReq with
        | .error err =>
          ⟨[httpReq], .ret none (some (Errorf_w "error making request to fine tuning jobs API: " err))⟩
        | .ok resp =>
          if resp.StatusCode ≠ http.StatusOK then
            ⟨[httpReq], .ret none
              (some (Errorf_d "fine tuning jobs API returned non-200 status code: " resp.StatusCode))⟩
          else
            match Decode (FineTuningJobResponse.unmarshal sc) FineTuningJobResponse.zero
                resp.Body with
            | .error err =>
              ⟨[httpReq], .ret none (some (Errorf_w "error decoding response body: " err))⟩
            | .ok fineTuningJobResponse => ⟨[httpReq], .ret (some fineTuningJobResponse) none⟩

/-! ## Predicates of the statements -/

/-- What the adequacy of the budget says of one call. -/
def FuelOK {α : Type} (x : Except ScanError (α × List Char)) (s : List Char) : Prop :=
  x ≠ .error .outOfFuel ∧ ∀ r, x = .ok r → r.2.length < s.length

/-- The text `rest` does not continue a number: it is empty or begins with a
character other than a digit, a point and the letter of an exponent. -/
def endsNumber : List Char → Bool
  | [] => true
  | c :: _ => !(isDigit c || c = '.' || c = 'e' || c = 'E')

/-- A number literal of JSON: the scanner reads the whole text as one number. -/
def isNumberLit (l : List Char) : Bool :=
  match lexNumber l with
  | .ok (x, []) => x = l
  | _ => false

mutual
/-- Every number of the value is a number literal of JSON. -/
def JSON.wf : JSON → Bool
  | .number lit => isNumberLit lit.data
  | .array elems => JSON.wfList elems
  | .object members => JSON.wfMembers members
  | _ => true
/-- Every number of the elements is a number literal. -/
def JSON.wfList : List JSON → Bool
  | [] => true
  | j :: js => j.wf && JSON.wfList js
/-- Every number of the members is a number literal. -/
def JSON.wfMembers : List (String × JSON) → Bool
  | [] => true
  | (_, j) :: ms => j.wf && JSON.wfMembers ms
end

/-- Writing `x` with `enc` and reading the text back with `un` into a variable
that holds `zero` gives `x`; the text is well-formed JSON. -/
def RoundTrips {α : Type} (enc : α → Except GoError JSON) (un : Unmarshaler α) (zero : α)
    (x : α) : Prop :=
  ∀ j, enc x = .ok j → j.wf = true ∧ un j zero = .ok x

/-- An integer in the range of `int64`. -/
def InInt64 (n : Int) : Prop := -2 ^ 63 ≤ n ∧ n < 2 ^ 63

/-- The decimal text `strconv` writes for `x` is a number literal of JSON that
`strconv` reads back as `x`. -/
def FloatOK (sc : Strconv) (x : Float64) : Prop :=
  isNumberLit (sc.FormatFloat x).data = true ∧ sc.ParseFloat (sc.FormatFloat x) = some x

mutual
/-- A value of the empty interface as `encoding/json` produces them: of one of
the dynamic types `nil`, `bool`, `float64`, `string`, `[]interface{}` and
`map[string]interface{}` throughout, with floats that `strconv` writes and reads
back, and with the entries of every map listed as `mapOf` lists them (in
ascending order of the keys, each key once). -/
def Any.Canonical (sc : Strconv) : Any → Prop
  | .nil => True
  | .bool _ => True
  | .float64 x => FloatOK sc x
  | .int _ => False
  | .string _ => True
  | .slice elems => Any.CanonicalList sc elems
  | .map entries => mapOf entries = entries ∧ Any.CanonicalEntries sc entries
/-- Every element is canonical. -/
def Any.CanonicalList (sc : Strconv) : List Any → Prop
  | [] => True
  | x :: xs => Any.Canonical sc x ∧ Any.CanonicalList sc xs
/-- Every value of an entry is canonical. -/
def Any.CanonicalEntries (sc : Strconv) : List (String × Any) → Prop
  | [] => True
  | (_, x) :: ms => Any.Canonical sc x ∧ Any.CanonicalEntries sc ms
end

/-- A `map[string]interface{}` whose entries are listed as `mapOf` lists them
and whose values are canonical. -/
def MapCanonical (sc : Strconv) (entries : List (String × Any)) : Prop :=
  mapOf entries = entries ∧ Any.CanonicalEntries sc entries

/-- The counters of a chat completion are in the range of `int64`. -/
def ChatUsage.Canonical (u : ChatUsage) : Prop :=
  InInt64 u.PromptTokens ∧ InInt64 u.CompletionTokens ∧ InInt64 u.TotalTokens

/-- A choice whose index is in the range of `int64` and whose `LogProbs` holds a
canonical value. -/
def ChatChoice.Canonical (sc : Strconv) (c : ChatChoice) : Prop :=
  InInt64 c.Index ∧ Any.Canonical sc c.LogProbs

/-- A chat completion whose integers are in the range of `int64` and whose
choices are canonical. -/
def ChatCompletionResponse.Canonical (sc : Strconv) (r : ChatCompletionResponse) : Prop :=
  InInt64 r.Created ∧ (∀ c ∈ r.Choices.getD [], ChatChoice.Canonical sc c) ∧ r.Usage.Canonical

/-- The counters of an embedding response are in the range of `int64`. -/
def EmbeddingUsage.Canonical (u : EmbeddingUsage) : Prop :=
  InInt64 u.PromptTokens ∧ InInt64 u.TotalTokens

/-- An element of `Data` whose index is in the range of `int64` and whose
floats `strconv` writes and reads back. -/
def EmbeddingData.Canonical (sc : Strconv) (d : EmbeddingData) : Prop :=
  (∀ x ∈ d.Embedding.getD [], FloatOK sc x) ∧ InInt64 d.Index

/-- An embedding response whose elements and counters are canonical. -/
def EmbeddingResponse.Canonical (sc : Strconv) (r : EmbeddingResponse) : Prop :=
  (∀ d ∈ r.Data.getD [], EmbeddingData.Canonical sc d) ∧ r.Usage.Canonical

/-- A segment whose integers are in the range of `int64` and whose floats
`strconv` writes and reads back. -/
def Segment.Canonical (sc : Strconv) (g : Segment) : Prop :=
  InInt64 g.ID ∧ FloatOK sc g.Seek ∧ FloatOK sc g.Start ∧ FloatOK sc g.End ∧
  (∀ t ∈ g.Tokens.getD [], InInt64 t) ∧ FloatOK sc g.Temperature ∧ FloatOK sc g.AvgLogprob ∧
  FloatOK sc g.CompressionRatio ∧ FloatOK sc g.NoSpeechProb

/-- A transcription whose `omitempty` fields are either unset or not empty (a
`Duration` that compares equal to zero is the positive zero, `Segments` is not
an empty slice that is not nil), whose segments are canonical and whose
`Duration` `strconv` writes and reads back. -/
def TranscriptionResponse.Canonical (sc : Strconv) (r : TranscriptionResponse) : Prop :=
  (r.Duration.isZero = true → r.Duration = Float64.zero) ∧
  (r.Duration.isZero = false → FloatOK sc r.Duration) ∧
  r.Segments ≠ some [] ∧ ∀ g ∈ r.Segments.getD [], Segment.Canonical sc g

/-- A fine-tuning job whose integers are in the range of `int64`, whose `Error`
is not a pointer to a nil map, and whose maps are canonical. -/
def FineTuningJobResponse.Canonical (sc : Strconv) (r : FineTuningJobResponse) : Prop :=
  InInt64 r.CreatedAt ∧ r.Error ≠ some none ∧
  (∀ es, r.Error = some (some es) → MapCanonical sc es) ∧
  (∀ n, r.FinishedAt = some n → InInt64 n) ∧
  (∀ es, r.Hyperparameters = some es → MapCanonical sc es) ∧
  (∀ n, r.TrainedTokens = some n → InInt64 n)

/-! ## Sample values -/

/-- A client whose transport answers every request with the given status and body. -/
def sampleClient (status : Int) (body : List Byte) : Client :=
  NewClient (fun _ => .ok ⟨status, ⟨body, none⟩⟩) "sk-test"

/-- The chat request of the scenario of the specification. -/
def sampleChatRequest : ChatCompletionRequest :=
  { ChatCompletionRequest.zero with Model := "gpt-x", Messages := some [⟨"user", "hi"⟩] }

/-- The chat payload of the scenario of the specification. -/
def sampleChatPayload : String :=
  "\x7b\"id\":\"abc\",\"object\":\"chat.completion\",\"created\":1,\"model\":\"gpt-x\"," ++
  "\"choices\":[\x7b\"index\":0,\"message\":\x7b\"role\":\"assistant\",\"content\":\"hello\"\x7d," ++
  "\"finish_reason\":\"stop\"\x7d],\"usage\":\x7b\"prompt_tokens\":1,\"completion_tokens\":1," ++
  "\"total_tokens\":2\x7d\x7d"

/-- A speech request with the optional fields left unassigned. -/
def sampleSpeechRequest : SpeechRequest :=
  { SpeechRequest.zero with Model := "tts-1", Input := "hi", Voice := "alloy" }

/-- A transcription request: a buffer of three bytes, the file name `a.wav`,
and the prompt `hello`. -/
def sampleTranscriptionRequest : TranscriptionRequest :=
  { AudioBuffer := some [82, 73, 70], FileName := "a.wav", Model := "", Language := "",
    Prompt := "hello", ResponseFormat := "", Temperature := Float64.zero,
    TimestampGranularities := none }

/-- A translation request: a buffer of three bytes and the file name `a.wav`. -/
def sampleTranslationRequest : TranslationRequest :=
  { FileName := "a.wav", AudioBuffer := some [82, 73, 70], Model := "", Prompt := "",
    ResponseFormat := "", Temperature := Float64.zero }

/-- An embedding request with the optional fields left unassigned. -/
def sampleEmbeddingRequest : EmbeddingRequest :=
  { EmbeddingRequest.zero with Input := .string "hi", Model := "text-embedding-3-small" }

/-- A fine-tuning request with the optional fields left unassigned. -/
def sampleFineTuningJobRequest : FineTuningJobRequest :=
  { FineTuningJobRequest.zero with Model := "gpt-x", TrainingFile := "file-1" }

/-- The chat request of the scenario with `Temperature` pointing to 0. -/
def zeroTemperatureRequest : ChatCompletionRequest :=
  { sampleChatRequest with Temperature := some Float64.zero }

/-! # Theorems -/

/-! ## The parser stays within its budget -/

theorem Except.map_eq_ok {ε α β : Type} {f : α → β} {x : Except ε α} {y : β} :
    x.map f = .ok y ↔ ∃ a, x = .ok a ∧ f a = y := by
  cases x <;> simp [Except.map]

theorem Except.map_eq_error {ε α β : Type} {f : α → β} {x : Except ε α} {e : ε} :
    x.map f = .error e ↔ x = .error e := by
  cases x <;> simp [Except.map]

theorem Except.bind_eq_ok {ε α β : Type} {f : α → Except ε β} {x : Except ε α} {y : β} :
    x.bind f = .ok y ↔ ∃ a, x = .ok a ∧ f a = .ok y := by
  cases x <;> simp [Except.bind]

theorem Except.bind_eq_error {ε α β : Type} {f : α → Except ε β} {x : Except ε α} {e : ε} :
    x.bind f = .error e ↔ x = .error e ∨ ∃ a, x = .ok a ∧ f a = .error e := by
  cases x <;> simp [Except.bind]

theorem skipSpace_length (s : List Char) : (skipSpace s).length ≤ s.length := by
  induction s with
  | nil => simp [skipSpace]
  | cons c cs ih =>
    simp only [skipSpace]
    split
    · simp; omega
    · simp

theorem lowSurrogate_length {s : List Char} {m : Nat} {r : List Char}
    (h : lowSurrogate s = some (m, r)) : r.length < s.length := by
  unfold lowSurrogate at h
  split at h
  · split at h
    · split at h
      · simp at h; obtain ⟨_, rfl⟩ := h; simp; omega
      · simp at h
    · simp at h
  · simp at h

theorem hexError_ne_outOfFuel (l : List Char) : hexError l ≠ .outOfFuel := by
  induction l with
  | nil => simp [hexError]
  | cons x xs ih => simp only [hexError]; split <;> simp [ih]

theorem readString_fuel (n : Nat) : ∀ s : List Char, s.length < n →
    readString n s ≠ .error .outOfFuel ∧
    ∀ r, readString n s = .ok r → r.2.length < s.length := by
  induction n with
  | zero => intro s h; omega
  | succ n ih =>
    intro s h
    cases s with
    | nil => simp [readString]
    | cons c rest =>
      have hrest : rest.length < n := by simp at h; omega
      unfold readString
      split
      · simp
      · split
        · split
          · simp
          · rename_i a b c d rest2
            have h2 : rest2.length < n := by simp at hrest; omega
            split
            · exact ⟨by simpa using hexError_ne_outOfFuel _, by simp⟩
            · split
              · split
                · rename_i m rest3 hl
                  have : rest3.length < rest2.length := by
                    split at hl
                    · exact lowSurrogate_length hl
                    · simp at hl
                  have h3 := ih rest3 (by omega)
                  refine ⟨by simpa [Except.map_eq_error] using h3.1, ?_⟩
                  intro r hr
                  obtain ⟨a, ha, rfl⟩ := Except.map_eq_ok.mp hr
                  have := h3.2 a ha
                  simp; omega
                · have h3 := ih rest2 h2
                  refine ⟨by simpa [Except.map_eq_error] using h3.1, ?_⟩
                  intro r hr
                  obtain ⟨a, ha, rfl⟩ := Except.map_eq_ok.mp hr
                  have := h3.2 a ha
                  simp; omega
              · have h3 := ih rest2 h2
                refine ⟨by simpa [Except.map_eq_error] using h3.1, ?_⟩
                intro r hr
                obtain ⟨a, ha, rfl⟩ := Except.map_eq_ok.mp hr
                have := h3.2 a ha
                simp; omega
          · rename_i short
            exact ⟨by simpa using hexError_ne_outOfFuel _, by simp⟩
          · rename_i e rest2 _ _
            have h2 : rest2.length < n := by simp at hrest; omega
            split
            · have h3 := ih rest2 h2
              refine ⟨by simpa [Except.map_eq_error] using h3.1, ?_⟩
              intro r hr
              obtain ⟨a, ha, rfl⟩ := Except.map_eq_ok.mp hr
              have := h3.2 a ha
              simp; omega
            · simp
        · split
          · simp
          · have h3 := ih rest hrest
            refine ⟨by simpa [Except.map_eq_error] using h3.1, ?_⟩
            intro r hr
            obtain ⟨a, ha, rfl⟩ := Except.map_eq_ok.mp hr
            have := h3.2 a ha
            simp; omega

theorem spanDigits_length (s : List Char) : (spanDigits s).2.length ≤ s.length := by
  induction s with
  | nil => simp [spanDigits]
  | cons c cs ih =>
    simp only [spanDigits]
    split
    · simp; omega
    · simp

theorem digits1_spec (context : String) (s : List Char) :
    digits1 context s ≠ .error .outOfFuel ∧
    ∀ r, digits1 context s = .ok r → r.2.length < s.length := by
  cases s with
  | nil => simp [digits1]
  | cons c cs =>
    simp only [digits1]
    split
    · refine ⟨by simp, ?_⟩
      intro r hr
      simp at hr
      subst hr
      have := spanDigits_length cs
      simp; omega
    · simp

theorem lexInt_spec (s : List Char) :
    lexInt s ≠ .error .outOfFuel ∧ ∀ r, lexInt s = .ok r → r.2.length < s.length := by
  cases s with
  | nil => simp [lexInt]
  | cons c cs =>
    simp only [lexInt]
    split
    · simp
    · split
      · refine ⟨by simp, ?_⟩
        intro r hr
        simp at hr
        subst hr
        have := spanDigits_length cs
        simp; omega
      · simp

theorem lexSigned_spec (s : List Char) :
    lexSigned s ≠ .error .outOfFuel ∧ ∀ r, lexSigned s = .ok r → r.2.length < s.length := by
  unfold lexSigned
  split
  · rename_i cs
    have h := lexInt_spec cs
    refine ⟨by simpa [Except.map_eq_error] using h.1, ?_⟩
    intro r hr
    obtain ⟨a, ha, rfl⟩ := Except.map_eq_ok.mp hr
    have := h.2 a ha
    simp; omega
  · exact lexInt_spec s

theorem lexFrac_spec (s : List Char) :
    lexFrac s ≠ .error .outOfFuel ∧ ∀ r, lexFrac s = .ok r → r.2.length ≤ s.length := by
  unfold lexFrac
  split
  · rename_i cs
    have h := digits1_spec "after decimal point in numeric literal" cs
    refine ⟨by simpa [Except.map_eq_error] using h.1, ?_⟩
    intro r hr
    obtain ⟨a, ha, rfl⟩ := Except.map_eq_ok.mp hr
    have := h.2 a ha
    simp; omega
  · simp

theorem lexExp_spec (s : List Char) :
    lexExp s ≠ .error .outOfFuel ∧ ∀ r, lexExp s = .ok r → r.2.length ≤ s.length := by
  unfold lexExp
  split
  · simp
  · rename_i e cs
    split
    · split
      · simp
      · rename_i sign ds
        split
        · have h := digits1_spec "in exponent of numeric literal" ds
          refine ⟨by simpa [Except.map_eq_error] using h.1, ?_⟩
          intro r hr
          obtain ⟨a, ha, rfl⟩ := Except.map_eq_ok.mp hr
          have := h.2 a ha
          simp; omega
        · have h := digits1_spec "in exponent of numeric literal" (sign :: ds)
          refine ⟨by simpa [Except.map_eq_error] using h.1, ?_⟩
          intro r hr
          obtain ⟨a, ha, rfl⟩ := Except.map_eq_ok.mp hr
          have := h.2 a ha
          simp at this ⊢; omega
    · simp

theorem lexNumber_spec (s : List Char) :
    lexNumber s ≠ .error .outOfFuel ∧ ∀ r, lexNumber s = .ok r → r.2.length < s.length := by
  unfold lexNumber
  constructor
  · intro h
    rcases Except.bind_eq_error.mp h with h | ⟨i, _, h⟩
    · exact (lexSigned_spec s).1 h
    · rcases Except.bind_eq_error.mp h with h | ⟨f, _, h⟩
      · exact (lexFrac_spec _).1 h
      · exact (lexExp_spec _).1 (Except.map_eq_error.mp h)
  · intro r hr
    obtain ⟨i, hi, hr⟩ := Except.bind_eq_ok.mp hr
    obtain ⟨f, hf, hr⟩ := Except.bind_eq_ok.mp hr
    obtain ⟨e, he, rfl⟩ := Except.map_eq_ok.mp hr
    have h1 := (lexSigned_spec s).2 i hi
    have h2 := (lexFrac_spec _).2 f hf
    have h3 := (lexExp_spec _).2 e he
    simp; omega

theorem expectLit_spec (name : String) (es s : List Char) :
    expectLit name es s ≠ .error .outOfFuel ∧
    ∀ r, expectLit name es s = .ok r → r.length ≤ s.length := by
  induction es generalizing s with
  | nil => simp [expectLit]
  | cons e es ih =>
    cases s with
    | nil => simp [expectLit]
    | cons c cs =>
      simp only [expectLit]
      split
      · have h := ih cs
        refine ⟨h.1, fun r hr => ?_⟩
        have := h.2 r hr
        simp; omega
      · simp

theorem parse_fuel (n : Nat) :
    (∀ s : List Char, 2 * s.length < n → FuelOK (parseValue n s) s) ∧
    (∀ s : List Char, 2 * s.length + 1 < n → FuelOK (parseElems n s) s) ∧
    (∀ s : List Char, 2 * s.length + 1 < n → FuelOK (parseMembers n s) s) := by
  induction n with
  | zero => exact ⟨fun s h => by omega, fun s h => by omega, fun s h => by omega⟩
  | succ n ih =>
    obtain ⟨ihV, ihE, ihM⟩ := ih
    refine ⟨?_, ?_, ?_⟩
    · intro s hs
      unfold parseValue
      have hsk := skipSpace_length s
      split
      · simp [FuelOK]
      · rename_i c rest hskip
        rw [hskip] at hsk
        simp at hsk
        split
        · split
          · rename_i r hr
            have := skipSpace_length rest
            rw [hr] at this
            simp at this
            simp [FuelOK]; omega
          · have h := ihM rest (by omega)
            refine ⟨by simpa [Except.map_eq_error] using h.1, ?_⟩
            intro r hr
            obtain ⟨a, ha, rfl⟩ := Except.map_eq_ok.mp hr
            have := h.2 a ha
            simp; omega
        · split
          · split
            · rename_i r hr
              have := skipSpace_length rest
              rw [hr] at this
              simp at this
              simp [FuelOK]; omega
            · have h := ihE rest (by omega)
              refine ⟨by simpa [Except.map_eq_error] using h.1, ?_⟩
              intro r hr
              obtain ⟨a, ha, rfl⟩ := Except.map_eq_ok.mp hr
              have := h.2 a ha
              simp; omega
          · split
            · have h := readString_fuel (rest.length + 1) rest (by omega)
              refine ⟨by simpa [Except.map_eq_error] using h.1, ?_⟩
              intro r hr
              obtain ⟨a, ha, rfl⟩ := Except.map_eq_ok.mp hr
              have := h.2 a ha
              simp; omega
            · split
              · have h := lexNumber_spec (c :: rest)
                refine ⟨by simpa [Except.map_eq_error] using h.1, ?_⟩
                intro r hr
                obtain ⟨a, ha, rfl⟩ := Except.map_eq_ok.mp hr
                have := h.2 a ha
                simp at this ⊢; omega
              · split
                · have h := expectLit_spec "true" ['r', 'u', 'e'] rest
                  refine ⟨by simpa [Except.map_eq_error] using h.1, ?_⟩
                  intro r hr
                  obtain ⟨a, ha, rfl⟩ := Except.map_eq_ok.mp hr
                  have := h.2 a ha
                  simp; omega
                · split
                  · have h := expectLit_spec "false" ['a', 'l', 's', 'e'] rest
                    refine ⟨by simpa [Except.map_eq_error] using h.1, ?_⟩
                    intro r hr
                    obtain ⟨a, ha, rfl⟩ := Except.map_eq_ok.mp hr
                    have := h.2 a ha
                    simp; omega
                  · split
                    · have h := expectLit_spec "null" ['u', 'l', 'l'] rest
                      refine ⟨by simpa [Except.map_eq_error] using h.1, ?_⟩
                      intro r hr
                      obtain ⟨a, ha, rfl⟩ := Except.map_eq_ok.mp hr
                      have := h.2 a ha
                      simp; omega
                    · simp [FuelOK]
    · intro s hs
      unfold parseElems
      have hV := ihV s (by omega)
      constructor
      · intro h
        rcases Except.bind_eq_error.mp h with h | ⟨v, hv, h⟩
        · exact hV.1 h
        · have hlen := hV.2 v hv
          have hsk := skipSpace_length v.2
          split at h
          · simp at h
          · rename_i c rest hskip
            rw [hskip] at hsk
            simp at hsk
            split at h
            · exact (ihE rest (by omega)).1 (Except.map_eq_error.mp h)
            · split at h <;> simp at h
      · intro r hr
        obtain ⟨v, hv, hr⟩ := Except.bind_eq_ok.mp hr
        have hlen := hV.2 v hv
        have hsk := skipSpace_length v.2
        split at hr
        · simp at hr
        · rename_i c rest hskip
          rw [hskip] at hsk
          simp at hsk
          split at hr
          · obtain ⟨a, ha, rfl⟩ := Except.map_eq_ok.mp hr
            have := (ihE rest (by omega)).2 a ha
            simp; omega
          · split at hr
            · simp at hr; subst hr; simp; omega
            · simp at hr
    · intro s hs
      unfold parseMembers
      have hsk := skipSpace_length s
      split
      · simp [FuelOK]
      · rename_i q afterQuote hskip
        rw [hskip] at hsk
        simp at hsk
        split
        · have hK := readString_fuel (afterQuote.length + 1) afterQuote (by omega)
          constructor
          · intro h
            rcases Except.bind_eq_error.mp h with h | ⟨k, hk, h⟩
            · exact hK.1 h
            · have hklen := hK.2 k hk
              have hsk2 := skipSpace_length k.2
              split at h
              · simp at h
              · rename_i colon afterColon hskip2
                rw [hskip2] at hsk2
                simp at hsk2
                split at h
                · have hV := ihV afterColon (by omega)
                  rcases Except.bind_eq_error.mp h with h | ⟨v, hv, h⟩
                  · exact hV.1 h
                  · have hvlen := hV.2 v hv
                    have hsk3 := skipSpace_length v.2
                    split at h
                    · simp at h
                    · rename_i c rest hskip3
                      rw [hskip3] at hsk3
                      simp at hsk3
                      split at h
                      · exact (ihM rest (by omega)).1 (Except.map_eq_error.mp h)
                      · split at h <;> simp at h
                · simp at h
          · intro r hr
            obtain ⟨k, hk, hr⟩ := Except.bind_eq_ok.mp hr
            have hklen := hK.2 k hk
            have hsk2 := skipSpace_length k.2
            split at hr
            · simp at hr
            · rename_i colon afterColon hskip2
              rw [hskip2] at hsk2
              simp at hsk2
              split at hr
              · have hV := ihV afterColon (by omega)
                obtain ⟨v, hv, hr⟩ := Except.bind_eq_ok.mp hr
                have hvlen := hV.2 v hv
                have hsk3 := skipSpace_length v.2
                split at hr
                · simp at hr
                · rename_i c rest hskip3
                  rw [hskip3] at hsk3
                  simp at hsk3
                  split at hr
                  · obtain ⟨a, ha, rfl⟩ := Except.map_eq_ok.mp hr
                    have := (ihM rest (by omega)).2 a ha
                    simp; omega
                  · split at hr
                    · simp at hr; subst hr; simp; omega
                    · simp at hr
              · simp at hr
        · simp [FuelOK]

/-- The budget that `Decoder.readValue` gives the parser is never exhausted. -/
theorem readValue_ne_outOfFuel (text : List Char) :
    Decoder.readValue text ≠ .error .outOfFuel := by
  unfold Decoder.readValue
  intro h
  rcases Except.bind_eq_error.mp h with h | ⟨r, _, h⟩
  · exact ((parse_fuel _).1 text (by omega)).1 h
  · split at h
    · simp at h
    · split at h
      · simp at h
      · split at h <;> simp at h

/-! ## Writing and reading back: numbers and strings -/

theorem toNat_ofNat_valid {n : Nat} (h : n.isValidChar) : (Char.ofNat n).toNat = n := by
  rw [Char.ofNat, dif_pos h]
  rfl

theorem isValidChar_toNat (c : Char) : c.toNat.isValidChar := c.valid

theorem char_eq_of_toNat {c d : Char} (h : c.toNat = d.toNat) : c = d := by
  rw [← Char.ofNat_toNat c, ← Char.ofNat_toNat d, h]

theorem isDigit_digitChar {k : Nat} (h : k < 10) : isDigit (digitChar k) = true := by
  interval_cases k <;> rfl

theorem digitChar_val {k : Nat} (h : k < 10) : (digitChar k).toNat - 48 = k := by
  interval_cases k <;> rfl

theorem digitChar_eq_zero {k : Nat} (h : k < 10) (h0 : digitChar k = '0') : k = 0 := by
  interval_cases k <;> first | rfl | (exfalso; revert h0; decide)

/-- Reading the digits of `n` after the value `a` appends them to `a`. -/
theorem parseDigits_natDigits (fuel : Nat) : ∀ n acc, n < fuel →
    ∃ k, ∀ a, parseDigits a (natDigits fuel n acc) = parseDigits (a * 10 ^ k + n) acc := by
  induction fuel with
  | zero => intro n acc h; omega
  | succ fuel ih =>
    intro n acc h
    simp only [natDigits]
    split
    · rename_i hn
      refine ⟨1, fun a => ?_⟩
      simp [parseDigits, isDigit_digitChar hn, digitChar_val hn]
    · rename_i hn
      obtain ⟨k, hk⟩ := ih (n / 10) (digitChar (n % 10) :: acc) (by omega)
      refine ⟨k + 1, fun a => ?_⟩
      rw [hk]
      have hlt : n % 10 < 10 := Nat.mod_lt _ (by omega)
      simp only [parseDigits, isDigit_digitChar hlt, digitChar_val hlt, if_true]
      congr 1
      have := Nat.div_add_mod n 10
      rw [pow_succ]
      nlinarith [Nat.div_add_mod n 10]

theorem parseDigits_formatNat (n : Nat) : parseDigits 0 (formatNat n) = some n := by
  obtain ⟨k, hk⟩ := parseDigits_natDigits (n + 1) n [] (by omega)
  rw [formatNat, hk]
  simp [parseDigits]

/-- The digits of a number: all of them digits. -/
theorem natDigits_all (fuel : Nat) : ∀ n acc, (∀ c ∈ acc, isDigit c = true) →
    ∀ c ∈ natDigits fuel n acc, isDigit c = true := by
  induction fuel with
  | zero => intro n acc h; simpa [natDigits] using h
  | succ fuel ih =>
    intro n acc h
    simp only [natDigits]
    split
    · rename_i hn
      intro c hc
      rcases List.mem_cons.mp hc with rfl | hc
      · exact isDigit_digitChar hn
      · exact h c hc
    · apply ih
      intro c hc
      rcases List.mem_cons.mp hc with rfl | hc
      · exact isDigit_digitChar (Nat.mod_lt _ (by omega))
      · exact h c hc

/-- The digits of a number begin with a digit that is zero for the number zero only. -/
theorem natDigits_head (fuel : Nat) : ∀ n acc, n < fuel →
    ∃ d ds, natDigits fuel n acc = d :: ds ∧ isDigit d = true ∧ (d = '0' → n = 0 ∧ ds = acc) := by
  induction fuel with
  | zero => intro n acc h; omega
  | succ fuel ih =>
    intro n acc h
    simp only [natDigits]
    split
    · rename_i hn
      exact ⟨_, _, rfl, isDigit_digitChar hn, fun h0 => ⟨digitChar_eq_zero hn h0, rfl⟩⟩
    · rename_i hn
      obtain ⟨d, ds, hd, hdig, h0⟩ := ih (n / 10) (digitChar (n % 10) :: acc) (by omega)
      refine ⟨d, ds, hd, hdig, fun hz => ?_⟩
      have := (h0 hz).1
      omega

theorem ParseInt_formatInt (i : Int) (hlo : -2 ^ 63 ≤ i) (hhi : i < 2 ^ 63) :
    ParseInt (formatInt i) = some i := by
  cases i with
  | ofNat n =>
    obtain ⟨d, ds, hd, hdig, _⟩ := natDigits_head (n + 1) n [] (by omega)
    have hp := parseDigits_formatNat n
    simp only [formatInt]
    rw [formatNat] at hp ⊢
    rw [hd] at hp ⊢
    have h1 : d ≠ '-' := by rintro rfl; revert hdig; decide
    have h2 : d ≠ '+' := by rintro rfl; revert hdig; decide
    unfold ParseInt
    split
    · simp at *
    · rename_i heq; simp at heq; exact absurd heq.1 h1
    · rename_i heq; simp at heq; exact absurd heq.1 h2
    · rw [hp]
      have : n < 2 ^ 63 := by
        have : ((n : Nat) : Int) < 2 ^ 63 := hhi
        exact_mod_cast this
      norm_num at this
      simp [this]
  | negSucc n =>
    obtain ⟨d, ds, hd, hdig, _⟩ := natDigits_head (n + 1 + 1) (n + 1) [] (by omega)
    have hp := parseDigits_formatNat (n + 1)
    simp only [formatInt]
    unfold ParseInt
    have hne : formatNat (n + 1) ≠ [] := by rw [formatNat, hd]; simp
    simp only [hne, if_false, hp, Option.bind]
    have : n + 1 ≤ 2 ^ 63 := by
      have h := hlo
      rw [Int.negSucc_eq] at h
      omega
    norm_num at this
    simp [Int.negSucc_eq]
    omega

theorem spanDigits_ext (s rest : List Char) (h : endsNumber rest = true) :
    spanDigits (s ++ rest) = ((spanDigits s).1, (spanDigits s).2 ++ rest) := by
  induction s with
  | nil =>
    cases rest with
    | nil => simp [spanDigits]
    | cons c cs =>
      simp only [endsNumber, Bool.not_eq_true', Bool.or_eq_false_iff] at h
      simp [spanDigits, h.1.1.1]
  | cons c cs ih =>
    simp only [List.cons_append, spanDigits]
    split
    · simp [ih]
    · simp

theorem digits1_ext (context : String) (s rest : List Char) (h : endsNumber rest = true)
    (r : List Char × List Char) (hr : digits1 context s = .ok r) :
    digits1 context (s ++ rest) = .ok (r.1, r.2 ++ rest) := by
  cases s with
  | nil => simp [digits1] at hr
  | cons c cs =>
    simp only [digits1, List.cons_append] at hr ⊢
    split at hr
    · rename_i hc
      simp only [hc, if_true]
      cases hr
      simp [spanDigits_ext cs rest h]
    · simp at hr

theorem lexInt_ext (s rest : List Char) (h : endsNumber rest = true)
    (r : List Char × List Char) (hr : lexInt s = .ok r) :
    lexInt (s ++ rest) = .ok (r.1, r.2 ++ rest) := by
  cases s with
  | nil => simp [lexInt] at hr
  | cons c cs =>
    simp only [lexInt, List.cons_append] at hr ⊢
    split at hr
    · rename_i hc
      simp only [hc, if_true]
      cases hr
      rfl
    · rename_i hc
      simp only [hc, if_false]
      split at hr
      · rename_i hd
        simp only [hd, if_true]
        cases hr
        simp [spanDigits_ext cs rest h]
      · simp at hr

theorem lexSigned_ext (s rest : List Char) (h : endsNumber rest = true)
    (r : List Char × List Char) (hr : lexSigned s = .ok r) :
    lexSigned (s ++ rest) = .ok (r.1, r.2 ++ rest) := by
  unfold lexSigned at hr
  split at hr
  · rename_i cs
    obtain ⟨a, ha, rfl⟩ := Except.map_eq_ok.mp hr
    simp [lexSigned, lexInt_ext cs rest h a ha, Except.map]
  · rename_i hneg
    cases s with
    | nil => simp [lexInt] at hr
    | cons c cs =>
      have hc : c ≠ '-' := fun hc => hneg cs (by rw [hc])
      have := lexInt_ext (c :: cs) rest h r hr
      unfold lexSigned
      split
      · rename_i heq
        simp at heq
        exact absurd heq.1 hc
      · exact this

theorem lexFrac_ext (s rest : List Char) (h : endsNumber rest = true)
    (r : List Char × List Char) (hr : lexFrac s = .ok r) :
    lexFrac (s ++ rest) = .ok (r.1, r.2 ++ rest) := by
  unfold lexFrac at hr
  split at hr
  · rename_i cs
    obtain ⟨a, ha, rfl⟩ := Except.map_eq_ok.mp hr
    simp [lexFrac, digits1_ext _ cs rest h a ha, Except.map]
  · rename_i hdot
    cases hr
    cases s with
    | nil =>
      cases rest with
      | nil => simp [lexFrac]
      | cons c cs =>
        simp only [endsNumber, Bool.not_eq_true', Bool.or_eq_false_iff, decide_eq_false_iff_not] at h
        unfold lexFrac
        split
        · rename_i heq
          simp at heq
          exact absurd heq.1 h.1.1.2
        · simp
    | cons c cs =>
      have hc : c ≠ '.' := fun hc => hdot cs (by rw [hc])
      unfold lexFrac
      split
      · rename_i heq
        simp at heq
        exact absurd heq.1 hc
      · simp

theorem lexExp_ext (s rest : List Char) (h : endsNumber rest = true)
    (r : List Char × List Char) (hr : lexExp s = .ok r) :
    lexExp (s ++ rest) = .ok (r.1, r.2 ++ rest) := by
  cases s with
  | nil =>
    simp [lexExp] at hr
    subst hr
    cases rest with
    | nil => simp [lexExp]
    | cons c cs =>
      simp only [endsNumber, Bool.not_eq_true', Bool.or_eq_false_iff, decide_eq_false_iff_not] at h
      simp [lexExp, h.1.2, h.2]
  | cons e cs =>
    simp only [lexExp, List.cons_append] at hr ⊢
    split at hr
    · rename_i he
      simp only [he, if_true]
      cases cs with
      | nil => simp at hr
      | cons sign ds =>
        simp only [List.cons_append] at hr ⊢
        split at hr
        · rename_i hs
          simp only [hs, if_true]
          obtain ⟨a, ha, rfl⟩ := Except.map_eq_ok.mp hr
          simp [digits1_ext _ ds rest h a ha, Except.map]
        · rename_i hs
          simp only [hs, if_false]
          obtain ⟨a, ha, rfl⟩ := Except.map_eq_ok.mp hr
          have := digits1_ext _ (sign :: ds) rest h a ha
          simp only [List.cons_append] at this
          simp [this, Except.map]
    · rename_i he
      simp only [he, if_false]
      cases hr
      rfl

theorem lexNumber_ext (s rest : List Char) (h : endsNumber rest = true)
    (r : List Char × List Char) (hr : lexNumber s = .ok r) :
    lexNumber (s ++ rest) = .ok (r.1, r.2 ++ rest) := by
  unfold lexNumber at hr ⊢
  obtain ⟨i, hi, hr⟩ := Except.bind_eq_ok.mp hr
  obtain ⟨f, hf, hr⟩ := Except.bind_eq_ok.mp hr
  obtain ⟨e, he, rfl⟩ := Except.map_eq_ok.mp hr
  rw [lexSigned_ext s rest h i hi]
  simp only [Except.bind]
  rw [lexFrac_ext i.2 rest h f hf]
  simp only []
  rw [lexExp_ext f.2 rest h e he]
  rfl

/-- A number literal followed by text that does not continue a number is read
as that literal. -/
theorem lexNumber_lit {l : List Char} (hl : isNumberLit l = true) (rest : List Char)
    (h : endsNumber rest = true) : lexNumber (l ++ rest) = .ok (l, rest) := by
  unfold isNumberLit at hl
  split at hl
  · rename_i x heq
    have := lexNumber_ext l rest h _ heq
    simp at hl
    subst hl
    simpa using this
  · simp at hl

/-- A number literal begins with a minus sign or a digit. -/
theorem isNumberLit_head {l : List Char} (hl : isNumberLit l = true) :
    ∃ c cs, l = c :: cs ∧ (c = '-' ∨ isDigit c = true) := by
  unfold isNumberLit at hl
  split at hl
  · rename_i x heq
    unfold lexNumber at heq
    obtain ⟨i, hi, _⟩ := Except.bind_eq_ok.mp heq
    cases l with
    | nil => simp [lexSigned, lexInt] at hi
    | cons c cs =>
      refine ⟨c, cs, rfl, ?_⟩
      by_cases hc : c = '-'
      · exact Or.inl hc
      · right
        unfold lexSigned at hi
        split at hi
        · rename_i heq2
          simp at heq2
          exact absurd heq2.1 hc
        · simp only [lexInt] at hi
          split at hi
          · rename_i h0; rw [h0]; rfl
          · split at hi
            · assumption
            · simp at hi
  · simp at hl

theorem spanDigits_all {ds : List Char} (h : ∀ c ∈ ds, isDigit c = true) :
    spanDigits ds = (ds, []) := by
  induction ds with
  | nil => rfl
  | cons c cs ih =>
    have hc := h c (List.mem_cons_self _ _)
    have := ih (fun x hx => h x (List.mem_cons_of_mem _ hx))
    simp [spanDigits, hc, this]

theorem lexInt_formatNat (n : Nat) : lexInt (formatNat n) = .ok (formatNat n, []) := by
  obtain ⟨d, ds, hd, hdig, h0⟩ := natDigits_head (n + 1) n [] (by omega)
  have hall := natDigits_all (n + 1) n [] (by simp)
  rw [formatNat, hd] at *
  simp only [lexInt]
  split
  · rename_i hz
    rw [(h0 hz).2, hz]
  · have : spanDigits ds = (ds, []) :=
      spanDigits_all (fun x hx => hall x (List.mem_cons_of_mem _ hx))
    simp [hdig, this]

theorem isNumberLit_formatInt (i : Int) : isNumberLit (formatInt i) = true := by
  have key : lexNumber (formatInt i) = .ok (formatInt i, []) := by
    cases i with
    | ofNat n =>
      obtain ⟨d, ds, hd, hdig, _⟩ := natDigits_head (n + 1) n [] (by omega)
      have hi := lexInt_formatNat n
      have hs : lexSigned (formatNat n) = .ok (formatNat n, []) := by
        rw [formatNat, hd] at hi ⊢
        unfold lexSigned
        split
        · rename_i heq
          simp at heq
          rw [heq.1] at hdig
          exact absurd hdig (by decide)
        · exact hi
      simp [formatInt, lexNumber, hs, Except.bind, lexFrac, lexExp, Except.map]
    | negSucc n =>
      have hi := lexInt_formatNat (n + 1)
      simp [formatInt, lexNumber, lexSigned, hi, Except.bind, lexFrac, lexExp, Except.map]
  simp [isNumberLit, key]

theorem hexVal_hexDigit {n : Nat} (h : n < 16) : hexVal (hexDigit n) = some n := by
  interval_cases n <;> rfl

theorem hex4_low {n : Nat} (h : n < 256) :
    hex4 '0' '0' (hexDigit (n / 16)) (hexDigit (n % 16)) = some n := by
  have h1 : hexVal '0' = some 0 := rfl
  have h2 := hexVal_hexDigit (show n / 16 < 16 by omega)
  have h3 := hexVal_hexDigit (show n % 16 < 16 by omega)
  simp only [hex4, h1, h2, h3]
  congr 1
  omega

theorem readString_plain (c : Char) (f : Nat) (tail : List Char) (h1 : c ≠ '"') (h2 : c ≠ '\\')
    (h3 : ¬ c.toNat < 0x20) :
    readString (f + 1) (c :: tail) = (readString f tail).map fun r => (c :: r.1, r.2) := by
  simp [readString, h1, h2, h3]

theorem readString_short (e x : Char) (f : Nat) (tail : List Char) (he : e ≠ 'u')
    (hx : unescape e = some x) :
    readString (f + 1) ('\\' :: e :: tail) = (readString f tail).map fun r => (x :: r.1, r.2) := by
  rw [readString]
  · simp [hx]
  · intro a b c d rest h; exact absurd h he
  · exact he

theorem readString_u (a b c d : Char) (n : Nat) (f : Nat) (tail : List Char)
    (hn : hex4 a b c d = some n) (hs : ¬ (0xD800 ≤ n ∧ n < 0xE000)) :
    readString (f + 1) ('\\' :: 'u' :: a :: b :: c :: d :: tail) =
      (readString f tail).map fun r => (Char.ofNat n :: r.1, r.2) := by
  rw [readString]
  simp [hn, hs]

theorem readString_escapeChar (c : Char) (f : Nat) (tail : List Char) :
    readString (f + 1) (escapeChar c ++ tail) =
      (readString f tail).map fun r => (c :: r.1, r.2) := by
  unfold escapeChar
  split
  · rename_i h; subst h; exact readString_short '"' '"' f tail (by decide) rfl
  split
  · rename_i h; subst h; exact readString_short '\\' '\\' f tail (by decide) rfl
  split
  · rename_i h; subst h; exact readString_short 'b' '\x08' f tail (by decide) rfl
  split
  · rename_i h; subst h; exact readString_short 'f' '\x0c' f tail (by decide) rfl
  split
  · rename_i h; subst h; exact readString_short 'n' '\n' f tail (by decide) rfl
  split
  · rename_i h; subst h; exact readString_short 'r' '\r' f tail (by decide) rfl
  split
  · rename_i h; subst h; exact readString_short 't' '\t' f tail (by decide) rfl
  split
  · rename_i h
    have hlt : c.toNat < 256 := by
      rcases h with h | h | h | h
      · omega
      · subst h; decide
      · subst h; decide
      · subst h; decide
    have := readString_u '0' '0' (hexDigit (c.toNat / 16)) (hexDigit (c.toNat % 16)) c.toNat f tail
      (hex4_low hlt) (by omega)
    simpa using this
  split
  · rename_i h
    have := readString_u '2' '0' '2' '8' 0x2028 f tail rfl (by decide)
    rw [h]
    simpa using this
  split
  · rename_i h
    have := readString_u '2' '0' '2' '9' 0x2029 f tail rfl (by decide)
    rw [h]
    simpa using this
  · rename_i h1 h2 _ _ _ _ _ h8 _ _
    exact readString_plain c f tail h1 h2 (fun h => h8 (Or.inl h))

theorem readString_escapeString (cs : List Char) : ∀ (fuel : Nat) (tail : List Char),
    cs.length < fuel → readString fuel (escapeString cs ++ '"' :: tail) = .ok (cs, tail) := by
  induction cs with
  | nil =>
    intro fuel tail h
    cases fuel with
    | zero => omega
    | succ f => simp [escapeString, readString]
  | cons c cs ih =>
    intro fuel tail h
    cases fuel with
    | zero => omega
    | succ f =>
      simp only [escapeString, List.append_assoc]
      rw [readString_escapeChar, ih f tail (by simp at h; omega)]
      rfl

theorem escapeChar_length (c : Char) : 1 ≤ (escapeChar c).length := by
  unfold escapeChar
  repeat' split
  all_goals simp

theorem escapeString_length (cs : List Char) : cs.length ≤ (escapeString cs).length := by
  induction cs with
  | nil => simp [escapeString]
  | cons c cs ih =>
    have := escapeChar_length c
    simp [escapeString]
    omega

theorem skipSpace_cons {c : Char} (h : isSpace c = false) (rest : List Char) :
    skipSpace (c :: rest) = c :: rest := by
  simp [skipSpace, h]

/-- The text of a value begins with a character that is neither white space nor
a closing bracket. -/
theorem render_head (j : JSON) (h : j.wf = true) :
    ∃ c cs, j.render = c :: cs ∧ isSpace c = false ∧ c ≠ ']' ∧ c ≠ '\x7d' := by
  cases j with
  | null => exact ⟨_, _, rfl, by decide, by decide, by decide⟩
  | bool b => cases b <;> exact ⟨_, _, rfl, by decide, by decide, by decide⟩
  | number lit =>
    simp only [JSON.wf] at h
    obtain ⟨c, cs, hl, hc⟩ := isNumberLit_head h
    refine ⟨c, cs, by simp [JSON.render, hl], ?_⟩
    rcases hc with rfl | hc
    · exact ⟨by decide, by decide, by decide⟩
    · simp only [isDigit, Bool.and_eq_true, decide_eq_true_eq] at hc
      refine ⟨?_, ?_, ?_⟩
      · simp only [isSpace, Bool.or_eq_false_iff, decide_eq_false_iff_not]
        refine ⟨⟨⟨?_, ?_⟩, ?_⟩, ?_⟩ <;> rintro rfl <;> revert hc <;> decide
      · rintro rfl; revert hc; decide
      · rintro rfl; revert hc; decide
  | string s => exact ⟨_, _, rfl, by decide, by decide, by decide⟩
  | array elems => exact ⟨_, _, rfl, by decide, by decide, by decide⟩
  | object members => exact ⟨_, _, rfl, by decide, by decide, by decide⟩

theorem parseValue_string (f : Nat) (s : String) (rest : List Char) :
    parseValue (f + 1) (renderString s ++ rest) = .ok (.string s, rest) := by
  have hlen := escapeString_length s.data
  have h := readString_escapeString s.data ((escapeString s.data ++ '"' :: rest).length + 1) rest
    (by rw [List.length_append]; omega)
  simp only [renderString, List.cons_append, List.append_assoc, List.singleton_append,
    List.nil_append]
  rw [parseValue, skipSpace_cons (by decide)]
  simp only [show ('"' : Char) ≠ '\x7b' by decide, show ('"' : Char) ≠ '[' by decide, if_false,
    if_true, h, Except.map]

theorem parseValue_number (f : Nat) (lit : String) (rest : List Char)
    (hl : isNumberLit lit.data = true) (hr : endsNumber rest = true) :
    parseValue (f + 1) (lit.data ++ rest) = .ok (.number lit, rest) := by
  obtain ⟨c, cs, hcs, hc⟩ := isNumberLit_head hl
  have hlex := lexNumber_lit hl rest hr
  obtain ⟨c', cs', hrender, hsp, _, _⟩ := render_head (.number lit) (by simpa [JSON.wf] using hl)
  simp only [JSON.render, hcs] at hrender
  cases hrender
  rw [hcs] at hlex ⊢
  simp only [List.cons_append] at hlex ⊢
  rw [parseValue, skipSpace_cons hsp]
  have h1 : c ≠ '\x7b' := by
    rcases hc with rfl | hc
    · decide
    · rintro rfl; revert hc; decide
  have h2 : c ≠ '[' := by
    rcases hc with rfl | hc
    · decide
    · rintro rfl; revert hc; decide
  have h3 : c ≠ '"' := by
    rcases hc with rfl | hc
    · decide
    · rintro rfl; revert hc; decide
  simp only [h1, h2, h3, if_false, hc, if_true, hlex, Except.map]
  rw [← hcs]

/-! ## Writing and reading back: values and bytes -/

theorem endsNumber_comma (rest : List Char) : endsNumber (',' :: rest) = true := rfl
theorem endsNumber_bracket (rest : List Char) : endsNumber (']' :: rest) = true := rfl
theorem endsNumber_brace (rest : List Char) : endsNumber ('\x7d' :: rest) = true := rfl

theorem renderElems_cons_cons (j j' : JSON) (js : List JSON) :
    JSON.renderElems (j :: j' :: js) = j.render ++ ',' :: JSON.renderElems (j' :: js) := by
  rw [JSON.renderElems]
  simp

theorem renderMembers_cons_cons (k : String) (j : JSON) (m : String × JSON)
    (ms : List (String × JSON)) :
    JSON.renderMembers ((k, j) :: m :: ms) =
      renderString k ++ ':' :: (j.render ++ ',' :: JSON.renderMembers (m :: ms)) := by
  rw [JSON.renderMembers]
  simp

/-- The text of a non-empty list of elements begins as the text of a value does. -/
theorem renderElems_head (j : JSON) (js : List JSON) (h : j.wf = true) :
    ∃ c cs, JSON.renderElems (j :: js) = c :: cs ∧ isSpace c = false ∧ c ≠ ']' := by
  obtain ⟨c, cs, hj, hs, hb, _⟩ := render_head j h
  cases js with
  | nil => exact ⟨c, cs, by simp [JSON.renderElems, hj], hs, hb⟩
  | cons j' js => exact ⟨c, _, by rw [renderElems_cons_cons, hj]; rfl, hs, hb⟩

/-- The text of a non-empty list of members begins with a quote. -/
theorem renderMembers_head (m : String × JSON) (ms : List (String × JSON)) :
    ∃ cs, JSON.renderMembers (m :: ms) = '"' :: cs := by
  obtain ⟨k, j⟩ := m
  cases ms with
  | nil => exact ⟨_, by simp [JSON.renderMembers, renderString]; rfl⟩
  | cons m' ms => exact ⟨_, by rw [renderMembers_cons_cons]; simp [renderString]; rfl⟩

mutual
/-- Reading the text of a value gives the value back. -/
theorem parseValue_render : ∀ (j : JSON), j.wf = true → ∀ (fuel : Nat) (rest : List Char),
    2 * j.render.length < fuel → endsNumber rest = true →
    parseValue fuel (j.render ++ rest) = .ok (j, rest)
  | .null, _, fuel, rest, hf, _ => by
    cases fuel with
    | zero => omega
    | succ f =>
      simp [JSON.render, parseValue, skipSpace, isSpace, expectLit, Except.map,
        show isDigit 'n' = false by decide, show isDigit 't' = false by decide,
        show isDigit 'f' = false by decide]
  | .bool true, _, fuel, rest, hf, _ => by
    cases fuel with
    | zero => omega
    | succ f =>
      simp [JSON.render, parseValue, skipSpace, isSpace, expectLit, Except.map,
        show isDigit 'n' = false by decide, show isDigit 't' = false by decide,
        show isDigit 'f' = false by decide]
  | .bool false, _, fuel, rest, hf, _ => by
    cases fuel with
    | zero => omega
    | succ f =>
      simp [JSON.render, parseValue, skipSpace, isSpace, expectLit, Except.map,
        show isDigit 'n' = false by decide, show isDigit 't' = false by decide,
        show isDigit 'f' = false by decide]
  | .number lit, hw, fuel, rest, hf, hr => by
    cases fuel with
    | zero => omega
    | succ f => exact parseValue_number f lit rest (by simpa [JSON.wf] using hw) hr
  | .string s, _, fuel, rest, hf, _ => by
    cases fuel with
    | zero => omega
    | succ f => exact parseValue_string f s rest
  | .array [], _, fuel, rest, hf, _ => by
    cases fuel with
    | zero => omega
    | succ f => simp [JSON.render, JSON.renderElems, parseValue, skipSpace, isSpace]
  | .array (j :: js), hw, fuel, rest, hf, _ => by
    cases fuel with
    | zero => omega
    | succ f =>
      have hw' : JSON.wfList (j :: js) = true := by simpa [JSON.wf] using hw
      have hwj : j.wf = true := by
        simp only [JSON.wfList, Bool.and_eq_true] at hw'
        exact hw'.1
      obtain ⟨c, cs, hc, hs, hb⟩ := renderElems_head j js hwj
      have hlen : 2 * (JSON.renderElems (j :: js)).length + 2 < f := by
        simp only [JSON.render, List.length_cons, List.length_append, List.length_nil] at hf
        omega
      have ih := parseElems_render (j :: js) (by simp) hw' f rest hlen
      simp only [JSON.render, List.cons_append, List.append_assoc, List.singleton_append,
        List.nil_append]
      rw [parseValue, skipSpace_cons (by decide)]
      simp only [show ('[' : Char) ≠ '\x7b' by decide, if_false, if_true]
      rw [ih]
      rw [hc, List.cons_append, skipSpace_cons hs]
      split
      · rename_i heq
        simp at heq
        exact absurd heq.1 hb
      · rfl
  | .object [], _, fuel, rest, hf, _ => by
    cases fuel with
    | zero => omega
    | succ f => simp [JSON.render, JSON.renderMembers, parseValue, skipSpace, isSpace]
  | .object (m :: ms), hw, fuel, rest, hf, _ => by
    cases fuel with
    | zero => omega
    | succ f =>
      have hw' : JSON.wfMembers (m :: ms) = true := by simpa [JSON.wf] using hw
      obtain ⟨cs, hc⟩ := renderMembers_head m ms
      have hlen : 2 * (JSON.renderMembers (m :: ms)).length + 2 < f := by
        simp only [JSON.render, List.length_cons, List.length_append, List.length_nil] at hf
        omega
      have ih := parseMembers_render (m :: ms) (by simp) hw' f rest hlen
      simp only [JSON.render, List.cons_append, List.append_assoc, List.singleton_append,
        List.nil_append]
      rw [parseValue, skipSpace_cons (by decide)]
      simp only [if_true]
      rw [ih]
      rw [hc, List.cons_append, skipSpace_cons (by decide)]
      rfl
/-- Reading the text of the elements of an array gives the elements back. -/
theorem parseElems_render : ∀ (js : List JSON), js ≠ [] → JSON.wfList js = true →
    ∀ (fuel : Nat) (rest : List Char), 2 * (JSON.renderElems js).length + 2 < fuel →
    parseElems fuel (JSON.renderElems js ++ ']' :: rest) = .ok (js, rest)
  | [], h, _, _, _, _ => absurd rfl h
  | [j], _, hw, fuel, rest, hf => by
    cases fuel with
    | zero => omega
    | succ f =>
      have hwj : j.wf = true := by
        simp only [JSON.wfList, Bool.and_eq_true] at hw
        exact hw.1
      have hlen : 2 * j.render.length < f := by
        simp only [JSON.renderElems] at hf
        omega
      have ih := parseValue_render j hwj f (']' :: rest) hlen (endsNumber_bracket rest)
      simp only [JSON.renderElems]
      rw [parseElems, ih]
      simp [Except.bind, skipSpace, isSpace]
  | j :: j' :: js, _, hw, fuel, rest, hf => by
    cases fuel with
    | zero => omega
    | succ f =>
      simp only [JSON.wfList, Bool.and_eq_true] at hw
      have hw' : JSON.wfList (j' :: js) = true := by
        simp only [JSON.wfList, Bool.and_eq_true]
        exact hw.2
      rw [renderElems_cons_cons] at hf ⊢
      simp only [List.length_append, List.length_cons] at hf
      have ih1 := parseValue_render j hw.1 f (',' :: (JSON.renderElems (j' :: js) ++ ']' :: rest))
        (by omega) (endsNumber_comma _)
      have ih2 := parseElems_render (j' :: js) (by simp) hw' f rest (by omega)
      simp only [List.append_assoc, List.cons_append]
      rw [parseElems, ih1]
      simp [Except.bind, skipSpace, isSpace, ih2, Except.map]
/-- Reading the text of the members of an object gives the members back. -/
theorem parseMembers_render : ∀ (ms : List (String × JSON)), ms ≠ [] →
    JSON.wfMembers ms = true →
    ∀ (fuel : Nat) (rest : List Char), 2 * (JSON.renderMembers ms).length + 2 < fuel →
    parseMembers fuel (JSON.renderMembers ms ++ '\x7d' :: rest) = .ok (ms, rest)
  | [], h, _, _, _, _ => absurd rfl h
  | [(k, j)], _, hw, fuel, rest, hf => by
    cases fuel with
    | zero => omega
    | succ f =>
      have hwj : j.wf = true := by
        simp only [JSON.wfMembers, Bool.and_eq_true] at hw
        exact hw.1
      simp only [JSON.renderMembers, List.length_append, List.length_cons] at hf
      have ih := parseValue_render j hwj f ('\x7d' :: rest) (by omega) (endsNumber_brace rest)
      have hk := readString_escapeString k.data
        ((escapeString k.data ++ '"' :: ':' :: (j.render ++ '\x7d' :: rest)).length + 1)
        (':' :: (j.render ++ '\x7d' :: rest))
        (by have := escapeString_length k.data; rw [List.length_append]; omega)
      simp only [JSON.renderMembers, renderString, List.cons_append, List.append_assoc,
        List.singleton_append, List.nil_append]
      rw [parseMembers, skipSpace_cons (by decide)]
      simp only [if_true, hk, Except.bind]
      rw [skipSpace_cons (by decide)]
      simp only [if_true, ih]
      rw [skipSpace_cons (by decide)]
      simp
  | (k, j) :: m :: ms, _, hw, fuel, rest, hf => by
    cases fuel with
    | zero => omega
    | succ f =>
      simp only [JSON.wfMembers, Bool.and_eq_true] at hw
      have hw' : JSON.wfMembers (m :: ms) = true := by
        obtain ⟨k', j'⟩ := m
        simp only [JSON.wfMembers, Bool.and_eq_true]
        exact hw.2
      rw [renderMembers_cons_cons] at hf ⊢
      simp only [List.length_append, List.length_cons] at hf
      have ih1 := parseValue_render j hw.1 f
        (',' :: (JSON.renderMembers (m :: ms) ++ '\x7d' :: rest)) (by omega) (endsNumber_comma _)
      have ih2 := parseMembers_render (m :: ms) (by simp) hw' f rest (by omega)
      have hk := readString_escapeString k.data
        ((escapeString k.data ++ '"' :: ':' ::
          (j.render ++ ',' :: (JSON.renderMembers (m :: ms) ++ '\x7d' :: rest))).length + 1)
        (':' :: (j.render ++ ',' :: (JSON.renderMembers (m :: ms) ++ '\x7d' :: rest)))
        (by have := escapeString_length k.data; rw [List.length_append]; omega)
      simp only [renderString, List.cons_append, List.append_assoc,
        List.singleton_append, List.nil_append]
      rw [parseMembers, skipSpace_cons (by decide)]
      simp only [if_true, hk, Except.bind]
      rw [skipSpace_cons (by decide)]
      simp only [if_true, ih1]
      rw [skipSpace_cons (by decide)]
      simp [ih2, Except.map]
end

theorem char_valid (c : Char) : c.toNat < 0xD800 ∨ (0xDFFF < c.toNat ∧ c.toNat < 0x110000) :=
  c.valid

theorem isCont_iff (b : Nat) : isCont b = true ↔ 128 ≤ b ∧ b ≤ 191 := by
  simp only [isCont, Bool.and_eq_true, decide_eq_true_eq]

/-- Decoding the bytes of a character yields the character and skips its bytes. -/
theorem decodeUTF8Aux_encodeRune (c : Char) (rest : List Byte) :
    decodeUTF8Aux 0 (encodeRune c ++ rest) = c :: decodeUTF8Aux 0 rest := by
  have hv := char_valid c
  unfold encodeRune
  simp only []
  split
  · rename_i h
    simp [decodeUTF8Aux, decodeRune, h]
  split
  · rename_i h1 h2
    have hb0 : ¬ (192 + c.toNat / 64 < 128) := by omega
    have hb0' : 194 ≤ 192 + c.toNat / 64 ∧ 192 + c.toNat / 64 ≤ 223 := by omega
    have hb1 : isCont (128 + c.toNat % 64) = true := (isCont_iff _).mpr ⟨by omega, by omega⟩
    have hval : c.toNat / 64 * 64 + c.toNat % 64 = c.toNat := by omega
    simp [decodeUTF8Aux, decodeRune, hb0, hb0', hb1, hval]
  split
  · rename_i h1 h2 h3
    have hb0 : ¬ (224 + c.toNat / 4096 < 128) := by omega
    have hb0' : ¬ (194 ≤ 224 + c.toNat / 4096 ∧ 224 + c.toNat / 4096 ≤ 223) := by omega
    have hb0'' : 224 ≤ 224 + c.toNat / 4096 ∧ 224 + c.toNat / 4096 ≤ 239 := by omega
    have hb2 : isCont (128 + c.toNat % 64) = true := (isCont_iff _).mpr ⟨by omega, by omega⟩
    have hlo : (if c.toNat / 4096 = 0 then 160 else 128) ≤ 128 + c.toNat / 64 % 64 := by
      split <;> omega
    have hhi : 128 + c.toNat / 64 % 64 ≤ (if 224 + c.toNat / 4096 = 237 then 159 else 191) := by
      split <;> omega
    have hval : c.toNat / 4096 * 4096 + c.toNat / 64 % 64 * 64 + c.toNat % 64 = c.toNat := by
      omega
    simp [decodeUTF8Aux, decodeRune, hb0, hb0', hb0'', hb2, hlo, hhi, hval]
  · rename_i h1 h2 h3
    have hb0 : ¬ (240 + c.toNat / 262144 < 128) := by omega
    have hb0' : ¬ (194 ≤ 240 + c.toNat / 262144 ∧ 240 + c.toNat / 262144 ≤ 223) := by omega
    have hb0'' : ¬ (224 ≤ 240 + c.toNat / 262144 ∧ 240 + c.toNat / 262144 ≤ 239) := by omega
    have hb0''' : 240 ≤ 240 + c.toNat / 262144 ∧ 240 + c.toNat / 262144 ≤ 244 := by omega
    have hb2 : isCont (128 + c.toNat / 64 % 64) = true := (isCont_iff _).mpr ⟨by omega, by omega⟩
    have hb3 : isCont (128 + c.toNat % 64) = true := (isCont_iff _).mpr ⟨by omega, by omega⟩
    have hlo : (if c.toNat / 262144 = 0 then 144 else 128) ≤ 128 + c.toNat / 4096 % 64 := by
      split <;> omega
    have hhi : 128 + c.toNat / 4096 % 64 ≤ (if 240 + c.toNat / 262144 = 244 then 143 else 191) := by
      split <;> omega
    have hval : c.toNat / 262144 * 262144 + c.toNat / 4096 % 64 * 4096 +
        c.toNat / 64 % 64 * 64 + c.toNat % 64 = c.toNat := by omega
    simp [decodeUTF8Aux, decodeRune, hb0, hb0', hb0'', hb0''', hb2, hb3, hlo, hhi, hval]

theorem decodeUTF8_encodeUTF8 (cs : List Char) : decodeUTF8 (encodeUTF8 cs) = cs := by
  unfold decodeUTF8
  induction cs with
  | nil => rfl
  | cons c cs ih => rw [encodeUTF8, decodeUTF8Aux_encodeRune, ih]

/-! ## Status codes, transport and headers -/

/-- C1. When the transport answers a request of any of the six endpoint methods
with a status `s` other than 200, the method returns no value and an error whose
message ends in the decimal text of `s`; the result is the same whatever the body
of the response holds, which is not read. -/
theorem non200_status_is_error (sc : Strconv) (boundary : String) (c : Client) (client : HTTPClient)
    (resp : Response) (hc : c.HTTPClient = some client) (hs : resp.StatusCode ≠ 200) :
    (∀ req r, r ∈ (CreateSpeech sc c req).sent → client r = .ok resp →
      (CreateSpeech sc c req).result = .ret none (some (.errorString
        ("audio/speech API returned non-200 status code: " ++
          String.mk (formatInt resp.StatusCode))))) ∧
    (∀ req r, r ∈ (CreateTranscription sc boundary c req).sent → client r = .ok resp →
      (CreateTranscription sc boundary c req).result = .ret none (some (.errorString
        ("transcription API returned non-200 status code: " ++
          String.mk (formatInt resp.StatusCode))))) ∧
    (∀ req r, r ∈ (CreateTranslation sc boundary c req).sent → client r = .ok resp →
      (CreateTranslation sc boundary c req).result = .ret none (some (.errorString
        ("translation API returned non-200 status code: " ++
          String.mk (formatInt resp.StatusCode))))) ∧
    (∀ req r, r ∈ (CreateChatCompletion sc c req).sent → client r = .ok resp →
      (CreateChatCompletion sc c req).result = .ret none (some (.errorString
        ("chat completion API returned non-200 status code: " ++
          String.mk (formatInt resp.StatusCode))))) ∧
    (∀ req r, r ∈ (CreateEmbeddings sc c req).sent → client r = .ok resp →
      (CreateEmbeddings sc c req).result = .ret none (some (.errorString
        ("embeddings API returned non-200 status code: " ++
          String.mk (formatInt resp.StatusCode))))) ∧
    (∀ req r, r ∈ (CreateFineTuningJob sc c req).sent → client r = .ok resp →
      (CreateFineTuningJob sc c req).result = .ret none (some (.errorString
        ("fine tuning jobs API returned non-200 status code: " ++
          String.mk (formatInt resp.StatusCode))))) := by
  refine ⟨?_, ?_, ?_, ?_, ?_, ?_⟩ <;> intro req r hr hdo
  · unfold CreateSpeech at hr ⊢
    simp only [http.NewRequest, hc] at hr ⊢
    repeat' split at hr
    all_goals simp_all [http.StatusOK, Errorf_d, Sprintf_d]
  · unfold CreateTranscription at hr ⊢
    simp only [http.NewRequest, hc, Writer.CreateFormFile, Writer.Write, Writer.Close] at hr ⊢
    repeat' split at hr
    all_goals simp_all [http.StatusOK, Errorf_d, Sprintf_d]
  · unfold CreateTranslation at hr ⊢
    simp only [http.NewRequest, hc, Writer.CreateFormFile, Writer.Write, Writer.Close] at hr ⊢
    repeat' split at hr
    all_goals simp_all [http.StatusOK, Errorf_d, Sprintf_d]
  · unfold CreateChatCompletion at hr ⊢
    simp only [http.NewRequest, hc] at hr ⊢
    repeat' split at hr
    all_goals simp_all [http.StatusOK, Errorf_d, Sprintf_d]
  · unfold CreateEmbeddings at hr ⊢
    simp only [http.NewRequest, hc] at hr ⊢
    repeat' split at hr
    all_goals simp_all [http.StatusOK, Errorf_d, Sprintf_d]
  · unfold CreateFineTuningJob at hr ⊢
    simp only [http.NewRequest, hc] at hr ⊢
    repeat' split at hr
    all_goals simp_all [http.StatusOK, Errorf_d, Sprintf_d]

/-- C1 at a concrete input: a transport that answers 201 with the well-formed
chat payload of the specification; the chat method returns the status error. -/
theorem non200_status_is_error_witness :
    (CreateChatCompletion Strconv.go (sampleClient 201 (encodeUTF8 sampleChatPayload.data))
        sampleChatRequest).result =
      .ret none (some (.errorString "chat completion API returned non-200 status code: 201")) :=
  (non200_status_is_error Strconv.go "boundary"
      (sampleClient 201 (encodeUTF8 sampleChatPayload.data)) _
      ⟨201, ⟨encodeUTF8 sampleChatPayload.data, none⟩⟩ rfl (by decide)).2.2.2.1
    sampleChatRequest
    ((CreateChatCompletion Strconv.go (sampleClient 201 (encodeUTF8 sampleChatPayload.data))
        sampleChatRequest).sent.head (by decide))
    (List.head_mem _) rfl

/-- C8. When the transport answers a request of `CreateSpeech` with status 200 and
the body is read without a read error, the method returns the bytes of the body
as they are, and no error. -/
theorem speech_returns_body (sc : Strconv) (c : Client) (client : HTTPClient) (req : SpeechRequest)
    (r : Request) (resp : Response) (hc : c.HTTPClient = some client)
    (hr : r ∈ (CreateSpeech sc c req).sent) (hdo : client r = .ok resp)
    (hs : resp.StatusCode = 200) (hbody : resp.Body.err = none) :
    (CreateSpeech sc c req).result = .ret (some resp.Body.data) none := by
  unfold CreateSpeech at hr ⊢
  simp only [http.NewRequest, hc] at hr ⊢
  repeat' split at hr
  all_goals simp_all [http.StatusOK, io.ReadAll]

/-- C8 at concrete inputs: an empty body is returned as an empty, non-nil slice. -/
theorem speech_returns_body_witness :
    (CreateSpeech Strconv.go (sampleClient 200 []) sampleSpeechRequest).result = .ret (some []) none :=
  speech_returns_body Strconv.go (sampleClient 200 []) _ sampleSpeechRequest
    ((CreateSpeech Strconv.go (sampleClient 200 []) sampleSpeechRequest).sent.head (by decide))
    ⟨200, ⟨[], none⟩⟩ rfl (List.head_mem _) rfl rfl rfl

/-- C2. For a transcription or translation request with a non-nil audio buffer,
the form handed to the transport has exactly one part named `file`, which holds
the file name of the request and exactly the bytes of the buffer, and a text
field named `model` that holds the bytes of `Model`, whatever the other fields
of the request are. -/
theorem multipart_file_and_model (sc : Strconv) (boundary : String) (c : Client)
    (client : HTTPClient) (audio : List Byte) (hc : c.HTTPClient = some client) :
    (∀ req : TranscriptionRequest, req.AudioBuffer = some audio →
      ∃ r parts, (CreateTranscription sc boundary c req).sent = [r] ∧
        r.Body = .multipart boundary parts ∧
        parts.filter (fun p => p.fieldname = "file") = [⟨"file", some req.FileName, audio⟩] ∧
        formField parts "model" = some (encodeUTF8 req.Model.data)) ∧
    (∀ req : TranslationRequest, req.AudioBuffer = some audio →
      ∃ r parts, (CreateTranslation sc boundary c req).sent = [r] ∧
        r.Body = .multipart boundary parts ∧
        parts.filter (fun p => p.fieldname = "file") = [⟨"file", some req.FileName, audio⟩] ∧
        formField parts "model" = some (encodeUTF8 req.Model.data)) := by
  constructor
  · intro req ha
    unfold CreateTranscription
    simp only [http.NewRequest, hc, ha, Writer.CreateFormFile, Writer.Write, Writer.Close,
      Writer.WriteField, multipart.NewWriter, Request.setHeader, List.nil_append,
      List.getLast?_singleton, List.dropLast_single, Except.toOption, Option.getD_some]
    by_cases hl : req.Language = "" <;>
      simp only [hl, ne_eq, not_true_eq_false, not_false_eq_true, if_true, if_false]
      <;> (repeat' split) <;> refine ⟨_, _, rfl, rfl, ?_, ?_⟩ <;> simp [formField]
  · intro req ha
    unfold CreateTranslation
    simp only [http.NewRequest, hc, ha, Writer.CreateFormFile, Writer.Write, Writer.Close,
      Writer.WriteField, multipart.NewWriter, Request.setHeader, List.nil_append,
      List.getLast?_singleton, List.dropLast_single, Except.toOption, Option.getD_some]
    by_cases hp : req.Prompt = "" <;> by_cases hf : req.ResponseFormat = "" <;>
      by_cases ht : req.Temperature.isZero = true <;>
      simp only [hp, hf, ht, ne_eq, not_true_eq_false, not_false_eq_true, if_true, if_false,
        Bool.not_true, Bool.not_false, Bool.false_eq_true]
      <;> (repeat' split) <;> refine ⟨_, _, rfl, rfl, ?_, ?_⟩ <;> simp [formField]

/-- C2 at concrete inputs: the translation request with a buffer of three bytes,
an empty `Model` and no optional parameter; the form is the file part and an
empty `model` field. -/
theorem multipart_file_and_model_witness :
    ∃ r parts, (CreateTranslation Strconv.go "boundary" (sampleClient 200 [])
        sampleTranslationRequest).sent = [r] ∧
      r.Body = .multipart "boundary" parts ∧
      parts.filter (fun p => p.fieldname = "file") = [⟨"file", some "a.wav", [82, 73, 70]⟩] ∧
      formField parts "model" = some [] :=
  (multipart_file_and_model Strconv.go "boundary" (sampleClient 200 []) _ [82, 73, 70] rfl).2
    sampleTranslationRequest rfl

/-- C3, the behaviour of the code: the transcription request with the prompt
`hello` yields a form of two parts, the file and the model; no field `prompt` is
written. The translation method writes the field for the same prompt. -/
theorem transcription_form_lacks_prompt :
    ((CreateTranscription Strconv.go "boundary" (sampleClient 200 [])
        sampleTranscriptionRequest).sent.map fun r => r.Body) =
      [.multipart "boundary" [⟨"file", some "a.wav", [82, 73, 70]⟩, ⟨"model", none, []⟩]] ∧
    ((CreateTranslation Strconv.go "boundary" (sampleClient 200 [])
        { sampleTranslationRequest with Prompt := "hello" }).sent.map fun r => r.Body) =
      [.multipart "boundary" [⟨"file", some "a.wav", [82, 73, 70]⟩, ⟨"model", none, []⟩,
        ⟨"prompt", none, [104, 101, 108, 108, 111]⟩]] := by
  constructor <;> decide

/-! ## Decoding failures -/

/-- A key of an encoded struct comes from a field that was not dropped. -/
theorem encodeFields_key {fs : List FieldEnc} {ms : List (String × JSON)}
    (h : encodeFields fs = .ok ms) {k : String} (hk : k ∈ ms.map Prod.fst) :
    ∃ f ∈ fs, f.name = k ∧ f.dropped = false := by
  induction fs generalizing ms with
  | nil => simp [encodeFields] at h; subst h; simp at hk
  | cons f fs ih =>
    simp only [encodeFields] at h
    split at h
    · obtain ⟨g, hg, hn, hd⟩ := ih h hk
      exact ⟨g, List.mem_cons_of_mem _ hg, hn, hd⟩
    · rename_i hdrop
      obtain ⟨j, _, h⟩ := Except.bind_eq_ok.mp h
      obtain ⟨js, hjs, rfl⟩ := Except.map_eq_ok.mp h
      simp only [List.map_cons, List.mem_cons] at hk
      rcases hk with rfl | hk
      · exact ⟨f, List.mem_cons_self _ _, rfl, by simpa using hdrop⟩
      · obtain ⟨g, hg, hn, hd⟩ := ih hjs hk
        exact ⟨g, List.mem_cons_of_mem _ hg, hn, hd⟩

/-- A name all of whose fields are dropped is not a key of the encoded struct. -/
theorem encodeFields_not_key {fs : List FieldEnc} {ms : List (String × JSON)}
    (h : encodeFields fs = .ok ms) {k : String}
    (hk : ∀ f ∈ fs, f.name = k → f.dropped = true) : k ∉ ms.map Prod.fst := by
  intro hmem
  obtain ⟨f, hf, hn, hd⟩ := encodeFields_key h hmem
  rw [hk f hf hn] at hd
  cases hd

/-- A field that is not dropped and whose value encodes is a member of the
encoded struct. -/
theorem encodeFields_member {fs : List FieldEnc} {ms : List (String × JSON)}
    (h : encodeFields fs = .ok ms) {f : FieldEnc} (hf : f ∈ fs) (hd : f.dropped = false)
    {j : JSON} (hj : f.value = .ok j) : (f.name, j) ∈ ms := by
  induction fs generalizing ms with
  | nil => simp at hf
  | cons g fs ih =>
    simp only [encodeFields] at h
    rcases List.mem_cons.mp hf with rfl | hf
    · simp only [hd, Bool.false_eq_true, if_false, hj] at h
      obtain ⟨a, ha, h⟩ := Except.bind_eq_ok.mp h
      obtain ⟨js, _, rfl⟩ := Except.map_eq_ok.mp h
      cases ha
      exact List.mem_cons_self _ _
    · split at h
      · exact ih h hf
      · obtain ⟨a, _, h⟩ := Except.bind_eq_ok.mp h
        obtain ⟨js, hjs, rfl⟩ := Except.map_eq_ok.mp h
        exact List.mem_cons_of_mem _ (ih hjs hf)

/-- The bytes `json.Marshal` returns for a struct are the text of an object. -/
theorem marshal_struct {fs : List FieldEnc} {body : List Byte}
    (h : json.Marshal (encodeStruct fs) = .ok body) :
    ∃ ms, encodeFields fs = .ok ms ∧ body = encodeUTF8 (JSON.render (.object ms)) := by
  unfold json.Marshal encodeStruct at h
  obtain ⟨j, hj, rfl⟩ := Except.map_eq_ok.mp h
  obtain ⟨ms, hms, rfl⟩ := Except.map_eq_ok.mp hj
  exact ⟨ms, hms, rfl⟩

/-- C4. The body that `json.Marshal` yields for a request of a JSON endpoint is the
text of the object that the request is encoded to, and a field with `omitempty`
that is left unset (a nil pointer, a nil map, a nil slice, a string or number
never assigned) is not among the keys of that object. -/
theorem unset_fields_are_omitted (sc : Strconv) (body : List Byte) :
    (∀ r : ChatCompletionRequest, json.Marshal (r.toJSON sc) = .ok body →
      ∃ ms, r.toJSON sc = .ok (.object ms) ∧ body = encodeUTF8 (JSON.render (.object ms)) ∧
        (r.FrequencyPenalty = none → "frequency_penalty" ∉ ms.map Prod.fst) ∧
        (r.LogitBias = none → "logit_bias" ∉ ms.map Prod.fst) ∧
        (r.LogProbs = none → "logprobs" ∉ ms.map Prod.fst) ∧
        (r.MaxTokens = none → "max_tokens" ∉ ms.map Prod.fst) ∧
        (r.N = none → "n" ∉ ms.map Prod.fst) ∧
        (r.PresencePenalty = none → "presence_penalty" ∉ ms.map Prod.fst) ∧
        (r.ResponseFormat = none → "response_format" ∉ ms.map Prod.fst) ∧
        (r.Seed = none → "seed" ∉ ms.map Prod.fst) ∧
        (r.Stop = none → "stop" ∉ ms.map Prod.fst) ∧
        (r.Stream = none → "stream" ∉ ms.map Prod.fst) ∧
        (r.Temperature = none → "temperature" ∉ ms.map Prod.fst) ∧
        (r.TopP = none → "top_p" ∉ ms.map Prod.fst) ∧
        (r.Tools = none → "tools" ∉ ms.map Prod.fst) ∧
        (r.ToolChoice = none → "tool_choice" ∉ ms.map Prod.fst) ∧
        (r.User = none → "user" ∉ ms.map Prod.fst)) ∧
    (∀ r : EmbeddingRequest, json.Marshal (r.toJSON sc) = .ok body →
      ∃ ms, r.toJSON sc = .ok (.object ms) ∧ body = encodeUTF8 (JSON.render (.object ms)) ∧
        (r.EncodingFormat = "" → "encoding_format" ∉ ms.map Prod.fst) ∧
        (r.Dimensions = none → "dimensions" ∉ ms.map Prod.fst) ∧
        (r.User = none → "user" ∉ ms.map Prod.fst)) ∧
    (∀ r : FineTuningJobRequest, json.Marshal (r.toJSON sc) = .ok body →
      ∃ ms, r.toJSON sc = .ok (.object ms) ∧ body = encodeUTF8 (JSON.render (.object ms)) ∧
        (r.Hyperparameters = none → "hyperparameters" ∉ ms.map Prod.fst) ∧
        (r.Suffix = none → "suffix" ∉ ms.map Prod.fst) ∧
        (r.ValidationFile = none → "validation_file" ∉ ms.map Prod.fst)) ∧
    (∀ r : SpeechRequest, json.Marshal (r.toJSON sc) = .ok body →
      ∃ ms, r.toJSON sc = .ok (.object ms) ∧ body = encodeUTF8 (JSON.render (.object ms)) ∧
        (r.ResponseFormat = "" → "response_format" ∉ ms.map Prod.fst) ∧
        (r.Speed = Float64.zero → "speed" ∉ ms.map Prod.fst)) := by
  refine ⟨?_, ?_, ?_, ?_⟩ <;> intro r h <;> obtain ⟨ms, hms, rfl⟩ := marshal_struct h <;>
    refine ⟨ms, by simp [ChatCompletionRequest.toJSON, EmbeddingRequest.toJSON,
      FineTuningJobRequest.toJSON, SpeechRequest.toJSON, encodeStruct, hms, Except.map], rfl, ?_⟩
  · refine ⟨?_, ?_, ?_, ?_, ?_, ?_, ?_, ?_, ?_, ?_, ?_, ?_, ?_, ?_, ?_⟩ <;> intro hu <;>
      refine encodeFields_not_key hms ?_ <;>
      simp [ChatCompletionRequest.fields, hu, isEmptyList]
  · refine ⟨?_, ?_, ?_⟩ <;> intro hu <;> refine encodeFields_not_key hms ?_ <;>
      simp [EmbeddingRequest.fields, hu, isEmptyList]
  · refine ⟨?_, ?_, ?_⟩ <;> intro hu <;> refine encodeFields_not_key hms ?_ <;>
      simp [FineTuningJobRequest.fields, hu, isEmptyList]
  · refine ⟨?_, ?_⟩ <;> intro hu <;> refine encodeFields_not_key hms ?_ <;>
      simp [SpeechRequest.fields, hu, isEmptyList, Float64.isZero, Float64.zero]

/-- C4 at a concrete input: the chat request of the specification, with no
optional field set, is written with the keys `model` and `messages` only. -/
theorem unset_fields_are_omitted_witness :
    json.Marshal (sampleChatRequest.toJSON Strconv.go) =
      .ok (encodeUTF8 ("\x7b\"model\":\"gpt-x\",\"messages\":" ++
        "[\x7b\"role\":\"user\",\"content\":\"hi\"\x7d]\x7d").data) ∧
    ∃ ms, sampleChatRequest.toJSON Strconv.go = .ok (.object ms) ∧
      encodeUTF8 ("\x7b\"model\":\"gpt-x\",\"messages\":" ++
        "[\x7b\"role\":\"user\",\"content\":\"hi\"\x7d]\x7d").data =
          encodeUTF8 (JSON.render (.object ms)) ∧
      "temperature" ∉ ms.map Prod.fst :=
  ⟨by rfl,
    match (unset_fields_are_omitted Strconv.go _).1 sampleChatRequest (by rfl) with
    | ⟨ms, ht, h, hk⟩ => ⟨ms, ht, h, hk.2.2.2.2.2.2.2.2.2.2.1 rfl⟩⟩

/-! ## Writing and reading back: typed values -/

theorem readValue_render (j : JSON) (hw : j.wf = true) :
    Decoder.readValue j.render = .ok (j, []) := by
  have h := parseValue_render j hw (2 * j.render.length + 1) [] (by omega) rfl
  rw [List.append_nil] at h
  unfold Decoder.readValue
  rw [h]
  simp only [Except.bind]
  split <;> rfl

theorem RoundTrips.string (s : String) : RoundTrips encString unmarshalString "" s := by
  intro j h
  cases h
  exact ⟨rfl, rfl⟩

theorem RoundTrips.int (goType : String) (n : Int) (h : InInt64 n) :
    RoundTrips encInt (unmarshalInt goType) 0 n := by
  intro j hj
  cases hj
  refine ⟨by simpa [JSON.wf] using isNumberLit_formatInt n, ?_⟩
  simp [unmarshalInt, ParseInt_formatInt n h.1 h.2]

theorem encodeStruct_ok (fs : List FieldEnc) (j : JSON) :
    encodeStruct fs = .ok j ↔ ∃ ms, encodeFields fs = .ok ms ∧ j = .object ms := by
  unfold encodeStruct
  constructor
  · intro h
    obtain ⟨ms, hms, rfl⟩ := Except.map_eq_ok.mp h
    exact ⟨ms, hms, rfl⟩
  · rintro ⟨ms, hms, rfl⟩
    simp [hms, Except.map]

theorem unmarshalElems_encList {α : Type} (enc : α → Except GoError JSON) (un : Unmarshaler α)
    (zero : α) : ∀ (xs : List α), (∀ x ∈ xs, RoundTrips enc un zero x) →
    ∀ js, encList enc xs = .ok js → JSON.wfList js = true ∧ unmarshalElems un zero js [] = .ok xs
  | [], _, js, hjs => by
    cases hjs
    exact ⟨rfl, rfl⟩
  | x :: xs, h, js, hjs => by
    simp only [encList] at hjs
    obtain ⟨j, hj, hjs⟩ := Except.bind_eq_ok.mp hjs
    obtain ⟨js', hjs', rfl⟩ := Except.map_eq_ok.mp hjs
    obtain ⟨w, d⟩ := h x (List.mem_cons_self _ _) j hj
    obtain ⟨ws, ds⟩ := unmarshalElems_encList enc un zero xs
      (fun y hy => h y (List.mem_cons_of_mem _ hy)) js' hjs'
    refine ⟨by simp [JSON.wfList, w, ws], ?_⟩
    simp [unmarshalElems, d, ds, Except.bind, Except.map]

theorem RoundTrips.slice {α : Type} (goType : String) (enc : α → Except GoError JSON)
    (un : Unmarshaler α) (zero : α) (xs : Option (List α))
    (h : ∀ x ∈ xs.getD [], RoundTrips enc un zero x) :
    RoundTrips (encSlice enc) (unmarshalSlice goType un zero) none xs := by
  intro j hj
  cases xs with
  | none =>
    cases hj
    exact ⟨rfl, rfl⟩
  | some l =>
    simp only [encSlice] at hj
    obtain ⟨js, hjs, rfl⟩ := Except.map_eq_ok.mp hj
    obtain ⟨w, d⟩ := unmarshalElems_encList enc un zero l h js hjs
    exact ⟨by simpa [JSON.wf] using w, by simp [unmarshalSlice, d, Except.map]⟩

theorem mapSet_mapValues {α β : Type} (f : α → β) (k : String) (v : α) :
    ∀ m : List (String × α),
      mapSet k (f v) (m.map fun kv => (kv.1, f kv.2)) = (mapSet k v m).map fun kv => (kv.1, f kv.2)
  | [] => rfl
  | (k1, v1) :: m => by
    simp only [List.map_cons, mapSet]
    split
    · rfl
    · split
      · rfl
      · simp [mapSet_mapValues f k v m]

theorem foldl_mapSet_mapValues {α β : Type} (f : α → β) :
    ∀ (es acc : List (String × α)),
      (es.map fun kv => (kv.1, f kv.2)).foldl (fun m kv => mapSet kv.1 kv.2 m)
          (acc.map fun kv => (kv.1, f kv.2)) =
        (es.foldl (fun m kv => mapSet kv.1 kv.2 m) acc).map fun kv => (kv.1, f kv.2)
  | [], acc => rfl
  | (k, v) :: es, acc => by
    simp only [List.map_cons, List.foldl_cons]
    rw [mapSet_mapValues, foldl_mapSet_mapValues f es]

theorem mapOf_mapValues {α β : Type} (f : α → β) (es : List (String × α)) :
    mapOf (es.map fun kv => (kv.1, f kv.2)) = (mapOf es).map fun kv => (kv.1, f kv.2) := by
  unfold mapOf
  exact foldl_mapSet_mapValues f es []

theorem encAnyEntries_eq_map (sc : Strconv) : ∀ es : List (String × Any),
    encAnyEntries sc es = es.map fun kv => (kv.1, encAny sc kv.2)
  | [] => rfl
  | (k, x) :: es => by simp [encAnyEntries, encAnyEntries_eq_map sc es]

mutual
theorem encAny_roundTrips (sc : Strconv) : ∀ a : Any, Any.Canonical sc a →
    ∀ j, encAny sc a = .ok j → j.wf = true ∧ toAny sc j = .ok a
  | .nil, _, j, hj => by cases hj; exact ⟨rfl, rfl⟩
  | .bool b, _, j, hj => by cases hj; exact ⟨rfl, rfl⟩
  | .float64 x, h, j, hj => by
    simp only [Any.Canonical] at h
    simp only [encAny, encFloat] at hj
    split at hj
    · simp at hj
    · cases hj
      exact ⟨by simpa [JSON.wf] using h.1, by simp [toAny, h.2]⟩
  | .int n, h, _, _ => by simp [Any.Canonical] at h
  | .string s, _, j, hj => by cases hj; exact ⟨rfl, rfl⟩
  | .slice elems, h, j, hj => by
    simp only [Any.Canonical] at h
    simp only [encAny] at hj
    obtain ⟨js, hjs, rfl⟩ := Except.map_eq_ok.mp hj
    obtain ⟨w, d⟩ := encAnyList_roundTrips sc elems h js hjs
    exact ⟨by simpa [JSON.wf] using w, by simp [toAny, d, Except.map]⟩
  | .map entries, h, j, hj => by
    simp only [Any.Canonical] at h
    simp only [encAny] at hj
    obtain ⟨ms, hms, rfl⟩ := Except.map_eq_ok.mp hj
    rw [encAnyEntries_eq_map, mapOf_mapValues, h.1, ← encAnyEntries_eq_map] at hms
    obtain ⟨w, d⟩ := encAnyEntries_roundTrips sc entries h.2 ms hms
    exact ⟨by simpa [JSON.wf] using w, by simp [toAny, d, Except.map, h.1]⟩
theorem encAnyList_roundTrips (sc : Strconv) : ∀ xs : List Any, Any.CanonicalList sc xs →
    ∀ js, encAnyList sc xs = .ok js → JSON.wfList js = true ∧ toAnyList sc js = .ok xs
  | [], _, js, hjs => by cases hjs; exact ⟨rfl, rfl⟩
  | x :: xs, h, js, hjs => by
    simp only [Any.CanonicalList] at h
    simp only [encAnyList] at hjs
    obtain ⟨j, hj, hjs⟩ := Except.bind_eq_ok.mp hjs
    obtain ⟨js', hjs', rfl⟩ := Except.map_eq_ok.mp hjs
    obtain ⟨w, d⟩ := encAny_roundTrips sc x h.1 j hj
    obtain ⟨ws, ds⟩ := encAnyList_roundTrips sc xs h.2 js' hjs'
    exact ⟨by simp [JSON.wfList, w, ws], by simp [toAnyList, d, ds, Except.bind, Except.map]⟩
theorem encAnyEntries_roundTrips (sc : Strconv) : ∀ es : List (String × Any),
    Any.CanonicalEntries sc es →
    ∀ ms, sequenceEntries (encAnyEntries sc es) = .ok ms →
      JSON.wfMembers ms = true ∧ toAnyEntries sc ms = .ok es
  | [], _, ms, hms => by cases hms; exact ⟨rfl, rfl⟩
  | (k, x) :: es, h, ms, hms => by
    simp only [Any.CanonicalEntries] at h
    simp only [encAnyEntries, sequenceEntries] at hms
    obtain ⟨j, hj, hms⟩ := Except.bind_eq_ok.mp hms
    obtain ⟨ms', hms', rfl⟩ := Except.map_eq_ok.mp hms
    obtain ⟨w, d⟩ := encAny_roundTrips sc x h.1 j hj
    obtain ⟨ws, ds⟩ := encAnyEntries_roundTrips sc es h.2 ms' hms'
    exact ⟨by simp [JSON.wfMembers, w, ws], by simp [toAnyEntries, d, ds, Except.bind, Except.map]⟩
end

theorem RoundTrips.map (sc : Strconv) (m : Option (List (String × Any)))
    (h : ∀ es, m = some es → MapCanonical sc es) :
    RoundTrips (encMap (encAny sc)) (unmarshalMap sc) none m := by
  intro j hj
  cases m with
  | none => cases hj; exact ⟨rfl, rfl⟩
  | some es =>
    obtain ⟨hm, hc⟩ := h es rfl
    simp only [encMap] at hj
    obtain ⟨ms, hms, rfl⟩ := Except.map_eq_ok.mp hj
    rw [mapOf_mapValues, hm, ← encAnyEntries_eq_map] at hms
    obtain ⟨w, d⟩ := encAnyEntries_roundTrips sc es hc ms hms
    refine ⟨by simpa [JSON.wf] using w, ?_⟩
    have hfold : es.foldl (fun m kv => mapSet kv.1 kv.2 m) [] = es := hm
    simp [unmarshalMap, d, Except.map, mapOf, hfold]

/-! ## The responses, written and read back -/

theorem render_injective {j j' : JSON} (hw : j.wf = true) (hw' : j'.wf = true)
    (h : j.render = j'.render) : j = j' := by
  have a := readValue_render j hw
  have b := readValue_render j' hw'
  rw [h, b] at a
  cases a
  rfl

theorem encodeUTF8_injective {s t : List Char} (h : encodeUTF8 s = encodeUTF8 t) : s = t := by
  have e := congrArg decodeUTF8 h
  simpa [decodeUTF8_encodeUTF8] using e

/-- A field that is not dropped is a member of the encoded struct, with the
encoding of its value. -/
theorem encodeFields_present {fs : List FieldEnc} {ms : List (String × JSON)}
    (h : encodeFields fs = .ok ms) {f : FieldEnc} (hf : f ∈ fs) (hd : f.dropped = false) :
    ∃ j, f.value = .ok j ∧ (f.name, j) ∈ ms := by
  induction fs generalizing ms with
  | nil => simp at hf
  | cons g fs ih =>
    simp only [encodeFields] at h
    rcases List.mem_cons.mp hf with rfl | hf
    · simp only [hd, Bool.false_eq_true, if_false] at h
      obtain ⟨a, ha, h⟩ := Except.bind_eq_ok.mp h
      obtain ⟨js, _, rfl⟩ := Except.map_eq_ok.mp h
      exact ⟨a, ha, List.mem_cons_self _ _⟩
    · split at h
      · exact ih h hf
      · obtain ⟨a, _, h⟩ := Except.bind_eq_ok.mp h
        obtain ⟨js, hjs, rfl⟩ := Except.map_eq_ok.mp h
        obtain ⟨j, hj, hm⟩ := ih hjs hf
        exact ⟨j, hj, List.mem_cons_of_mem _ hm⟩

/-- C5, as the code has it. An optional field of pointer type that is set, to the zero
value or to any other, is a member of the object that a request of a JSON
endpoint is encoded to, under the key of the field and with the encoding of the
value pointed to; and two requests of which one has such a field set and the
other has it unset are serialised to different bodies, when both objects are
well formed (the floats are written as number literals). -/
theorem set_pointer_fields_are_emitted (sc : Strconv) :
    (∀ (r : ChatCompletionRequest) (ms : List (String × JSON)), r.toJSON sc = .ok (.object ms) →
      (∀ x, r.FrequencyPenalty = some x →
        ∃ j, encFloat sc x = .ok j ∧ ("frequency_penalty", j) ∈ ms) ∧
      (∀ b, r.LogProbs = some b → ("logprobs", JSON.bool b) ∈ ms) ∧
      (∀ n, r.MaxTokens = some n → ("max_tokens", JSON.number (String.mk (formatInt n))) ∈ ms) ∧
      (∀ n, r.N = some n → ("n", JSON.number (String.mk (formatInt n))) ∈ ms) ∧
      (∀ x, r.PresencePenalty = some x →
        ∃ j, encFloat sc x = .ok j ∧ ("presence_penalty", j) ∈ ms) ∧
      (∀ s, r.ResponseFormat = some s → ("response_format", JSON.string s) ∈ ms) ∧
      (∀ n, r.Seed = some n → ("seed", JSON.number (String.mk (formatInt n))) ∈ ms) ∧
      (∀ b, r.Stream = some b → ("stream", JSON.bool b) ∈ ms) ∧
      (∀ x, r.Temperature = some x →
        ∃ j, encFloat sc x = .ok j ∧ ("temperature", j) ∈ ms) ∧
      (∀ x, r.TopP = some x →
        ∃ j, encFloat sc x = .ok j ∧ ("top_p", j) ∈ ms) ∧
      (∀ s, r.ToolChoice = some s → ("tool_choice", JSON.string s) ∈ ms) ∧
      (∀ s, r.User = some s → ("user", JSON.string s) ∈ ms)) ∧
    (∀ (r : EmbeddingRequest) (ms : List (String × JSON)), r.toJSON sc = .ok (.object ms) →
      (∀ n, r.Dimensions = some n → ("dimensions", JSON.number (String.mk (formatInt n))) ∈ ms) ∧
      (∀ s, r.User = some s → ("user", JSON.string s) ∈ ms)) ∧
    (∀ (r : FineTuningJobRequest) (ms : List (String × JSON)), r.toJSON sc = .ok (.object ms) →
      (∀ s, r.Suffix = some s → ("suffix", JSON.string s) ∈ ms) ∧
      (∀ s, r.ValidationFile = some s → ("validation_file", JSON.string s) ∈ ms)) ∧
    (∀ (r r' : ChatCompletionRequest) (j j' : JSON), r.toJSON sc = .ok j → r'.toJSON sc = .ok j' →
      j.wf = true → j'.wf = true →
      ((r.FrequencyPenalty ≠ none ∧ r'.FrequencyPenalty = none) ∨
        (r.LogProbs ≠ none ∧ r'.LogProbs = none) ∨
        (r.MaxTokens ≠ none ∧ r'.MaxTokens = none) ∨
        (r.N ≠ none ∧ r'.N = none) ∨
        (r.PresencePenalty ≠ none ∧ r'.PresencePenalty = none) ∨
        (r.ResponseFormat ≠ none ∧ r'.ResponseFormat = none) ∨
        (r.Seed ≠ none ∧ r'.Seed = none) ∨
        (r.Stream ≠ none ∧ r'.Stream = none) ∨
        (r.Temperature ≠ none ∧ r'.Temperature = none) ∨
        (r.TopP ≠ none ∧ r'.TopP = none) ∨
        (r.ToolChoice ≠ none ∧ r'.ToolChoice = none) ∨
        (r.User ≠ none ∧ r'.User = none)) →
      json.Marshal (r.toJSON sc) ≠ json.Marshal (r'.toJSON sc)) ∧
    (∀ (r r' : EmbeddingRequest) (j j' : JSON), r.toJSON sc = .ok j → r'.toJSON sc = .ok j' →
      j.wf = true → j'.wf = true →
      ((r.Dimensions ≠ none ∧ r'.Dimensions = none) ∨
        (r.User ≠ none ∧ r'.User = none)) →
      json.Marshal (r.toJSON sc) ≠ json.Marshal (r'.toJSON sc)) ∧
    (∀ (r r' : FineTuningJobRequest) (j j' : JSON), r.toJSON sc = .ok j → r'.toJSON sc = .ok j' →
      j.wf = true → j'.wf = true →
      ((r.Suffix ≠ none ∧ r'.Suffix = none) ∨
        (r.ValidationFile ≠ none ∧ r'.ValidationFile = none)) →
      json.Marshal (r.toJSON sc) ≠ json.Marshal (r'.toJSON sc)) := by
  refine ⟨?_, ?_, ?_, ?_, ?_, ?_⟩
  · intro r ms h
    have hms : encodeFields (r.fields sc) = .ok ms := by
      obtain ⟨ms', hms', e⟩ := (encodeStruct_ok _ _).mp h
      cases e
      exact hms'
    refine ⟨?_, ?_, ?_, ?_, ?_, ?_, ?_, ?_, ?_, ?_, ?_, ?_⟩
    · intro x hx
      obtain ⟨j, hj, hm⟩ := encodeFields_present hms (f := ⟨"frequency_penalty", r.FrequencyPenalty.isNone, encPtr (encFloat sc) r.FrequencyPenalty⟩)
        (by simp [ChatCompletionRequest.fields]) (by simp [hx])
      simp only [hx, encPtr] at hj
      exact ⟨j, hj, hm⟩
    · intro x hx
      obtain ⟨j, hj, hm⟩ := encodeFields_present hms (f := ⟨"logprobs", r.LogProbs.isNone, encPtr encBool r.LogProbs⟩)
        (by simp [ChatCompletionRequest.fields]) (by simp [hx])
      simp only [hx, encPtr] at hj
      cases hj
      exact hm
    · intro x hx
      obtain ⟨j, hj, hm⟩ := encodeFields_present hms (f := ⟨"max_tokens", r.MaxTokens.isNone, encPtr encInt r.MaxTokens⟩)
        (by simp [ChatCompletionRequest.fields]) (by simp [hx])
      simp only [hx, encPtr] at hj
      cases hj
      exact hm
    · intro x hx
      obtain ⟨j, hj, hm⟩ := encodeFields_present hms (f := ⟨"n", r.N.isNone, encPtr encInt r.N⟩)
        (by simp [ChatCompletionRequest.fields]) (by simp [hx])
      simp only [hx, encPtr] at hj
      cases hj
      exact hm
    · intro x hx
      obtain ⟨j, hj, hm⟩ := encodeFields_present hms (f := ⟨"presence_penalty", r.PresencePenalty.isNone, encPtr (encFloat sc) r.PresencePenalty⟩)
        (by simp [ChatCompletionRequest.fields]) (by simp [hx])
      simp only [hx, encPtr] at hj
      exact ⟨j, hj, hm⟩
    · intro x hx
      obtain ⟨j, hj, hm⟩ := encodeFields_present hms (f := ⟨"response_format", r.ResponseFormat.isNone, encPtr encString r.ResponseFormat⟩)
        (by simp [ChatCompletionRequest.fields]) (by simp [hx])
      simp only [hx, encPtr] at hj
      cases hj
      exact hm
    · intro x hx
      obtain ⟨j, hj, hm⟩ := encodeFields_present hms (f := ⟨"seed", r.Seed.isNone, encPtr encInt r.Seed⟩)
        (by simp [ChatCompletionRequest.fields]) (by simp [hx])
      simp only [hx, encPtr] at hj
      cases hj
      exact hm
    · intro x hx
      obtain ⟨j, hj, hm⟩ := encodeFields_present hms (f := ⟨"stream", r.Stream.isNone, encPtr encBool r.Stream⟩)
        (by simp [ChatCompletionRequest.fields]) (by simp [hx])
      simp only [hx, encPtr] at hj
      cases hj
      exact hm
    · intro x hx
      obtain ⟨j, hj, hm⟩ := encodeFields_present hms (f := ⟨"temperature", r.Temperature.isNone, encPtr (encFloat sc) r.Temperature⟩)
        (by simp [ChatCompletionRequest.fields]) (by simp [hx])
      simp only [hx, encPtr] at hj
      exact ⟨j, hj, hm⟩
    · intro x hx
      obtain ⟨j, hj, hm⟩ := encodeFields_present hms (f := ⟨"top_p", r.TopP.isNone, encPtr (encFloat sc) r.TopP⟩)
        (by simp [ChatCompletionRequest.fields]) (by simp [hx])
      simp only [hx, encPtr] at hj
      exact ⟨j, hj, hm⟩
    · intro x hx
      obtain ⟨j, hj, hm⟩ := encodeFields_present hms (f := ⟨"tool_choice", r.ToolChoice.isNone, encPtr encString r.ToolChoice⟩)
        (by simp [ChatCompletionRequest.fields]) (by simp [hx])
      simp only [hx, encPtr] at hj
      cases hj
      exact hm
    · intro x hx
      obtain ⟨j, hj, hm⟩ := encodeFields_present hms (f := ⟨"user", r.User.isNone, encPtr encString r.User⟩)
        (by simp [ChatCompletionRequest.fields]) (by simp [hx])
      simp only [hx, encPtr] at hj
      cases hj
      exact hm
  · intro r ms h
    have hms : encodeFields (r.fields sc) = .ok ms := by
      obtain ⟨ms', hms', e⟩ := (encodeStruct_ok _ _).mp h
      cases e
      exact hms'
    refine ⟨?_, ?_⟩
    · intro x hx
      obtain ⟨j, hj, hm⟩ := encodeFields_present hms (f := ⟨"dimensions", r.Dimensions.isNone, encPtr encInt r.Dimensions⟩)
        (by simp [EmbeddingRequest.fields]) (by simp [hx])
      simp only [hx, encPtr] at hj
      cases hj
      exact hm
    · intro x hx
      obtain ⟨j, hj, hm⟩ := encodeFields_present hms (f := ⟨"user", r.User.isNone, encPtr encString r.User⟩)
        (by simp [EmbeddingRequest.fields]) (by simp [hx])
      simp only [hx, encPtr] at hj
      cases hj
      exact hm
  · intro r ms h
    have hms : encodeFields (r.fields sc) = .ok ms := by
      obtain ⟨ms', hms', e⟩ := (encodeStruct_ok _ _).mp h
      cases e
      exact hms'
    refine ⟨?_, ?_⟩
    · intro x hx
      obtain ⟨j, hj, hm⟩ := encodeFields_present hms (f := ⟨"suffix", r.Suffix.isNone, encPtr encString r.Suffix⟩)
        (by simp [FineTuningJobRequest.fields]) (by simp [hx])
      simp only [hx, encPtr] at hj
      cases hj
      exact hm
    · intro x hx
      obtain ⟨j, hj, hm⟩ := encodeFields_present hms (f := ⟨"validation_file", r.ValidationFile.isNone, encPtr encString r.ValidationFile⟩)
        (by simp [FineTuningJobRequest.fields]) (by simp [hx])
      simp only [hx, encPtr] at hj
      cases hj
      exact hm
  · intro r r' j j' h h' hw hw' hd hb
    rw [h, h'] at hb
    have e := render_injective hw hw'
      (encodeUTF8_injective (by simpa [json.Marshal, Except.map] using hb))
    subst e
    obtain ⟨ms, hms, rfl⟩ := (encodeStruct_ok _ _).mp h
    obtain ⟨ms', hms', e⟩ := (encodeStruct_ok _ _).mp h'
    cases e
    rcases hd with ⟨hs, hn⟩ | ⟨hs, hn⟩ | ⟨hs, hn⟩ | ⟨hs, hn⟩ | ⟨hs, hn⟩ | ⟨hs, hn⟩ | ⟨hs, hn⟩ | ⟨hs, hn⟩ | ⟨hs, hn⟩ | ⟨hs, hn⟩ | ⟨hs, hn⟩ | ⟨hs, hn⟩
    · obtain ⟨j, _, hm⟩ := encodeFields_present hms (f := ⟨"frequency_penalty", r.FrequencyPenalty.isNone, encPtr (encFloat sc) r.FrequencyPenalty⟩)
        (by simp [ChatCompletionRequest.fields]) (by cases hv : r.FrequencyPenalty <;> simp_all)
      exact encodeFields_not_key hms' (k := "frequency_penalty") (by simp [ChatCompletionRequest.fields, hn, isEmptyList])
        (List.mem_map.mpr ⟨_, hm, rfl⟩)
    · obtain ⟨j, _, hm⟩ := encodeFields_present hms (f := ⟨"logprobs", r.LogProbs.isNone, encPtr encBool r.LogProbs⟩)
        (by simp [ChatCompletionRequest.fields]) (by cases hv : r.LogProbs <;> simp_all)
      exact encodeFields_not_key hms' (k := "logprobs") (by simp [ChatCompletionRequest.fields, hn, isEmptyList])
        (List.mem_map.mpr ⟨_, hm, rfl⟩)
    · obtain ⟨j, _, hm⟩ := encodeFields_present hms (f := ⟨"max_tokens", r.MaxTokens.isNone, encPtr encInt r.MaxTokens⟩)
        (by simp [ChatCompletionRequest.fields]) (by cases hv : r.MaxTokens <;> simp_all)
      exact encodeFields_not_key hms' (k := "max_tokens") (by simp [ChatCompletionRequest.fields, hn, isEmptyList])
        (List.mem_map.mpr ⟨_, hm, rfl⟩)
    · obtain ⟨j, _, hm⟩ := encodeFields_present hms (f := ⟨"n", r.N.isNone, encPtr encInt r.N⟩)
        (by simp [ChatCompletionRequest.fields]) (by cases hv : r.N <;> simp_all)
      exact encodeFields_not_key hms' (k := "n") (by simp [ChatCompletionRequest.fields, hn, isEmptyList])
        (List.mem_map.mpr ⟨_, hm, rfl⟩)
    · obtain ⟨j, _, hm⟩ := encodeFields_present hms (f := ⟨"presence_penalty", r.PresencePenalty.isNone, encPtr (encFloat sc) r.PresencePenalty⟩)
        (by simp [ChatCompletionRequest.fields]) (by cases hv : r.PresencePenalty <;> simp_all)
      exact encodeFields_not_key hms' (k := "presence_penalty") (by simp [ChatCompletionRequest.fields, hn, isEmptyList])
        (List.mem_map.mpr ⟨_, hm, rfl⟩)
    · obtain ⟨j, _, hm⟩ := encodeFields_present hms (f := ⟨"response_format", r.ResponseFormat.isNone, encPtr encString r.ResponseFormat⟩)
        (by simp [ChatCompletionRequest.fields]) (by cases hv : r.ResponseFormat <;> simp_all)
      exact encodeFields_not_key hms' (k := "response_format") (by simp [ChatCompletionRequest.fields, hn, isEmptyList])
        (List.mem_map.mpr ⟨_, hm, rfl⟩)
    · obtain ⟨j, _, hm⟩ := encodeFields_present hms (f := ⟨"seed", r.Seed.isNone, encPtr encInt r.Seed⟩)
        (by simp [ChatCompletionRequest.fields]) (by cases hv : r.Seed <;> simp_all)
      exact encodeFields_not_key hms' (k := "seed") (by simp [ChatCompletionRequest.fields, hn, isEmptyList])
        (List.mem_map.mpr ⟨_, hm, rfl⟩)
    · obtain ⟨j, _, hm⟩ := encodeFields_present hms (f := ⟨"stream", r.Stream.isNone, encPtr encBool r.Stream⟩)
        (by simp [ChatCompletionRequest.fields]) (by cases hv : r.Stream <;> simp_all)
      exact encodeFields_not_key hms' (k := "stream") (by simp [ChatCompletionRequest.fields, hn, isEmptyList])
        (List.mem_map.mpr ⟨_, hm, rfl⟩)
    · obtain ⟨j, _, hm⟩ := encodeFields_present hms (f := ⟨"temperature", r.Temperature.isNone, encPtr (encFloat sc) r.Temperature⟩)
        (by simp [ChatCompletionRequest.fields]) (by cases hv : r.Temperature <;> simp_all)
      exact encodeFields_not_key hms' (k := "temperature") (by simp [ChatCompletionRequest.fields, hn, isEmptyList])
        (List.mem_map.mpr ⟨_, hm, rfl⟩)
    · obtain ⟨j, _, hm⟩ := encodeFields_present hms (f := ⟨"top_p", r.TopP.isNone, encPtr (encFloat sc) r.TopP⟩)
        (by simp [ChatCompletionRequest.fields]) (by cases hv : r.TopP <;> simp_all)
      exact encodeFields_not_key hms' (k := "top_p") (by simp [ChatCompletionRequest.fields, hn, isEmptyList])
        (List.mem_map.mpr ⟨_, hm, rfl⟩)
    · obtain ⟨j, _, hm⟩ := encodeFields_present hms (f := ⟨"tool_choice", r.ToolChoice.isNone, encPtr encString r.ToolChoice⟩)
        (by simp [ChatCompletionRequest.fields]) (by cases hv : r.ToolChoice <;> simp_all)
      exact encodeFields_not_key hms' (k := "tool_choice") (by simp [ChatCompletionRequest.fields, hn, isEmptyList])
        (List.mem_map.mpr ⟨_, hm, rfl⟩)
    · obtain ⟨j, _, hm⟩ := encodeFields_present hms (f := ⟨"user", r.User.isNone, encPtr encString r.User⟩)
        (by simp [ChatCompletionRequest.fields]) (by cases hv : r.User <;> simp_all)
      exact encodeFields_not_key hms' (k := "user") (by simp [ChatCompletionRequest.fields, hn, isEmptyList])
        (List.mem_map.mpr ⟨_, hm, rfl⟩)
  · intro r r' j j' h h' hw hw' hd hb
    rw [h, h'] at hb
    have e := render_injective hw hw'
      (encodeUTF8_injective (by simpa [json.Marshal, Except.map] using hb))
    subst e
    obtain ⟨ms, hms, rfl⟩ := (encodeStruct_ok _ _).mp h
    obtain ⟨ms', hms', e⟩ := (encodeStruct_ok _ _).mp h'
    cases e
    rcases hd with ⟨hs, hn⟩ | ⟨hs, hn⟩
    · obtain ⟨j, _, hm⟩ := encodeFields_present hms (f := ⟨"dimensions", r.Dimensions.isNone, encPtr encInt r.Dimensions⟩)
        (by simp [EmbeddingRequest.fields]) (by cases hv : r.Dimensions <;> simp_all)
      exact encodeFields_not_key hms' (k := "dimensions") (by simp [EmbeddingRequest.fields, hn, isEmptyList])
        (List.mem_map.mpr ⟨_, hm, rfl⟩)
    · obtain ⟨j, _, hm⟩ := encodeFields_present hms (f := ⟨"user", r.User.isNone, encPtr encString r.User⟩)
        (by simp [EmbeddingRequest.fields]) (by cases hv : r.User <;> simp_all)
      exact encodeFields_not_key hms' (k := "user") (by simp [EmbeddingRequest.fields, hn, isEmptyList])
        (List.mem_map.mpr ⟨_, hm, rfl⟩)
  · intro r r' j j' h h' hw hw' hd hb
    rw [h, h'] at hb
    have e := render_injective hw hw'
      (encodeUTF8_injective (by simpa [json.Marshal, Except.map] using hb))
    subst e
    obtain ⟨ms, hms, rfl⟩ := (encodeStruct_ok _ _).mp h
    obtain ⟨ms', hms', e⟩ := (encodeStruct_ok _ _).mp h'
    cases e
    rcases hd with ⟨hs, hn⟩ | ⟨hs, hn⟩
    · obtain ⟨j, _, hm⟩ := encodeFields_present hms (f := ⟨"suffix", r.Suffix.isNone, encPtr encString r.Suffix⟩)
        (by simp [FineTuningJobRequest.fields]) (by cases hv : r.Suffix <;> simp_all)
      exact encodeFields_not_key hms' (k := "suffix") (by simp [FineTuningJobRequest.fields, hn, isEmptyList])
        (List.mem_map.mpr ⟨_, hm, rfl⟩)
    · obtain ⟨j, _, hm⟩ := encodeFields_present hms (f := ⟨"validation_file", r.ValidationFile.isNone, encPtr encString r.ValidationFile⟩)
        (by simp [FineTuningJobRequest.fields]) (by cases hv : r.ValidationFile <;> simp_all)
      exact encodeFields_not_key hms' (k := "validation_file") (by simp [FineTuningJobRequest.fields, hn, isEmptyList])
        (List.mem_map.mpr ⟨_, hm, rfl⟩)

set_option maxRecDepth 100000 in
/-- C5 at a concrete input: the chat request of the scenario with
`Temperature` pointing to 0 is written with `"temperature":0`, and to another
body than the request of the scenario itself, where `Temperature` is nil. -/
theorem set_pointer_fields_are_emitted_witness :
    json.Marshal (zeroTemperatureRequest.toJSON Strconv.go) =
      .ok (encodeUTF8 ("\x7b\"model\":\"gpt-x\",\"messages\":" ++
        "[\x7b\"role\":\"user\",\"content\":\"hi\"\x7d],\"temperature\":0\x7d").data) ∧
    (∃ ms, zeroTemperatureRequest.toJSON Strconv.go = .ok (.object ms) ∧
      ("temperature", JSON.number "0") ∈ ms) ∧
    json.Marshal (zeroTemperatureRequest.toJSON Strconv.go) ≠
      json.Marshal (sampleChatRequest.toJSON Strconv.go) := by
  refine ⟨rfl, ⟨_, rfl, ?_⟩, ?_⟩
  · obtain ⟨j, hj, hm⟩ := ((set_pointer_fields_are_emitted Strconv.go).1 zeroTemperatureRequest _
      rfl).2.2.2.2.2.2.2.2.1 Float64.zero rfl
    have e : encFloat Strconv.go Float64.zero = .ok (.number "0") := rfl
    rw [e] at hj
    cases hj
    exact hm
  · exact (set_pointer_fields_are_emitted Strconv.go).2.2.2.1 zeroTemperatureRequest
      sampleChatRequest _ _ rfl rfl rfl rfl
      (Or.inr (Or.inr (Or.inr (Or.inr (Or.inr (Or.inr (Or.inr (Or.inr (Or.inl
        ⟨by simp [zeroTemperatureRequest], rfl⟩)))))))))

/-- C5 fails as stated. A speech request with `Speed` set to 0 and
`ResponseFormat` set to the empty string is written without the keys `speed`
and `response_format`, and an embedding request with `EncodingFormat` set to the
empty string without the key `encoding_format`: the bodies are those of the
requests in which these fields were never assigned. -/
theorem zero_speed_is_not_emitted :
    json.Marshal (SpeechRequest.toJSON Strconv.go
        { Model := "tts-1", Input := "hi", Voice := "alloy", ResponseFormat := "", Speed := ⟨0⟩ }) =
      .ok (encodeUTF8
        "\x7b\"model\":\"tts-1\",\"input\":\"hi\",\"voice\":\"alloy\"\x7d".data) ∧
    json.Marshal (sampleSpeechRequest.toJSON Strconv.go) =
      .ok (encodeUTF8
        "\x7b\"model\":\"tts-1\",\"input\":\"hi\",\"voice\":\"alloy\"\x7d".data) ∧
    json.Marshal (EmbeddingRequest.toJSON Strconv.go
        { Input := .string "hi", Model := "text-embedding-3-small", EncodingFormat := "",
          Dimensions := none, User := none }) =
      .ok (encodeUTF8
        "\x7b\"input\":\"hi\",\"model\":\"text-embedding-3-small\"\x7d".data) ∧
    json.Marshal (sampleEmbeddingRequest.toJSON Strconv.go) =
      .ok (encodeUTF8
        "\x7b\"input\":\"hi\",\"model\":\"text-embedding-3-small\"\x7d".data) :=
  ⟨rfl, rfl, rfl, rfl⟩

end OpenAI
